import Mathlib

/-!
# mk3-prog-cli: serial framing and command protocol

A shallow embedding of `spi-com.c`, `cmd.c` and `cmd-usb.c`.

Bytes are natural numbers; a narrowing C conversion is written as an explicit
`% 256` or `% 65536`.  The external libraries (libmpsse for the clocked serial
bus, libusb for the bulk endpoints) are modelled as explicit state with an
oracle that fixes, per operation, what the library reports.
-/

namespace Mk3Prog

/-! ## The MPSSE bus (libmpsse, external) -/

/-- One call into libmpsse, as seen on the bus. -/
inductive BusOp where
  | start
  | stop
  | write (bytes : List Nat)
  | read (size : Nat)
deriving DecidableEq, Repr

/-- State of the opened MPSSE interface.  `rx` holds the bytes the device will
clock out on the coming reads, `log` the calls made so far (oldest first), and
`fail k` tells whether the call number `k` (counted from 0) reports failure. -/
structure Mpsse where
  rx : List Nat
  log : List BusOp
  fail : Nat → Bool

/-- Success status of libmpsse. -/
def MPSSE_OK : Int := 0

/-- Failure status of libmpsse. -/
def MPSSE_FAIL : Int := -1

/-- Record a call in the log. -/
def Mpsse.record (m : Mpsse) (op : BusOp) : Mpsse :=
  { m with log := m.log ++ [op] }

/-- Status reported for the call about to be made. -/
def Mpsse.status (m : Mpsse) : Int :=
  if m.fail m.log.length then MPSSE_FAIL else MPSSE_OK

/-- libmpsse `Start`: asserts the start condition. -/
def Start (m : Mpsse) : Mpsse × Int :=
  (m.record BusOp.start, m.status)

/-- libmpsse `Stop`: asserts the stop condition. -/
def Stop (m : Mpsse) : Mpsse × Int :=
  (m.record BusOp.stop, m.status)

/-- libmpsse `Write`: clocks out `bytes`. -/
def Write (m : Mpsse) (bytes : List Nat) : Mpsse × Int :=
  (m.record (BusOp.write bytes), m.status)

/-- libmpsse `Read`: clocks in `size` bytes and returns them in a fresh buffer,
or returns NULL (`none`).  A read fails when the oracle says so or when the
device has fewer than `size` bytes left; a failed read consumes nothing. -/
def Read (m : Mpsse) (size : Nat) : Mpsse × Option (List Nat) :=
  if m.fail m.log.length = true ∨ m.rx.length < size then
    (m.record (BusOp.read size), none)
  else
    ({ m with rx := m.rx.drop size, log := m.log ++ [BusOp.read size] },
      some (m.rx.take size))

/-! ## spi-com.h / spi-com.c -/

/-- Start of frame marker. -/
def SC_SOF : Nat := 0x7E

/-- End of frame marker. -/
def SC_EOF : Nat := 0x7D

/-- Maximum data payload is 32 bytes long. -/
def SC_MAX_DATALEN : Nat := 32

/-- OK status (0). -/
def SC_OK : Int := MPSSE_OK

/-- Error status (-1). -/
def SC_ERROR : Int := MPSSE_FAIL

/-- The frame buffer contents handed to `Write`: `frame[0] = SC_SOF`,
`frame[1] = len`, the `len` payload bytes copied from `data + sent`, and
`frame[len + 2] = SC_EOF`. -/
def buildFrame (data : List Nat) (sent len : Nat) : List Nat :=
  SC_SOF :: len :: ((data.drop sent).take len ++ [SC_EOF])

/-- The `for` loop of `SCFrameSend` with its two `uint16_t` counters. -/
def SCFrameSend.loop (m : Mpsse) (data : List Nat) (sent rem : Nat) : Mpsse × Int :=
  if 0 < rem then
    let len := min rem SC_MAX_DATALEN
    let frame := buildFrame data sent len
    let s := Start m
    if s.2 ≠ 0 then ((Stop s.1).1, SC_ERROR) else
    let w := Write s.1 (frame.take (len + 3))
    if w.2 ≠ 0 then ((Stop w.1).1, SC_ERROR) else
    let p := Stop w.1
    if p.2 ≠ 0 then ((Stop p.1).1, SC_ERROR) else
    SCFrameSend.loop p.1 data ((sent + len) % 65536) ((rem - len) % 65536)
  else
    (m, SC_OK)
termination_by rem
decreasing_by
  simp only [SC_MAX_DATALEN]
  omega

/-- Sends data through the MPSSE interface, using a tiny framing protocol.
`datalen` is a `uint16_t`. -/
def SCFrameSend (m : Mpsse) (data : List Nat) (datalen : Nat) : Mpsse × Int :=
  SCFrameSend.loop m data 0 (datalen % 65536)

/-- The `do ... while (*data != SC_SOF)` loop of `SCFrameRecv`: reads single
bytes until the start marker is seen (`true`) or a read fails (`false`). -/
def SCFrameRecv.seek (m : Mpsse) : Mpsse × Bool :=
  match h : Read m 1 with
  | (m1, none) => (m1, false)
  | (m1, some d) =>
    if d.headD 0 ≠ SC_SOF then SCFrameRecv.seek m1 else (m1, true)
termination_by m.rx.length
decreasing_by
  unfold Read at h
  split at h
  · simp at h
  · simp only [Prod.mk.injEq] at h
    rw [← h.1]
    simp only [List.length_drop]
    omega

/-- Receives data through the MPSSE interface.  Returns the final bus state,
the returned buffer (`none` for NULL) and the final value of `*maxlen`. -/
def SCFrameRecv (m : Mpsse) (maxlen : Nat) : Mpsse × Option (List Nat) × Nat :=
  let s := Start m
  if s.2 ≠ 0 then ((Stop s.1).1, none, maxlen) else
  let k := SCFrameRecv.seek s.1
  if k.2 = false then ((Stop k.1).1, none, maxlen) else
  match Read k.1 1 with
  | (m3, none) => ((Stop m3).1, none, maxlen)
  | (m3, some d) =>
    let length := d.headD 0 % 256
    if length > maxlen then ((Stop m3).1, none, maxlen) else
    match Read m3 (length + 1) with
    | (m4, none) => ((Stop m4).1, none, maxlen)
    | (m4, some data) =>
      let p := Stop m4
      if p.2 ≠ 0 then ((Stop p.1).1, none, maxlen) else
      if data.getD length 0 ≠ SC_EOF then (p.1, none, maxlen) else
      (p.1, some data, length)

/-- All bytes written to the bus by the calls of a log, in order. -/
def written : List BusOp → List Nat
  | [] => []
  | BusOp.write bytes :: rest => bytes ++ written rest
  | _ :: rest => written rest

/-- The three bus calls that put one frame with payload `c` on the wire. -/
def frameOps (c : List Nat) : List BusOp :=
  [BusOp.start, BusOp.write (SC_SOF :: c.length :: (c ++ [SC_EOF])), BusOp.stop]

/-! ## cmd.c (serial transport)

`cmd.h` is not among the sources.  `cmd-usb.h` declares the same interface, and
its return codes are used for both modules; the serial value of `CMD_MAXLEN` is
a parameter of the functions that use it. -/

/-- Function completed successfully. -/
def CMD_OK : Int := 0

/-- Function completed with error. -/
def CMD_ERROR : Int := -1

namespace Cmd

/-- Sends a command, and obtains the command response.  `rep` is the value of
`*rep` on entry; the result holds the bus state, the value of `*rep` on return
and the returned `int`. -/
def CmdSend (CMD_MAXLEN : Nat) (spi : Mpsse) (cmd : List Nat) (cmdLen : Nat)
    (rep : Option (List Nat)) : Mpsse × Option (List Nat) × Int :=
  let s := SCFrameSend spi cmd (cmdLen % 256)
  if s.2 ≠ SC_OK then (s.1, rep, CMD_ERROR) else
  let maxLen := CMD_MAXLEN % 256
  let r := SCFrameRecv s.1 maxLen
  match r.2.1 with
  | none => (r.1, none, CMD_ERROR)
  | some b => (r.1, some b, (r.2.2 : Int))

/-- The payload loop of `CmdSendLongCmd`: `sent` and `dataLen` are `int`. -/
def CmdSendLongCmd.loop (CMD_MAXLEN : Nat) (hpos : 0 < CMD_MAXLEN) (spi : Mpsse)
    (data : List Nat) (dataLen sent : Int) : Mpsse × Int :=
  if sent < dataLen then
    let last := min (dataLen - sent) (CMD_MAXLEN : Int)
    let s := SCFrameSend spi (data.drop sent.toNat) last.toNat
    if SC_OK ≠ s.2 then (s.1, CMD_ERROR) else
    CmdSendLongCmd.loop CMD_MAXLEN hpos s.1 data dataLen (sent + last)
  else
    (spi, CMD_OK)
termination_by (dataLen - sent).toNat
decreasing_by omega

/-- Sends a command with a long data payload, and obtains the command
response. -/
def CmdSendLongCmd (CMD_MAXLEN : Nat) (hpos : 0 < CMD_MAXLEN) (spi : Mpsse)
    (cmd : List Nat) (cmdLen : Nat) (data : List Nat) (dataLen : Int)
    (rep : Option (List Nat)) : Mpsse × Option (List Nat) × Int :=
  let s := SCFrameSend spi cmd (cmdLen % 256)
  if SC_OK ≠ s.2 then (s.1, rep, CMD_ERROR) else
  let maxLen := CMD_MAXLEN % 256
  let r := SCFrameRecv s.1 maxLen
  match r.2.1 with
  | none => (r.1, none, CMD_ERROR)
  | some b =>
    let l := CmdSendLongCmd.loop CMD_MAXLEN hpos r.1 data dataLen 0
    (l.1, some b, l.2)

end Cmd

/-! ## The USB device (libusb, external) -/

/-- One bulk transfer requested from libusb. -/
inductive UsbOp where
  | bulkOut (endpoint : Nat) (bytes : List Nat) (tout : Nat)
  | bulkIn (endpoint : Nat) (length : Int) (tout : Nat)
deriving DecidableEq, Repr

/-- What libusb reports for one transfer: the return code, the transferred
count it stores for an OUT transfer, and the bytes the device delivers on an IN
transfer. -/
structure UsbReply where
  ret : Int
  transferred : Int
  data : List Nat

/-- State of the opened USB device: the transfers requested so far (oldest
first) and what libusb reports for transfer number `k`. -/
structure Usb where
  log : List UsbOp
  reply : Nat → UsbReply

/-- libusb success code. -/
def LIBUSB_SUCCESS : Int := 0

/-- Outcome of `libusb_bulk_transfer`: the new device state, the return code,
the value stored in `*transferred` and the contents of the data buffer. -/
structure Transfer where
  dev : Usb
  ret : Int
  transferred : Int
  buf : List Nat

/-- Model of `libusb_bulk_transfer`.  Bit 7 of the endpoint address selects the
direction.  An OUT transfer hands the first `length` bytes of `buf` to the
device; an IN transfer stores at most `length` delivered bytes at the start of
`buf` and reports their count. -/
def libusb_bulk_transfer (h : Usb) (endpoint : Nat) (buf : List Nat) (length : Int)
    (tout : Nat) : Transfer :=
  let r := h.reply h.log.length
  if endpoint / 128 % 2 = 1 then
    let recvd := r.data.take length.toNat
    { dev := { h with log := h.log ++ [UsbOp.bulkIn endpoint length tout] },
      ret := r.ret,
      transferred := (recvd.length : Int),
      buf := recvd ++ buf.drop recvd.length }
  else
    { dev := { h with log := h.log ++ [UsbOp.bulkOut endpoint (buf.take length.toNat) tout] },
      ret := r.ret,
      transferred := r.transferred,
      buf := buf }

/-! ## cmd-usb.h / cmd-usb.c (bulk transport) -/

/-- Device IN endpoint. -/
def CMD_ENDPOINT_IN : Nat := 0x83

/-- Device OUT endpoint. -/
def CMD_ENDPOINT_OUT : Nat := 0x04

/-- USB endpoint length. -/
def CMD_ENDPOINT_LEN : Nat := 64

/-- Commands byte size. -/
def COMMAND_FRAME_BYTES : Nat := CMD_ENDPOINT_LEN

/-- OK reply code. -/
def CMD_REP_OK : Nat := 0

/-- Error reply code. -/
def CMD_REP_ERROR : Nat := 255

namespace CmdUsb

/-- Sends a command, and obtains the command response.  `cmd` is `cmd->data`
and `rep` is `(*rep)->data`; the result holds the device state, the reply
buffer on return and the returned `int`. -/
def CmdSend (hCmd : Usb) (cmd : List Nat) (cmdLen : Nat) (rep : List Nat)
    (tout : Nat) : Usb × List Nat × Int :=
  let o := libusb_bulk_transfer hCmd CMD_ENDPOINT_OUT cmd COMMAND_FRAME_BYTES tout
  if o.ret ≠ LIBUSB_SUCCESS ∨ o.transferred ≠ COMMAND_FRAME_BYTES then
    (o.dev, rep, CMD_ERROR)
  else
    let i := libusb_bulk_transfer o.dev CMD_ENDPOINT_IN rep COMMAND_FRAME_BYTES tout
    if i.ret ≠ LIBUSB_SUCCESS then (i.dev, i.buf, CMD_ERROR)
    else (i.dev, i.buf, i.transferred)

/-- Sends a command with a long data payload, and obtains the command
response. -/
def CmdSendLongCmd (hCmd : Usb) (cmd : List Nat) (cmdLen : Nat) (data : List Nat)
    (dataLen : Int) (rep : List Nat) (tout : Nat) : Usb × List Nat × Int :=
  let c := CmdSend hCmd cmd cmdLen rep tout
  if c.2.2 ≠ CMD_OK then (c.1, c.2.1, CMD_ERROR) else
  let t := libusb_bulk_transfer c.1 CMD_ENDPOINT_OUT data dataLen tout
  if t.ret ≠ LIBUSB_SUCCESS ∨ t.transferred ≠ dataLen then (t.dev, c.2.1, CMD_ERROR)
  else (t.dev, c.2.1, CMD_OK)

end CmdUsb

/-! ## The receiver as a function of the stream

A description of what `SCFrameRecv` computes when no bus call fails, used to
compare runs on different streams. -/

/-- The stream that follows the first start marker, if there is one. -/
def afterSOF : List Nat → Option (List Nat)
  | [] => none
  | b :: t => if b = SC_SOF then some t else afterSOF t

/-- The returned buffer, the final `*maxlen` and the unread rest of the stream
for a receive on which no bus call fails. -/
def decodeFrame (rx : List Nat) (maxlen : Nat) : Option (List Nat) × Nat × List Nat :=
  match afterSOF rx with
  | none => (none, maxlen, [])
  | some [] => (none, maxlen, [])
  | some (lenb :: tail) =>
    if lenb % 256 > maxlen then (none, maxlen, tail)
    else if tail.length < lenb % 256 + 1 then (none, maxlen, tail)
    else if tail.getD (lenb % 256) 0 ≠ SC_EOF then (none, maxlen, tail.drop (lenb % 256 + 1))
    else (some (tail.take (lenb % 256 + 1)), lenb % 256, tail.drop (lenb % 256 + 1))

/-! ## cmd.c, continued: cursor of the long command and the long reply -/

/-- The bytes of one frame with payload `c` as they travel on the wire. -/
def frameBytes (c : List Nat) : List Nat :=
  SC_SOF :: c.length :: (c ++ [SC_EOF])

/-- The bus calls by which `SCFrameRecv` takes in one frame with payload `c`
that starts right at the head of the stream. -/
def recvOps (c : List Nat) : List BusOp :=
  [BusOp.start, BusOp.read 1, BusOp.read 1, BusOp.read (c.length + 1), BusOp.stop]

/-- Model of `memcpy(dst + off, src, n)` on a buffer that holds at least
`off + n` bytes. -/
def memcpy (dst : List Nat) (off : Nat) (src : List Nat) (n : Nat) : List Nat :=
  dst.take off ++ src.take n ++ dst.drop (off + n)

namespace Cmd

/-- Value of the local `sent` of `CmdSendLongCmd` when its payload loop is
left, by the error return or by the loop condition: the sum of the chunk
sizes handed to `SCFrameSend` with success. -/
def CmdSendLongCmd.cursor (CMD_MAXLEN : Nat) (hpos : 0 < CMD_MAXLEN) (spi : Mpsse)
    (data : List Nat) (dataLen sent : Int) : Int :=
  if sent < dataLen then
    let last := min (dataLen - sent) (CMD_MAXLEN : Int)
    let s := SCFrameSend spi (data.drop sent.toNat) last.toNat
    if SC_OK ≠ s.2 then sent else
    CmdSendLongCmd.cursor CMD_MAXLEN hpos s.1 data dataLen (sent + last)
  else
    sent
termination_by (dataLen - sent).toNat
decreasing_by omega

/-- Bus state and value of `sent` at the start of iteration `k` of the payload
loop of `CmdSendLongCmd`, the iterations before it having run to their end. -/
def CmdSendLongCmd.iter (CMD_MAXLEN : Nat) (spi : Mpsse) (data : List Nat)
    (dataLen : Int) : Nat → Mpsse × Int
  | 0 => (spi, 0)
  | k + 1 =>
    let st := CmdSendLongCmd.iter CMD_MAXLEN spi data dataLen k
    let last := min (dataLen - st.2) (CMD_MAXLEN : Int)
    ((SCFrameSend st.1 (data.drop st.2.toNat) last.toNat).1, st.2 + last)

/-- Outcome of the `SCFrameSend` call of iteration `k` of the payload loop. -/
def CmdSendLongCmd.chunk (CMD_MAXLEN : Nat) (spi : Mpsse) (data : List Nat)
    (dataLen : Int) (k : Nat) : Mpsse × Int :=
  SCFrameSend (CmdSendLongCmd.iter CMD_MAXLEN spi data dataLen k).1
    (data.drop (CmdSendLongCmd.iter CMD_MAXLEN spi data dataLen k).2.toNat)
    (min (dataLen - (CmdSendLongCmd.iter CMD_MAXLEN spi data dataLen k).2)
      (CMD_MAXLEN : Int)).toNat

/-- The receive loop of `CmdSendLongRep`; `expected` and `last` are `uint8_t`.
The result holds the bus state, the buffer `data`, the value of `recv` when the
loop is left and the returned `int`. -/
def CmdSendLongRep.loop (CMD_MAXLEN : Nat) (hpos : 0 < CMD_MAXLEN) (h255 : CMD_MAXLEN ≤ 255)
    (spi : Mpsse) (data : List Nat) (recvLen recv : Int) : Mpsse × List Nat × Int × Int :=
  if hlt : recv < recvLen then
    let expected := (min (recvLen - recv) (CMD_MAXLEN : Int)).toNat % 256
    let r := SCFrameRecv spi expected
    match r.2.1 with
    | none => (r.1, data, recv, CMD_ERROR)
    | some tmp =>
      if he : expected ≠ r.2.2 then (r.1, data, recv, CMD_ERROR) else
      CmdSendLongRep.loop CMD_MAXLEN hpos h255 r.1 (memcpy data recv.toNat tmp r.2.2) recvLen
        (recv + (r.2.2 : Int))
  else
    (spi, data, recv, recv)
termination_by (recvLen - recv).toNat
decreasing_by
  simp only [ne_eq, Decidable.not_not, expected, r] at he
  omega

/-- Sends a command requiring a long response payload.  The result holds the
bus state, the value of `*rep`, the buffer `data` and the returned `int`. -/
def CmdSendLongRep (CMD_MAXLEN : Nat) (hpos : 0 < CMD_MAXLEN) (h255 : CMD_MAXLEN ≤ 255)
    (spi : Mpsse) (cmd : List Nat) (cmdLen : Nat) (rep : Option (List Nat))
    (data : List Nat) (recvLen : Int) : Mpsse × Option (List Nat) × List Nat × Int :=
  let s := SCFrameSend spi cmd (cmdLen % 256)
  if SC_OK ≠ s.2 then (s.1, rep, data, CMD_ERROR) else
  let maxCmdLen := CMD_MAXLEN % 256
  let r := SCFrameRecv s.1 maxCmdLen
  match r.2.1 with
  | none => (r.1, none, data, CMD_ERROR)
  | some b =>
    let l := CmdSendLongRep.loop CMD_MAXLEN hpos h255 r.1 data recvLen 0
    (l.1, some b, l.2.1, l.2.2.2)

/-- The frames `fs` carry, one after the other, exactly the chunk sizes the
receive loop asks for when `remaining` bytes are still to come:
`min(remaining, CMD_MAXLEN)` each time, until nothing remains. -/
def framesMatch (CMD_MAXLEN : Nat) : Int → List (List Nat) → Bool
  | remaining, [] => decide (remaining ≤ 0)
  | remaining, c :: fs =>
    decide (0 < remaining) && decide ((c.length : Int) = min remaining (CMD_MAXLEN : Int))
      && framesMatch CMD_MAXLEN (remaining - (c.length : Int)) fs

end Cmd

/-! ## cmd-usb.c, continued: the long reply -/

/-- Maximum USB transfer length. -/
def CMD_MAX_USB_TRANSFER_LEN : Int := 384

namespace CmdUsb

/-- The `while` loop of `CmdSendLongRep`: a failed or short transfer is only
reported on `stderr`.  The result holds the device state, the buffer `data`
and the final `recvd`. -/
def CmdSendLongRep.loop (hCmd : Usb) (data : List Nat) (recvLen recvd : Int) (tout : Nat) :
    Usb × List Nat × Int :=
  if recvd < recvLen then
    let step := min CMD_MAX_USB_TRANSFER_LEN (recvLen - recvd)
    let t := libusb_bulk_transfer hCmd CMD_ENDPOINT_IN (data.drop recvd.toNat) step tout
    CmdSendLongRep.loop t.dev (data.take recvd.toNat ++ t.buf) recvLen (recvd + step) tout
  else
    (hCmd, data, recvd)
termination_by (recvLen - recvd).toNat
decreasing_by
  simp only [CMD_MAX_USB_TRANSFER_LEN]
  omega

/-- Sends a command requiring a long response payload.  `data` is `none` for a
NULL pointer.  The result holds the device state, the reply buffer, the buffer
`data` and the returned `int`. -/
def CmdSendLongRep (hCmd : Usb) (cmd : List Nat) (cmdLen : Nat) (rep : List Nat)
    (data : Option (List Nat)) (recvLen : Int) (tout : Nat) :
    Usb × List Nat × Option (List Nat) × Int :=
  let c := CmdSend hCmd cmd cmdLen rep tout
  if c.2.2 ≠ CMD_OK then (c.1, c.2.1, data, CMD_ERROR) else
  match data with
  | none => (c.1, c.2.1, none, 0)
  | some d =>
    if recvLen ≠ 0 then
      let l := CmdSendLongRep.loop c.1 d recvLen 0 tout
      (l.1, c.2.1, some l.2.1, l.2.2)
    else (c.1, c.2.1, some d, 0)

end CmdUsb

/-! ## main.c

`main.c` is built against the serial `cmd.h` interface.  A local `Cmd cmd` is
not initialised, so its contents on entry are an argument of the functions
below; so is the value of the local `rep` where the source leaves it
uninitialised.  `malloc` is taken to succeed. -/

/-- Character ROM chip (CHR ROM). -/
def PROG_CHIP_CHR : Nat := 0

/-- Program ROM chip (PRG ROM). -/
def PROG_CHIP_PRG : Nat := 1

/-- Last value for programmable chips. -/
def PROG_CHIP_MAX : Nat := PROG_CHIP_PRG

/-- Sector address that stands for the whole chip. -/
def PROG_ERASE_FULL : Nat := 0xFFFFFF

/-- Write to CHR flash. -/
def CMD_CHR_WRITE : Nat := 2

/-- Read from CHR flash. -/
def CMD_CHR_READ : Nat := 4

/-- Erase CHR flash (entire or sectors). -/
def CMD_CHR_ERASE : Nat := 6

/-- Size of `CmdRdWrHdr`: command code, three address bytes, two length
bytes. -/
def sizeofCmdRdWrHdr : Nat := 6

/-- The macro `CMD_SET_ADDR(field, addr)` for the three-byte field that starts
at offset `off` of the command buffer; each byte is stored as `uint8_t`. -/
def CMD_SET_ADDR (cmd : List Nat) (off addr : Nat) : List Nat :=
  ((cmd.set off ((addr >>> 16) % 256)).set (off + 1) ((addr >>> 8) % 256)).set (off + 2)
    (addr % 256)

/-- The macro `CMD_SET_LEN(field, len)` for the two-byte field that starts at
offset `off` of the command buffer; each byte is stored as `uint8_t`. -/
def CMD_SET_LEN (cmd : List Nat) (off len : Nat) : List Nat :=
  (cmd.set off ((len >>> 8) % 256)).set (off + 1) (len % 256)

/-- Erases specified flash; `chip` is a `uint8_t`, `addr` a `uint32_t`.  The
result holds the bus state, the value of `rep` after `CmdSend` (before it is
freed) and the returned `int`. -/
def ProgFlashErase (CMD_MAXLEN : Nat) (spi : Mpsse) (cmd : List Nat)
    (rep : Option (List Nat)) (chip addr : Nat) : Mpsse × Option (List Nat) × Int :=
  let cmd1 := cmd.set 0 ((CMD_CHR_ERASE + chip) % 256)
  let cmd2 := CMD_SET_ADDR cmd1 1 addr
  let r := Cmd.CmdSend CMD_MAXLEN spi cmd2 4 rep
  if r.2.2 < 0 then (r.1, r.2.1, -1) else (r.1, r.2.1, 0)

/-- How an `AllocAnd...` routine ends: it returns the buffer, it returns NULL,
or its error path reads `rep->command` through a NULL `rep`. -/
inductive Ret where
  | buf (b : List Nat)
  | null
  | nullDeref
deriving DecidableEq, Repr

/-- The command loop of `AllocAndFlash`; `i` and `addr` are `uint32_t`, and `i`
never exceeds `len`.  `rep` keeps its (stale) value after `CmdRepFree`. -/
def AllocAndFlash.loop (CMD_MAXLEN : Nat) (hpos : 0 < CMD_MAXLEN) (spi : Mpsse)
    (cmd : List Nat) (rep : Option (List Nat)) (writeBuf : List Nat) (len i addr : Nat) :
    Mpsse × Ret :=
  if i < len then
    let toWrite := min 32768 (len - i)
    let cmd1 := CMD_SET_ADDR cmd 1 addr
    let cmd2 := CMD_SET_LEN cmd1 4 toWrite
    let r := Cmd.CmdSendLongCmd CMD_MAXLEN hpos spi cmd2 sizeofCmdRdWrHdr (writeBuf.drop i)
      (toWrite : Int) rep
    if r.2.2 ≠ CMD_OK ∨ (r.2.1.getD []).headD 0 ≠ CMD_REP_OK then
      match r.2.1 with
      | none => (r.1, Ret.nullDeref)
      | some _ => (r.1, Ret.null)
    else
      AllocAndFlash.loop CMD_MAXLEN hpos r.1 cmd2 r.2.1 writeBuf len (i + toWrite)
        ((addr + toWrite) % 4294967296)
  else
    (spi, Ret.buf writeBuf)
termination_by len - i
decreasing_by omega

/-- Reads the image file and writes it to the specified flash chip.  `file` is
the contents of the file `f->file`, `none` when it cannot be opened; `f_addr`
and `f_len` are the fields of the `MemImage`. -/
def AllocAndFlash (CMD_MAXLEN : Nat) (hpos : 0 < CMD_MAXLEN) (spi : Mpsse) (cmd : List Nat)
    (chip : Nat) (file : Option (List Nat)) (f_addr f_len : Nat) : Mpsse × Ret :=
  if chip > PROG_CHIP_MAX then (spi, Ret.null) else
  match file with
  | none => (spi, Ret.null)
  | some content =>
    let len := if f_len = 0 then content.length % 4294967296 else f_len
    if len = 0 ∨ content.length < len then (spi, Ret.null) else
    let writeBuf := content.take len
    let cmd0 := cmd.set 0 ((CMD_CHR_WRITE + chip) % 256)
    AllocAndFlash.loop CMD_MAXLEN hpos spi cmd0 none writeBuf len 0 f_addr

/-- The command loop of `AllocAndRead`; `i` and `addr` are `uint32_t`, and `i`
never exceeds `len`. -/
def AllocAndRead.loop (CMD_MAXLEN : Nat) (hpos : 0 < CMD_MAXLEN) (h255 : CMD_MAXLEN ≤ 255)
    (spi : Mpsse) (cmd : List Nat) (rep : Option (List Nat)) (readBuf : List Nat)
    (len i addr : Nat) : Mpsse × Ret :=
  if i < len then
    let toRead := min 32768 (len - i)
    let cmd1 := CMD_SET_ADDR cmd 1 addr
    let cmd2 := CMD_SET_LEN cmd1 4 toRead
    let r := Cmd.CmdSendLongRep CMD_MAXLEN hpos h255 spi cmd2 sizeofCmdRdWrHdr rep
      (readBuf.drop i) (toRead : Int)
    if r.2.2.2 ≠ (toRead : Int) ∨ (r.2.1.getD []).headD 0 ≠ CMD_REP_OK then
      match r.2.1 with
      | none => (r.1, Ret.nullDeref)
      | some _ => (r.1, Ret.null)
    else
      AllocAndRead.loop CMD_MAXLEN hpos h255 r.1 cmd2 r.2.1 (readBuf.take i ++ r.2.2.1) len
        (i + toRead) ((addr + toRead) % 4294967296)
  else
    (spi, Ret.buf readBuf)
termination_by len - i
decreasing_by omega

/-- Reads the range given by the `MemImage` from the specified flash chip.
`readBuf` is the content of the freshly allocated buffer of `f_len` bytes. -/
def AllocAndRead (CMD_MAXLEN : Nat) (hpos : 0 < CMD_MAXLEN) (h255 : CMD_MAXLEN ≤ 255)
    (spi : Mpsse) (cmd : List Nat) (chip : Nat) (readBuf : List Nat) (f_addr f_len : Nat) :
    Mpsse × Ret :=
  if chip > PROG_CHIP_MAX then (spi, Ret.null) else
  let cmd0 := cmd.set 0 ((CMD_CHR_READ + chip) % 256)
  AllocAndRead.loop CMD_MAXLEN hpos h255 spi cmd0 none readBuf f_len 0 f_addr

/-- One command of a flash transfer as it shows on the bus: the command bytes,
the header reply, and the frames that carry its payload. -/
structure Block where
  cmd : List Nat
  reply : List Nat
  frames : List (List Nat)

/-- The bus calls of one write command: the command frame goes out, the reply
frame comes in, the payload frames go out. -/
def Block.writeOps (b : Block) : List BusOp :=
  [BusOp.start, BusOp.write (frameBytes b.cmd), BusOp.stop] ++ recvOps b.reply
    ++ b.frames.flatMap (fun c => [BusOp.start, BusOp.write (frameBytes c), BusOp.stop])

/-- The bus calls of one read command: the command frame goes out, the reply
frame and the payload frames come in. -/
def Block.readOps (b : Block) : List BusOp :=
  [BusOp.start, BusOp.write (frameBytes b.cmd), BusOp.stop] ++ recvOps b.reply
    ++ b.frames.flatMap recvOps

/-- What the device sends in answer to one read command: the reply frame, then
the payload frames. -/
def answerBytes (a : List Nat × List (List Nat)) : List Nat :=
  frameBytes a.1 ++ a.2.flatMap frameBytes

/-- The six bytes of a read or write command: opcode, big-endian address,
big-endian length. -/
def rdWrCmd (opcode addr len : Nat) : List Nat :=
  [opcode, (addr >>> 16) % 256, (addr >>> 8) % 256, addr % 256, (len >>> 8) % 256, len % 256]

/-! ## C strings and the C library

A C string is the list of its character codes; a buffer read at or past the
end of the list yields the terminator 0. -/

/-- The character codes of a string literal. -/
def cstr (s : String) : List Nat := s.toList.map Char.toNat

/-- The C string that starts at offset `off` of the buffer `buf`. -/
def cstrAt (buf : List Nat) (off : Nat) : List Nat :=
  (buf.drop off).takeWhile (fun c => c ≠ 0)

/-- Conversion of a `long` to `uint32_t`. -/
def toU32 (v : Int) : Nat := (v % 4294967296).toNat

/-- Conversion of a `long` or a `uint32_t` to `int`, wrapping as gcc does. -/
def toInt32 (v : Int) : Int := (v + 2147483648) % 4294967296 - 2147483648

/-- The C library predicate `isspace` in the C locale. -/
def isspace (c : Nat) : Bool := c = 32 ∨ (9 ≤ c ∧ c ≤ 13)

/-- Value of a character as a digit, 36 when it is none. -/
def digitVal (c : Nat) : Nat :=
  if 48 ≤ c ∧ c ≤ 57 then c - 48
  else if 97 ≤ c ∧ c ≤ 122 then c - 87
  else if 65 ≤ c ∧ c ≤ 90 then c - 55
  else 36

/-- The digits of `strtol`: value accumulated and number of digits read. -/
def strtol.digits (base : Nat) : List Nat → Nat → Nat → Nat × Nat
  | [], acc, n => (acc, n)
  | c :: cs, acc, n =>
    if digitVal c < base then strtol.digits base cs (acc * base + digitVal c) (n + 1)
    else (acc, n)

/-- The C library function `strtol(nptr, &endptr, base)` for base 0, 8, 10 or
16, as ISO C describes it, with a `long` of 64 bits: white space, an optional
sign, an optional `0x` for base 0 or 16, then digits; base 0 reads a leading
`0` as octal and anything else as decimal.  The result is the value and the
number of characters consumed, both 0 when there is no digit to convert. -/
def strtol (nptr : List Nat) (base : Nat) : Int × Nat :=
  let ws := (nptr.takeWhile isspace).length
  let s1 := nptr.drop ws
  let sg := if s1.headD 0 = 45 ∨ s1.headD 0 = 43 then 1 else 0
  let s2 := s1.drop sg
  let hex : Bool := (base = 0 ∨ base = 16) ∧ s2.headD 0 = 48
    ∧ (s2.getD 1 0 = 120 ∨ s2.getD 1 0 = 88) ∧ digitVal (s2.getD 2 0) < 16
  let b := if hex then 16 else if base = 0 then (if s2.headD 0 = 48 then 8 else 10) else base
  let pre := if hex then 2 else 0
  let d := strtol.digits b (s2.drop pre) 0 0
  if d.2 = 0 then (0, 0) else
  let v : Int := if s1.headD 0 = 45 then -(d.1 : Int) else (d.1 : Int)
  (max (-9223372036854775808) (min 9223372036854775807 v), ws + sg + pre + d.2)

/-! ## main.c: the command line -/

/-- Maximum file length. -/
def MAX_FILELEN : Nat := 255

/-- Definition of a file representing a memory image; `file` is `none` for a
NULL pointer, else the buffer it points to. -/
structure MemImage where
  file : Option (List Nat)
  addr : Nat
  len : Nat
deriving DecidableEq, Repr

/-- The loop `for (; i < (MAX_FILELEN + 1) && file[i] != 0 && file[i] != ':';
i++);` started with `i` and `n = MAX_FILELEN + 1 - i` rounds to go; the result
is the final `i`. -/
def ParseMemArgument.token (file : List Nat) : Nat → Nat → Nat
  | 0, i => i
  | n + 1, i =>
    if file.getD i 0 ≠ 0 ∧ file.getD i 0 ≠ 58 then ParseMemArgument.token file n (i + 1)
    else i

/-- The loop `for (; i < (MAX_FILELEN + 1) && file[i] != 0; i++);`. -/
def ParseMemArgument.rest (file : List Nat) : Nat → Nat → Nat
  | 0, i => i
  | n + 1, i =>
    if file.getD i 0 ≠ 0 then ParseMemArgument.rest file n (i + 1) else i

/-- The first part of `ParseMemArgument`, which cuts `m->file` into tokens.
Pointers into the buffer are offsets, `none` is NULL.  The result is either the
value returned at once with the buffer as it is then, or the buffer with the
separators overwritten by 0 and the pointers `addr` and `len`. -/
def ParseMemArgument.split (file : List Nat) :
    Except (Int × List Nat) (List Nat × Nat × Option Nat) :=
  let i1 := ParseMemArgument.token file (MAX_FILELEN + 1) 0
  if i1 = MAX_FILELEN + 1 then Except.error (1, file) else
  if file.getD i1 0 = 0 then Except.error (0, file) else
  let f1 := file.set i1 0
  let addr := i1 + 1
  let i2 := ParseMemArgument.token f1 (MAX_FILELEN + 1 - addr) addr
  if i2 = MAX_FILELEN + 1 then Except.error (1, f1) else
  if f1.getD i2 0 = 58 then
    let f2 := f1.set i2 0
    let i3 := ParseMemArgument.rest f2 (MAX_FILELEN + 1 - (i2 + 1)) (i2 + 1)
    if f2.getD i3 0 ≠ 0 then Except.error (1, f2) else Except.ok (f2, addr, some (i2 + 1))
  else Except.ok (f1, addr, none)

/-- The second part of `ParseMemArgument`, from `Convert strings to numbers and
return` on.  `endPtr` is the value of the local `endPtr`, which the source
leaves uninitialised; `strtol` is the C library function. -/
def ParseMemArgument.convert (strtol : List Nat → Nat → Int × Nat) (endPtr : Option Nat)
    (file : List Nat) (addr : Nat) (len : Option Nat) : Int × MemImage :=
  let a : Nat × Option Nat :=
    if file.getD addr 0 ≠ 0 then
      (toU32 (strtol (cstrAt file addr) 0).1, some (addr + (strtol (cstrAt file addr) 0).2))
    else (0, endPtr)
  if a.1 = 0 ∧ some addr = a.2 then (2, ⟨some file, a.1, 0⟩) else
  let l : Nat × Option Nat :=
    match len with
    | none => (0, a.2)
    | some lo =>
      if file.getD lo 0 ≠ 0 then
        (toU32 (strtol (cstrAt file lo) 0).1, some (lo + (strtol (cstrAt file lo) 0).2))
      else (0, a.2)
  if l.1 = 0 ∧ len = l.2 then (3, ⟨some file, a.1, l.1⟩) else
  (0, ⟨some file, a.1, l.1⟩)

/-- Splits `m->file` of the form `name:address:length` and fills the fields:
`m->len = m->addr = 0` first, then the tokens are cut, then converted.
`m->file` is never NULL when `main` calls this.  The result is the returned
`int` and `*m`. -/
def ParseMemArgument (strtol : List Nat → Nat → Int × Nat) (endPtr : Option Nat)
    (m : MemImage) : Int × MemImage :=
  match ParseMemArgument.split (m.file.getD []) with
  | Except.error e => (e.1, ⟨some e.2, 0, 0⟩)
  | Except.ok t => ParseMemArgument.convert strtol endPtr t.1 t.2.1 t.2.2

/-- Supported option flags. -/
structure Flags where
  fwVer : Bool
  verify : Bool
  verbose : Bool
  flashId : Bool
  chrErase : Bool
  prgErase : Bool
  dry : Bool
deriving DecidableEq, Repr

/-- The locals of `main` that the command line sets. -/
structure Vars where
  f : Flags
  mapper : Int
  chrSectErase : Nat
  prgSectErase : Nat
  fCWr : MemImage
  fCRd : MemImage
  fPWr : MemImage
  fPRd : MemImage
  fFpga : MemImage
  fCic : MemImage
  fFw : MemImage
  fRRd : MemImage
  fRWr : MemImage
  mpsseIf : Int
deriving DecidableEq, Repr

/-- Largest `int`. -/
def INT_MAX : Int := 2147483647

/-- Largest `uint32_t`. -/
def UINT32_MAX : Nat := 4294967295

/-- The initialisers of the locals of `main`; `mpsseIf` is the interface number
left by the configuration file (2 by default). -/
def main.init (mpsseIf : Int) : Vars :=
  { f := ⟨false, false, false, false, false, false, false⟩
    mapper := INT_MAX
    chrSectErase := UINT32_MAX
    prgSectErase := UINT32_MAX
    fCWr := ⟨none, 0, 0⟩
    fCRd := ⟨none, 0, 256 * 1024⟩
    fPWr := ⟨none, 0, 0⟩
    fPRd := ⟨none, 0, 512 * 1024⟩
    fFpga := ⟨none, 0, 0⟩
    fCic := ⟨none, 0, 0⟩
    fFw := ⟨none, 0, 0⟩
    fRRd := ⟨none, 0, 8 * 1024⟩
    fRWr := ⟨none, 0, 0⟩
    mpsseIf := mpsseIf }

/-- The body of the `switch (c)` in `main` for one option `c` (a character
code) with argument `optarg`: the new locals, or the value `main` returns at
once. -/
def main.option (strtol : List Nat → Nat → Int × Nat) (endPtr : Option Nat) (v : Vars)
    (c : Nat) (optarg : List Nat) : Except Int Vars :=
  match c with
  | 102 => Except.ok { v with f := { v.f with fwVer := true } }
  | 99 =>
    let r := ParseMemArgument strtol endPtr ⟨some optarg, v.fCWr.addr, v.fCWr.len⟩
    if r.1 ≠ 0 then Except.error 1 else Except.ok { v with fCWr := r.2 }
  | 112 =>
    let r := ParseMemArgument strtol endPtr ⟨some optarg, v.fPWr.addr, v.fPWr.len⟩
    if r.1 ≠ 0 then Except.error 1 else Except.ok { v with fPWr := r.2 }
  | 67 =>
    let r := ParseMemArgument strtol endPtr ⟨some optarg, v.fCRd.addr, v.fCRd.len⟩
    if r.1 ≠ 0 then Except.error 1 else Except.ok { v with fCRd := r.2 }
  | 80 =>
    let r := ParseMemArgument strtol endPtr ⟨some optarg, v.fPRd.addr, v.fPRd.len⟩
    if r.1 ≠ 0 then Except.error 1 else Except.ok { v with fPRd := r.2 }
  | 101 => Except.ok { v with f := { v.f with chrErase := true } }
  | 69 => Except.ok { v with f := { v.f with prgErase := true } }
  | 115 => Except.ok { v with chrSectErase := toU32 (strtol optarg 16).1 }
  | 83 => Except.ok { v with prgSectErase := toU32 (strtol optarg 16).1 }
  | 86 => Except.ok { v with f := { v.f with verify := true } }
  | 105 => Except.ok { v with f := { v.f with flashId := true } }
  | 82 =>
    let r := ParseMemArgument strtol endPtr ⟨some optarg, v.fRRd.addr, v.fRRd.len⟩
    if r.1 ≠ 0 then Except.error 1 else Except.ok { v with fRRd := r.2 }
  | 87 =>
    let r := ParseMemArgument strtol endPtr ⟨some optarg, v.fRWr.addr, v.fRWr.len⟩
    if r.1 ≠ 0 then Except.error 1 else Except.ok { v with fRWr := r.2 }
  | 98 =>
    let r := ParseMemArgument strtol endPtr ⟨some optarg, v.fFpga.addr, v.fFpga.len⟩
    if r.1 ≠ 0 then Except.error 1 else Except.ok { v with fFpga := r.2 }
  | 97 =>
    let r := ParseMemArgument strtol endPtr ⟨some optarg, v.fCic.addr, v.fCic.len⟩
    if r.1 ≠ 0 then Except.error 1 else Except.ok { v with fCic := r.2 }
  | 70 =>
    let r := ParseMemArgument strtol endPtr ⟨some optarg, v.fFw.addr, v.fFw.len⟩
    if r.1 ≠ 0 then Except.error 1 else Except.ok { v with fFw := r.2 }
  | 109 => Except.ok { v with mpsseIf := (strtol optarg 16).1 }
  | 77 =>
    let mapper := toInt32 (strtol optarg 16).1
    if mapper ≤ 0 ∨ mapper > 3 then Except.error 1
    else Except.ok { v with mapper := mapper - 1 }
  | 100 => Except.ok { v with f := { v.f with dry := true } }
  | 114 => Except.error 0
  | 118 => Except.ok { v with f := { v.f with verbose := true } }
  | 104 => Except.error 0
  | 63 => Except.error 1
  | _ => Except.ok v

/-- The `while ((c = getopt_long(...)) != -1)` loop of `main` over the options
that `getopt_long` hands out, in order. -/
def main.options (strtol : List Nat → Nat → Int × Nat) (endPtr : Option Nat) :
    Vars → List (Nat × List Nat) → Except Int Vars
  | v, [] => Except.ok v
  | v, o :: os =>
    match main.option strtol endPtr v o.1 o.2 with
    | Except.error e => Except.error e
    | Except.ok w => main.options strtol endPtr w os

/-! ## latticeflash.c and pspawn.c -/

/-- Arguments used to launch the FPGA programmer, `none` for NULL. -/
def latFlash : List (Option (List Nat)) :=
  [some (cstr "/bin/sh"), some (cstr "-c"), none, some (cstr "-input"), none, none]

/-- Position in `latFlash` of the flasher binary/script. -/
def LATTICE_FLASH_BIN_POS : Nat := 2

/-- Position in `latFlash` of the input XCF file. -/
def LATTICE_FLASH_XCF_POS : Nat := 4

/-- The argument vector a NULL-terminated array stands for. -/
def argv : List (Option (List Nat)) → List (List Nat)
  | [] => []
  | none :: _ => []
  | some a :: rest => a :: argv rest

/-- Spawns a child process using a pseudo-terminal.  `os file args` is what the
operating system makes of `forkpty`, `execvp(file, arg)` and `wait`: -1 when
the spawn fails, -2 when the child does not exit properly, else the exit
status of the child. -/
def pspawn (os : List Nat → List (List Nat) → Int) (file : List Nat)
    (arg : List (Option (List Nat))) : Int :=
  os file (argv arg)

/-- Uses lattice prgcmd to burn xcf file to FPGA.  `arr` is the static array
`latFlash` on entry; the result is the array on return and the returned
`int`. -/
def LatticeFlash (os : List Nat → List (List Nat) → Int) (arr : List (Option (List Nat)))
    (prgcmd xcf : List Nat) : List (Option (List Nat)) × Int :=
  let arr1 := arr.set 0 (some prgcmd)
  let arr2 := arr1.set 2 (some xcf)
  (arr2, pspawn os ((arr2.getD 0 none).getD []) arr2)

/-! ## main.c: RAM, mapper and the start of the program -/

/-- SRAM base address. -/
def PROG_SRAM_BASE : Nat := 0x6000

/-- SRAM length. -/
def PROG_SRAM_LEN : Nat := 8 * 1024

/-- Write data to cartridge SRAM. -/
def CMD_RAM_WRITE : Nat := 9

/-- Read data from cartridge SRAM. -/
def CMD_RAM_READ : Nat := 10

/-- Configure cartridge mapper. -/
def CMD_MAPPER_SET : Nat := 11

/-- Reads the image file and writes it to the in-cart RAM chip.  `file` is the
contents of the file `f->file`, `none` when it cannot be opened; `f_addr` and
`f_len` are the `uint32_t` fields of the `MemImage`. -/
def AllocAndRamWrite (CMD_MAXLEN : Nat) (hpos : 0 < CMD_MAXLEN) (spi : Mpsse)
    (cmd : List Nat) (file : Option (List Nat)) (f_addr f_len : Nat) : Mpsse × Ret :=
  if PROG_SRAM_BASE > f_addr ∨
      PROG_SRAM_BASE + PROG_SRAM_LEN < (f_addr + f_len) % 4294967296 then (spi, Ret.null) else
  match file with
  | none => (spi, Ret.null)
  | some content =>
    let len := if f_len = 0 then content.length % 4294967296 else f_len
    if len = 0 ∨ content.length < len then (spi, Ret.null) else
    let writeBuf := content.take len
    let cmd1 := cmd.set 0 CMD_RAM_WRITE
    let cmd2 := CMD_SET_ADDR cmd1 1 (f_addr - PROG_SRAM_BASE)
    let cmd3 := CMD_SET_LEN cmd2 4 len
    let r := Cmd.CmdSendLongCmd CMD_MAXLEN hpos spi cmd3 sizeofCmdRdWrHdr writeBuf
      (toInt32 (len : Int)) none
    if toU32 r.2.2 ≠ len then (r.1, Ret.null) else
    match r.2.1 with
    | none => (r.1, Ret.nullDeref)
    | some b => if b.headD 0 ≠ CMD_REP_OK then (r.1, Ret.null) else (r.1, Ret.buf writeBuf)

/-- Reads the range given by the `MemImage` from the in-cart RAM chip.
`readBuf` is the content of the freshly allocated buffer of `f_len` bytes. -/
def AllocAndRamRead (CMD_MAXLEN : Nat) (hpos : 0 < CMD_MAXLEN) (h255 : CMD_MAXLEN ≤ 255)
    (spi : Mpsse) (cmd : List Nat) (readBuf : List Nat) (f_addr f_len : Nat) : Mpsse × Ret :=
  if PROG_SRAM_BASE > f_addr ∨
      PROG_SRAM_BASE + PROG_SRAM_LEN < (f_addr + f_len) % 4294967296 then (spi, Ret.null) else
  let cmd1 := cmd.set 0 CMD_RAM_READ
  let cmd2 := CMD_SET_ADDR cmd1 1 (f_addr - PROG_SRAM_BASE)
  let cmd3 := CMD_SET_LEN cmd2 4 f_len
  let r := Cmd.CmdSendLongRep CMD_MAXLEN hpos h255 spi cmd3 sizeofCmdRdWrHdr none readBuf
    (toInt32 (f_len : Int))
  match r.2.1 with
  | none => (r.1, Ret.nullDeref)
  | some b =>
    if toU32 r.2.2.2 ≠ f_len ∨ b.headD 0 ≠ CMD_REP_OK then (r.1, Ret.null)
    else (r.1, Ret.buf r.2.2.1)

/-- Send mapper configuration command; `mapper` is stored into the `uint8_t`
`cmd.data[1]`.  The result holds the bus state, `rep` and the returned
`int`. -/
def CmdMapperCfg (CMD_MAXLEN : Nat) (spi : Mpsse) (cmd : List Nat) (mapper : Int) :
    Mpsse × Option (List Nat) × Int :=
  let cmd1 := cmd.set 0 CMD_MAPPER_SET
  let cmd2 := cmd1.set 1 (mapper % 256).toNat
  let r := Cmd.CmdSend CMD_MAXLEN spi cmd2 2 none
  if r.2.2 < 0 then (r.1, r.2.1, -1) else (r.1, r.2.1, 0)

/-- The calls `main` makes to the other modules before it talks to the
programmer. -/
inductive Step where
  | LatticeFlash (prgcmd xcf : List Nat)
  | AvrFlash (chipIsCic : Bool) (file : List Nat)
  | CmdMapperCfg (mapper : Int)
  | CmdInit (channel : Int)
deriving DecidableEq, Repr

/-- The call `main` makes for the option `-b`, if given. -/
def main.fpgaStep (v : Vars) (latPath : List Nat) : List Step :=
  match v.fFpga.file with
  | some x => [Step.LatticeFlash latPath x]
  | none => []

/-- The call `main` makes for the option `-a`, if given. -/
def main.cicStep (v : Vars) : List Step :=
  match v.fCic.file with
  | some x => [Step.AvrFlash true x]
  | none => []

/-- The call `main` makes when `mapper != INT_MAX`. -/
def main.mapperStep (v : Vars) : List Step :=
  if v.mapper ≠ INT_MAX then [Step.CmdMapperCfg v.mapper] else []

/-- The call `main` makes for the option `-F`, if given. -/
def main.fwStep (v : Vars) : List Step :=
  match v.fFw.file with
  | some x => [Step.AvrFlash false x]
  | none => []

/-- The static handle `spi` of cmd.c as it is until `CmdInit` assigns it: NULL.
No programmer is behind a NULL handle: nothing can be read through it, and
every library call made with it reports failure. -/
def Cmd.spi : Mpsse := ⟨[], [], fun _ => true⟩

/-- Program entry point, from the command line up to and including the call
of `CmdInit`.  `opts` are the options `getopt_long` hands out, `extra` tells
whether an unsupported parameter is left (`optind < argc`), `sigErr` whether
`signal` fails; `latRet`, `cicRet` and `fwRet` are the values `LatticeFlash` and
the two `AvrFlash` calls return.  `CmdInit` is the only assignment of the
handle `spi` of cmd.c, so `CmdMapperCfg`, called before it, works through the
NULL handle `Cmd.spi`; its return value is not looked at.  The result holds the
library calls made through that handle, the calls made in order, and `some`
exit code when `main` leaves before `CmdInit`, `none` when `CmdInit` is called
(what follows is not part of this definition). -/
def main (strtol : List Nat → Nat → Int × Nat) (endPtr : Option Nat) (CMD_MAXLEN : Nat)
    (mpsseIf : Int) (argc : Nat) (opts : List (Nat × List Nat)) (extra sigErr : Bool)
    (cmd latPath : List Nat) (latRet cicRet fwRet : Int) :
    Mpsse × List Step × Option Int :=
  if ¬ argc > 1 then (Cmd.spi, [], some 0) else
  match main.options strtol endPtr (main.init mpsseIf) opts with
  | Except.error e => (Cmd.spi, [], some e)
  | Except.ok v =>
    if extra then (Cmd.spi, [], some (-1)) else
    if v.f.dry then (Cmd.spi, [], some 0) else
    if sigErr then (Cmd.spi, [], some 1) else
    let s1 := main.fpgaStep v latPath
    if v.fFpga.file ≠ none ∧ latRet ≠ 0 then (Cmd.spi, s1, some 1) else
    let s2 := s1 ++ main.cicStep v
    if v.fCic.file ≠ none ∧ cicRet ≠ 0 then (Cmd.spi, s2, some 1) else
    let spi3 :=
      if v.mapper ≠ INT_MAX then (CmdMapperCfg CMD_MAXLEN Cmd.spi cmd v.mapper).1 else Cmd.spi
    let s4 := s2 ++ main.mapperStep v ++ main.fwStep v
    if v.fFw.file ≠ none ∧ fwRet ≠ 0 then (spi3, s4, some 1) else
    (spi3, s4 ++ [Step.CmdInit v.mpsseIf], none)

/-! ## Transport lemmas -/

/-- A bus on which no call made from now on reports failure. -/
def NoFail (m : Mpsse) : Prop := ∀ k, m.log.length ≤ k → m.fail k = false

theorem NoFail.extend {m : Mpsse} (h : NoFail m) (rx : List Nat) (ops : List BusOp) :
    NoFail ⟨rx, m.log ++ ops, m.fail⟩ := by
  intro k hk
  apply h
  simp only [List.length_append] at hk
  omega

theorem start_noFail (m : Mpsse) (h : NoFail m) :
    Start m = (⟨m.rx, m.log ++ [BusOp.start], m.fail⟩, 0) := by
  simp [Start, Mpsse.record, Mpsse.status, h m.log.length (le_refl _), MPSSE_OK]

theorem stop_noFail (m : Mpsse) (h : NoFail m) :
    Stop m = (⟨m.rx, m.log ++ [BusOp.stop], m.fail⟩, 0) := by
  simp [Stop, Mpsse.record, Mpsse.status, h m.log.length (le_refl _), MPSSE_OK]

theorem write_noFail (m : Mpsse) (bytes : List Nat) (h : NoFail m) :
    Write m bytes = (⟨m.rx, m.log ++ [BusOp.write bytes], m.fail⟩, 0) := by
  simp [Write, Mpsse.record, Mpsse.status, h m.log.length (le_refl _), MPSSE_OK]

theorem read_noFail (m : Mpsse) (size : Nat) (h : NoFail m) (hs : size ≤ m.rx.length) :
    Read m size
      = (⟨m.rx.drop size, m.log ++ [BusOp.read size], m.fail⟩, some (m.rx.take size)) := by
  have h2 : ¬ m.rx.length < size := by omega
  simp [Read, h m.log.length (le_refl _), h2]

/-! ## SCFrameSend -/

theorem buildFrame_take (data : List Nat) (sent len : Nat) (h : sent + len ≤ data.length) :
    (buildFrame data sent len).take (len + 3)
      = SC_SOF :: ((data.drop sent).take len).length :: ((data.drop sent).take len ++ [SC_EOF]) := by
  have hl : ((data.drop sent).take len).length = len := by
    simp only [List.length_take, List.length_drop]; omega
  rw [hl]
  apply List.take_of_length_le
  simp only [buildFrame, List.length_cons, List.length_append, hl, List.length_nil]
  omega

/-- On a bus that never fails the send loop returns `SC_OK` after one
Start-Write-Stop sequence per chunk of at most 32 bytes. -/
theorem send_loop_noFail (data : List Nat) : ∀ (rem : Nat) (m : Mpsse) (sent : Nat),
    NoFail m → sent + rem ≤ data.length → sent + rem < 65536 →
    ∃ chunks : List (List Nat),
      chunks.flatten = (data.drop sent).take rem ∧
      chunks.length = (rem + 31) / 32 ∧
      (∀ c ∈ chunks, 1 ≤ c.length ∧ c.length ≤ 32) ∧
      (∀ c ∈ chunks.dropLast, c.length = 32) ∧
      SCFrameSend.loop m data sent rem
        = (⟨m.rx, m.log ++ chunks.flatMap frameOps, m.fail⟩, SC_OK) := by
  intro rem
  induction rem using Nat.strong_induction_on with
  | _ rem ih =>
    intro m sent hnf hlen h16
    rw [SCFrameSend.loop]
    by_cases hr : 0 < rem
    · have hlen1 : sent + min rem 32 ≤ data.length := by omega
      have hs : (sent + min rem 32) % 65536 = sent + min rem 32 := by omega
      have hrm : (rem - min rem 32) % 65536 = rem - min rem 32 := by omega
      have hcl : ((data.drop sent).take (min rem 32)).length = min rem 32 := by
        simp only [List.length_take, List.length_drop]; omega
      simp only [hr, if_true, SC_MAX_DATALEN, buildFrame_take data sent _ hlen1,
        start_noFail m hnf]
      rw [write_noFail _ _ (hnf.extend m.rx _)]
      simp only [ne_eq, not_true_eq_false, if_false]
      rw [stop_noFail _ ((hnf.extend m.rx _).extend m.rx _)]
      simp only [ne_eq, not_true_eq_false, if_false, hs, hrm]
      obtain ⟨chunks, hj, hn, hb, hd, hloop⟩ :=
        ih (rem - min rem 32) (by omega)
          ⟨m.rx, m.log ++ [BusOp.start] ++
            [BusOp.write (SC_SOF :: ((data.drop sent).take (min rem 32)).length ::
              ((data.drop sent).take (min rem 32) ++ [SC_EOF]))] ++ [BusOp.stop], m.fail⟩
          (sent + min rem 32) (((hnf.extend m.rx _).extend m.rx _).extend m.rx _)
          (by omega) (by omega)
      refine ⟨(data.drop sent).take (min rem 32) :: chunks, ?_, ?_, ?_, ?_, ?_⟩
      · rw [List.flatten_cons, hj]
        have : rem = min rem 32 + (rem - min rem 32) := by omega
        conv_rhs => rw [this, List.take_add]
        rw [List.drop_drop]
      · rw [List.length_cons, hn]; omega
      · intro c hc
        rcases List.mem_cons.mp hc with rfl | hc
        · rw [hcl]; omega
        · exact hb c hc
      · by_cases hne : chunks = []
        · subst hne; simp
        · rw [List.dropLast_cons_of_ne_nil hne]
          intro c hc
          rcases List.mem_cons.mp hc with rfl | hc
          · rw [hcl]
            have hpos : 0 < chunks.length := List.length_pos.mpr hne
            rw [hn] at hpos
            omega
          · exact hd c hc
      · rw [hloop]
        simp [frameOps, List.flatMap_cons, List.append_assoc]
    · have h0 : rem = 0 := by omega
      subst h0
      refine ⟨[], ?_, ?_, ?_, ?_, ?_⟩ <;> simp [SC_OK]

/-! ## SCFrameRecv -/

theorem seek_read_none (m : Mpsse) (h : (Read m 1).2 = none) :
    SCFrameRecv.seek m = ((Read m 1).1, false) := by
  rw [SCFrameRecv.seek]
  split
  · next m1 heq => rw [heq]
  · next m1 d heq => rw [heq] at h; simp at h

theorem seek_read_some (m : Mpsse) (d : List Nat) (h : (Read m 1).2 = some d) :
    SCFrameRecv.seek m
      = if d.headD 0 ≠ SC_SOF then SCFrameRecv.seek (Read m 1).1 else ((Read m 1).1, true) := by
  rw [SCFrameRecv.seek]
  split
  · next m1 heq => rw [heq] at h; simp at h
  · next m1 d1 heq =>
    rw [heq] at h
    simp only [Option.some.injEq] at h
    subst h
    rw [heq]

/-- Seeking over a prefix without start marker, on a bus that never fails,
consumes the prefix and the marker with one single-byte read each. -/
theorem seek_noFail (tail : List Nat) : ∀ (P : List Nat) (log : List BusOp) (fail : Nat → Bool),
    NoFail ⟨P ++ SC_SOF :: tail, log, fail⟩ → (∀ b ∈ P, b ≠ SC_SOF) →
    SCFrameRecv.seek ⟨P ++ SC_SOF :: tail, log, fail⟩
      = (⟨tail, log ++ List.replicate (P.length + 1) (BusOp.read 1), fail⟩, true) := by
  intro P
  induction P with
  | nil =>
    intro log fail hnf _
    have hr := read_noFail ⟨SC_SOF :: tail, log, fail⟩ 1 hnf (by simp)
    simp only [List.nil_append] at hr ⊢
    rw [seek_read_some _ [SC_SOF] (by rw [hr]; simp), hr]
    simp
  | cons b P ih =>
    intro log fail hnf hP
    have hr := read_noFail ⟨b :: P ++ SC_SOF :: tail, log, fail⟩ 1 hnf (by simp)
    have hb : b ≠ SC_SOF := hP b (List.mem_cons_self _ _)
    rw [seek_read_some _ [b] (by rw [hr]; simp), hr]
    simp only [List.headD_cons, ne_eq, hb, not_false_eq_true, if_true, List.cons_append,
      List.drop_succ_cons, List.drop_zero]
    rw [ih (log ++ [BusOp.read 1]) fail (NoFail.extend hnf _ [BusOp.read 1])
      (fun x hx => hP x (List.mem_cons_of_mem _ hx))]
    simp [List.replicate_succ, List.append_assoc]

theorem read_none (m : Mpsse) (size : Nat) (h : (Read m size).2 = none) :
    (Read m size).1 = ⟨m.rx, m.log ++ [BusOp.read size], m.fail⟩ := by
  unfold Read at h ⊢
  split
  · rfl
  · next hc => rw [if_neg hc] at h; simp at h

theorem read_some (m : Mpsse) (size : Nat) (d : List Nat) (h : (Read m size).2 = some d) :
    size ≤ m.rx.length ∧ d = m.rx.take size ∧
      (Read m size).1 = ⟨m.rx.drop size, m.log ++ [BusOp.read size], m.fail⟩ := by
  unfold Read at h ⊢
  split
  · next hc => rw [if_pos hc] at h; simp at h
  · next hc =>
    rw [if_neg hc] at h
    simp only [Option.some.injEq] at h
    refine ⟨by omega, h.symm, rfl⟩

/-- Seeking through a stream whose first start marker follows the prefix `P`,
whatever calls fail: either the marker is found and exactly `P` and the marker
are consumed, or a read failed and the marker is still in the stream. -/
theorem seek_upto_marker (tail : List Nat) : ∀ (P : List Nat) (log : List BusOp) (fail : Nat → Bool),
    (∀ b ∈ P, b ≠ SC_SOF) →
    ((SCFrameRecv.seek ⟨P ++ SC_SOF :: tail, log, fail⟩).2 = true ∧
      (SCFrameRecv.seek ⟨P ++ SC_SOF :: tail, log, fail⟩).1.rx = tail ∧
      (SCFrameRecv.seek ⟨P ++ SC_SOF :: tail, log, fail⟩).1.fail = fail) ∨
    ((SCFrameRecv.seek ⟨P ++ SC_SOF :: tail, log, fail⟩).2 = false ∧
      (SC_SOF :: tail) <:+ (SCFrameRecv.seek ⟨P ++ SC_SOF :: tail, log, fail⟩).1.rx) := by
  intro P
  induction P with
  | nil =>
    intro log fail _
    simp only [List.nil_append]
    cases hr : (Read ⟨SC_SOF :: tail, log, fail⟩ 1).2 with
    | none =>
      right
      rw [seek_read_none _ hr, read_none _ _ hr]
      exact ⟨rfl, List.suffix_refl _⟩
    | some d =>
      left
      obtain ⟨_, hd, hm⟩ := read_some _ _ _ hr
      rw [seek_read_some _ d hr, hm, hd]
      simp
  | cons b P ih =>
    intro log fail hP
    have hb : b ≠ SC_SOF := hP b (List.mem_cons_self _ _)
    cases hr : (Read ⟨b :: P ++ SC_SOF :: tail, log, fail⟩ 1).2 with
    | none =>
      right
      rw [seek_read_none _ hr, read_none _ _ hr]
      refine ⟨rfl, ?_⟩
      exact List.suffix_append (b :: P) (SC_SOF :: tail)
    | some d =>
      obtain ⟨_, hd, hm⟩ := read_some _ _ _ hr
      rw [seek_read_some _ d hr, hm, hd]
      simp only [List.cons_append, List.take_succ_cons, List.take_zero, List.headD_cons, ne_eq,
        hb, not_false_eq_true, if_true, List.drop_succ_cons, List.drop_zero]
      exact ih (log ++ [BusOp.read 1]) fail (fun x hx => hP x (List.mem_cons_of_mem _ hx))

/-- A successful seek consumed a prefix without start marker and the marker. -/
theorem seek_true_inv : ∀ (n : Nat) (m : Mpsse), m.rx.length = n →
    (SCFrameRecv.seek m).2 = true →
    ∃ P, m.rx = P ++ SC_SOF :: (SCFrameRecv.seek m).1.rx ∧ (∀ b ∈ P, b ≠ SC_SOF) := by
  intro n
  induction n using Nat.strong_induction_on with
  | _ n ih =>
    intro m hn ht
    cases hr : (Read m 1).2 with
    | none => rw [seek_read_none _ hr] at ht; simp at ht
    | some d =>
      obtain ⟨hlen, hd, hm⟩ := read_some _ _ _ hr
      rw [seek_read_some _ d hr] at ht ⊢
      cases hrx : m.rx with
      | nil => rw [hrx] at hlen; simp at hlen
      | cons b t =>
        rw [hrx] at hd hm
        simp only [List.take_succ_cons, List.take_zero, List.drop_succ_cons, List.drop_zero]
          at hd hm
        subst hd
        simp only [List.headD_cons] at ht ⊢
        by_cases hb : b = SC_SOF
        · refine ⟨[], ?_, by simp⟩
          simp only [hb, ne_eq, not_true_eq_false, if_false, hm, List.nil_append]
        · simp only [ne_eq, hb, not_false_eq_true, if_true] at ht ⊢
          have hlt : (Read m 1).1.rx.length < n := by
            rw [hm, ← hn, hrx]; simp
          obtain ⟨P, hP, hPn⟩ := ih _ hlt (Read m 1).1 rfl ht
          refine ⟨b :: P, ?_, ?_⟩
          · rw [hm] at hP ⊢
            simp only at hP
            rw [List.cons_append, ← hP]
          · intro x hx
            rcases List.mem_cons.mp hx with rfl | hx
            · exact hb
            · exact hPn x hx

/-- Whatever calls fail, a non-NULL return of `SCFrameRecv` means the stream
was a prefix without start marker, the marker, a length byte and the returned
`length + 1` bytes, of which the last is the end marker. -/
theorem recv_success_inv (m : Mpsse) (maxlen : Nat) (m' : Mpsse) (buf : List Nat) (n : Nat)
    (h : SCFrameRecv m maxlen = (m', some buf, n)) :
    ∃ P lenb rest, m.rx = P ++ SC_SOF :: lenb :: (buf ++ rest) ∧ (∀ b ∈ P, b ≠ SC_SOF) ∧
      m'.rx = rest ∧ n = lenb % 256 ∧ n ≤ maxlen ∧ buf.length = n + 1 ∧
      buf.getD n 0 = SC_EOF := by
  unfold SCFrameRecv at h
  simp only at h
  split at h
  · simp at h
  split at h
  · simp at h
  next hs hk =>
  split at h
  · simp at h
  next m3 d heq =>
  split at h
  · simp at h
  next hlen =>
  split at h
  · simp at h
  next m4 data heq2 =>
  split at h
  · simp at h
  split at h
  · simp at h
  next hstop heof =>
  simp only [Prod.mk.injEq, Option.some.injEq] at h
  obtain ⟨hm', hbuf, hn⟩ := h
  have hk' : (SCFrameRecv.seek (Start m).1).2 = true := by
    cases hkk : (SCFrameRecv.seek (Start m).1).2 with
    | true => rfl
    | false => exact absurd hkk hk
  obtain ⟨P, hP, hPn⟩ := seek_true_inv _ (Start m).1 rfl hk'
  have hrx0 : (Start m).1.rx = m.rx := rfl
  rw [hrx0] at hP
  obtain ⟨hl1, hd, hm3⟩ := read_some _ 1 d (by rw [heq])
  rw [heq] at hm3
  simp only at hm3
  cases hkr : (SCFrameRecv.seek (Start m).1).1.rx with
  | nil => rw [hkr] at hl1; simp at hl1
  | cons lenb t =>
    rw [hkr] at hd hm3 hP
    simp only [List.take_succ_cons, List.take_zero, List.drop_succ_cons, List.drop_zero]
      at hd hm3
    subst hd
    simp only [List.headD_cons] at hlen heq2 heof hn
    obtain ⟨hl2, hdata, hm4⟩ := read_some _ _ data (by rw [heq2])
    rw [heq2] at hm4
    simp only at hm4
    rw [hm3] at hl2 hdata hm4
    simp only at hl2 hdata hm4
    have hm'rx : m'.rx = t.drop (lenb % 256 + 1) := by
      rw [← hm', hm4]; rfl
    refine ⟨P, lenb, t.drop (lenb % 256 + 1), ?_, hPn, hm'rx, hn.symm, ?_, ?_, ?_⟩
    · rw [hP, ← hbuf, hdata, List.take_append_drop]
    · rw [← hn]; omega
    · rw [← hbuf, hdata, List.length_take, ← hn]; omega
    · rw [← hbuf, ← hn]
      by_contra hne
      exact heof hne

/-- The part of `SCFrameRecv` after the length byte has been read. -/
theorem recv_noFail_head (P tail : List Nat) (lenb maxlen : Nat) (log : List BusOp)
    (fail : Nat → Bool) (hnf : NoFail ⟨P ++ SC_SOF :: lenb :: tail, log, fail⟩)
    (hP : ∀ b ∈ P, b ≠ SC_SOF) :
    SCFrameRecv ⟨P ++ SC_SOF :: lenb :: tail, log, fail⟩ maxlen
      = if lenb % 256 > maxlen then
          (⟨tail, log ++ [BusOp.start] ++ List.replicate (P.length + 1) (BusOp.read 1)
              ++ [BusOp.read 1, BusOp.stop], fail⟩, none, maxlen)
        else
          match Read ⟨tail, log ++ [BusOp.start] ++ List.replicate (P.length + 1) (BusOp.read 1)
              ++ [BusOp.read 1], fail⟩ (lenb % 256 + 1) with
          | (m4, none) => ((Stop m4).1, none, maxlen)
          | (m4, some data) =>
            if (Stop m4).2 ≠ 0 then ((Stop (Stop m4).1).1, none, maxlen) else
            if data.getD (lenb % 256) 0 ≠ SC_EOF then ((Stop m4).1, none, maxlen) else
            ((Stop m4).1, some data, lenb % 256) := by
  have h1 := hnf.extend (P ++ SC_SOF :: lenb :: tail) [BusOp.start]
  have h2 := hnf.extend (lenb :: tail)
    ([BusOp.start] ++ List.replicate (P.length + 1) (BusOp.read 1))
  have h3 := hnf.extend tail
    ([BusOp.start] ++ List.replicate (P.length + 1) (BusOp.read 1) ++ [BusOp.read 1])
  simp only [← List.append_assoc] at h2 h3
  have hread := read_noFail _ 1 h2 (by simp)
  simp only [List.take_succ_cons, List.take_zero, List.drop_succ_cons, List.drop_zero] at hread
  rw [SCFrameRecv]
  simp only [start_noFail _ hnf, ne_eq, not_true_eq_false, if_false,
    seek_noFail (lenb :: tail) P _ fail h1 hP, Bool.true_eq_false, hread, List.headD_cons]
  split
  · rw [stop_noFail _ h3]
    simp [List.append_assoc]
  · rfl

theorem read_short (m : Mpsse) (size : Nat) (hs : m.rx.length < size) :
    Read m size = (⟨m.rx, m.log ++ [BusOp.read size], m.fail⟩, none) := by
  simp [Read, hs, Mpsse.record]

/-- On a bus that never fails the seek loop leaves the stream that follows the
first start marker, or the empty stream when there is none. -/
theorem seek_noFail_afterSOF : ∀ (rx : List Nat) (log : List BusOp) (fail : Nat → Bool),
    NoFail ⟨rx, log, fail⟩ →
    ∃ ops, SCFrameRecv.seek ⟨rx, log, fail⟩
      = (⟨(afterSOF rx).getD [], log ++ ops, fail⟩, (afterSOF rx).isSome) := by
  intro rx
  induction rx with
  | nil =>
    intro log fail _
    have hr := read_short ⟨[], log, fail⟩ 1 (by simp)
    refine ⟨[BusOp.read 1], ?_⟩
    rw [seek_read_none _ (by rw [hr]), hr]
    simp [afterSOF]
  | cons b t ih =>
    intro log fail hnf
    have hr := read_noFail ⟨b :: t, log, fail⟩ 1 hnf (by simp)
    simp only [List.take_succ_cons, List.take_zero, List.drop_succ_cons, List.drop_zero] at hr
    rw [seek_read_some _ [b] (by rw [hr]), hr]
    by_cases hb : b = SC_SOF
    · refine ⟨[BusOp.read 1], ?_⟩
      simp [afterSOF, hb]
    · obtain ⟨ops, hops⟩ := ih (log ++ [BusOp.read 1]) fail (hnf.extend t [BusOp.read 1])
      refine ⟨BusOp.read 1 :: ops, ?_⟩
      simp only [List.headD_cons, ne_eq, hb, not_false_eq_true, if_true, hops, afterSOF,
        if_false]
      simp [List.append_assoc]

/-- On a bus that never fails `SCFrameRecv` computes `decodeFrame`. -/
theorem recv_noFail_decode (rx : List Nat) (log : List BusOp) (fail : Nat → Bool)
    (maxlen : Nat) (hnf : NoFail ⟨rx, log, fail⟩) :
    ∃ ops, SCFrameRecv ⟨rx, log, fail⟩ maxlen
      = (⟨(decodeFrame rx maxlen).2.2, log ++ ops, fail⟩,
          (decodeFrame rx maxlen).1, (decodeFrame rx maxlen).2.1) := by
  obtain ⟨ops, hops⟩ := seek_noFail_afterSOF rx (log ++ [BusOp.start]) fail
    (hnf.extend rx [BusOp.start])
  have hk := hnf.extend ((afterSOF rx).getD []) ([BusOp.start] ++ ops)
  simp only [← List.append_assoc] at hk
  rw [SCFrameRecv]
  simp only [start_noFail _ hnf, ne_eq, not_true_eq_false, if_false, hops]
  cases ha : afterSOF rx with
  | none =>
    rw [ha] at hk
    simp only [Option.getD_none] at hk
    refine ⟨[BusOp.start] ++ ops ++ [BusOp.stop], ?_⟩
    simp only [decodeFrame, ha, Option.getD_none, Option.isSome_none, if_true,
      stop_noFail _ hk]
    simp [List.append_assoc]
  | some s =>
    rw [ha] at hk
    simp only [Option.getD_some] at hk
    cases s with
    | nil =>
      have hr := read_short ⟨[], log ++ [BusOp.start] ++ ops, fail⟩ 1 (by simp)
      have hk2 := hnf.extend [] ([BusOp.start] ++ ops ++ [BusOp.read 1])
      simp only [← List.append_assoc] at hk2
      refine ⟨[BusOp.start] ++ ops ++ [BusOp.read 1, BusOp.stop], ?_⟩
      simp only [decodeFrame, ha, Option.getD_some, Option.isSome_some, Bool.true_eq_false,
        if_false, hr, stop_noFail _ hk2]
      simp [List.append_assoc]
    | cons lenb tail =>
      have hr := read_noFail _ 1 hk (by simp)
      simp only [List.take_succ_cons, List.take_zero, List.drop_succ_cons, List.drop_zero] at hr
      have hk2 := hnf.extend tail ([BusOp.start] ++ ops ++ [BusOp.read 1])
      simp only [← List.append_assoc] at hk2
      simp only [Option.isSome_some, Bool.true_eq_false, if_false, Option.getD_some, hr,
        List.headD_cons, decodeFrame, ha]
      by_cases hcap : lenb % 256 > maxlen
      · refine ⟨[BusOp.start] ++ ops ++ [BusOp.read 1, BusOp.stop], ?_⟩
        simp only [hcap, if_true, stop_noFail _ hk2]
        simp [List.append_assoc]
      · simp only [hcap, if_false]
        by_cases hshort : tail.length < lenb % 256 + 1
        · have hr2 := read_short ⟨tail, log ++ [BusOp.start] ++ ops ++ [BusOp.read 1], fail⟩
            (lenb % 256 + 1) hshort
          have hk3 := hnf.extend tail
            ([BusOp.start] ++ ops ++ [BusOp.read 1] ++ [BusOp.read (lenb % 256 + 1)])
          simp only [← List.append_assoc] at hk3
          refine ⟨[BusOp.start] ++ ops ++
            [BusOp.read 1, BusOp.read (lenb % 256 + 1), BusOp.stop], ?_⟩
          simp only [hshort, if_true, hr2, stop_noFail _ hk3]
          simp [List.append_assoc]
        · have hr2 := read_noFail _ (lenb % 256 + 1) hk2 (by simp only; omega)
          have hk3 := hnf.extend (tail.drop (lenb % 256 + 1))
            ([BusOp.start] ++ ops ++ [BusOp.read 1] ++ [BusOp.read (lenb % 256 + 1)])
          simp only [← List.append_assoc] at hk3
          refine ⟨[BusOp.start] ++ ops ++
            [BusOp.read 1, BusOp.read (lenb % 256 + 1), BusOp.stop], ?_⟩
          simp only [hshort, if_false, hr2, stop_noFail _ hk3, ne_eq, not_true_eq_false]
          have hgd : (List.take (lenb % 256 + 1) tail).getD (lenb % 256) 0
              = tail.getD (lenb % 256) 0 := by
            rw [List.getD_eq_getElem?_getD, List.getElem?_take_of_lt (by omega),
              ← List.getD_eq_getElem?_getD]
          rw [hgd]
          by_cases heof : tail.getD (lenb % 256) 0 = SC_EOF
          · simp only [heof, not_true_eq_false, if_false]
            simp [List.append_assoc]
          · simp only [heof, not_false_eq_true, if_true]
            simp [List.append_assoc]

theorem afterSOF_marker (tail : List Nat) : ∀ (P : List Nat), (∀ b ∈ P, b ≠ SC_SOF) →
    afterSOF (P ++ SC_SOF :: tail) = some tail := by
  intro P
  induction P with
  | nil => intro _; simp [afterSOF]
  | cons b P ih =>
    intro hP
    have hb : b ≠ SC_SOF := hP b (List.mem_cons_self _ _)
    simp only [List.cons_append, afterSOF, hb, if_false]
    exact ih (fun x hx => hP x (List.mem_cons_of_mem _ hx))

/-- Decoding a well-formed frame: the payload and the end marker are returned
and the stream behind the frame is left unread. -/
theorem decodeFrame_frame (P body rest : List Nat) (maxlen : Nat)
    (hP : ∀ b ∈ P, b ≠ SC_SOF) (h256 : body.length < 256) (hcap : body.length ≤ maxlen) :
    decodeFrame (P ++ SC_SOF :: body.length :: (body ++ SC_EOF :: rest)) maxlen
      = (some (body ++ [SC_EOF]), body.length, rest) := by
  have hmod : body.length % 256 = body.length := Nat.mod_eq_of_lt h256
  have h1 : ¬ body.length > maxlen := by omega
  have h2 : ¬ (body ++ SC_EOF :: rest).length < body.length + 1 := by
    simp only [List.length_append, List.length_cons]; omega
  have h3 : (body ++ SC_EOF :: rest).getD body.length 0 = SC_EOF := by
    rw [List.getD_append_right _ _ _ _ (le_refl _)]
    simp
  have h4 : (body ++ SC_EOF :: rest).take (body.length + 1) = body ++ [SC_EOF] := by
    rw [List.take_append_eq_append_take]
    simp
  have h5 : (body ++ SC_EOF :: rest).drop (body.length + 1) = rest := by
    rw [List.drop_append_eq_append_drop]
    simp
  simp only [decodeFrame, afterSOF_marker _ P hP, hmod, h1, h2, h3, h4, h5, if_false, ne_eq,
    not_true_eq_false]

theorem written_frameOps (c : List Nat) :
    written (frameOps c) = SC_SOF :: c.length :: (c ++ [SC_EOF]) := by
  simp [frameOps, written]

/-- On a bus that never fails `SCFrameSend` returns `SC_OK` after one
Start-Write-Stop sequence per chunk. -/
theorem send_noFail (m : Mpsse) (data : List Nat) (hnf : NoFail m)
    (h16 : data.length < 65536) :
    ∃ chunks : List (List Nat),
      chunks.flatten = data ∧
      chunks.length = (data.length + 31) / 32 ∧
      (∀ c ∈ chunks, 1 ≤ c.length ∧ c.length ≤ 32) ∧
      (∀ c ∈ chunks.dropLast, c.length = 32) ∧
      SCFrameSend m data data.length
        = (⟨m.rx, m.log ++ chunks.flatMap frameOps, m.fail⟩, SC_OK) := by
  obtain ⟨chunks, hj, hn, hb, hd, hloop⟩ :=
    send_loop_noFail data data.length m 0 hnf (by omega) (by omega)
  refine ⟨chunks, ?_, hn, hb, hd, ?_⟩
  · rw [hj]; simp
  · rw [SCFrameSend, Nat.mod_eq_of_lt h16, hloop]

/-- A payload of 1 to 32 bytes goes out as one frame. -/
theorem send_small_noFail (m : Mpsse) (data : List Nat) (hnf : NoFail m)
    (h1 : 1 ≤ data.length) (h32 : data.length ≤ 32) :
    SCFrameSend m data data.length = (⟨m.rx, m.log ++ frameOps data, m.fail⟩, SC_OK) := by
  obtain ⟨chunks, hj, hn, _, _, hsend⟩ := send_noFail m data hnf (by omega)
  have hone : chunks.length = 1 := by rw [hn]; omega
  obtain ⟨c, rfl⟩ := List.length_eq_one.mp hone
  simp only [List.flatten_cons, List.flatten_nil, List.append_nil] at hj
  subst hj
  rw [hsend]
  simp

/-! ## Claims on the frame codec -/

/-- C1 (amended): for every payload of length L with 1 ≤ L ≤ 32, on buses that
never fail, feeding the bytes `SCFrameSend` writes into `SCFrameRecv` called
with `*maxlen ≥ L` makes it succeed, report length L and return a buffer whose
first L bytes are the payload. -/
theorem frame_round_trip (ms mr : Mpsse) (data : List Nat) (maxlen : Nat)
    (hs : NoFail ms) (hr : NoFail mr) (h1 : 1 ≤ data.length)
    (h32 : data.length ≤ SC_MAX_DATALEN) (hcap : data.length ≤ maxlen)
    (hrx : mr.rx = written ((SCFrameSend ms data data.length).1.log.drop ms.log.length)) :
    ∃ buf, (SCFrameRecv mr maxlen).2 = (some buf, data.length) ∧
      buf.take data.length = data := by
  have h32' : data.length ≤ 32 := h32
  rw [send_small_noFail ms data hs h1 h32'] at hrx
  simp only [List.drop_left, written_frameOps] at hrx
  obtain ⟨rx, log, fail⟩ := mr
  simp only at hrx
  subst hrx
  obtain ⟨ops, hops⟩ := recv_noFail_decode _ log fail maxlen hr
  have hd := decodeFrame_frame [] data [] maxlen (by simp) (by omega) hcap
  simp only [List.nil_append] at hd
  refine ⟨data ++ [SC_EOF], ?_, by simp⟩
  rw [hops, hd]

/-- C1, witness: the payload `[1, 2, 3]` with `*maxlen = 32`. -/
theorem frame_round_trip_witness :
    NoFail ⟨[], [], fun _ => false⟩ ∧
    NoFail ⟨[0x7E, 3, 1, 2, 3, 0x7D], [], fun _ => false⟩ ∧
    1 ≤ [1, 2, 3].length ∧ [1, 2, 3].length ≤ SC_MAX_DATALEN ∧ [1, 2, 3].length ≤ 32 ∧
    [0x7E, 3, 1, 2, 3, 0x7D]
      = written ((SCFrameSend ⟨[], [], fun _ => false⟩ [1, 2, 3] [1, 2, 3].length).1.log.drop 0) ∧
    ∃ buf, (SCFrameRecv ⟨[0x7E, 3, 1, 2, 3, 0x7D], [], fun _ => false⟩ 32).2
        = (some buf, [1, 2, 3].length) ∧
      buf.take [1, 2, 3].length = [1, 2, 3] :=
  have hw : [0x7E, 3, 1, 2, 3, 0x7D]
      = written ((SCFrameSend ⟨[], [], fun _ => false⟩ [1, 2, 3] [1, 2, 3].length).1.log.drop 0) := by
    simp [SCFrameSend, SCFrameSend.loop, Start, Stop, Write, Mpsse.record, Mpsse.status,
      buildFrame, SC_MAX_DATALEN, MPSSE_OK, SC_SOF, SC_EOF, written]
  ⟨fun _ _ => rfl, fun _ _ => rfl, by decide, by decide, by decide, hw,
    frame_round_trip ⟨[], [], fun _ => false⟩ ⟨[0x7E, 3, 1, 2, 3, 0x7D], [], fun _ => false⟩
      [1, 2, 3] 32 (fun _ _ => rfl) (fun _ _ => rfl) (by decide) (by decide) (by decide) hw⟩

/-- C1, counterexample: for the empty payload (L = 0) `SCFrameSend` writes
nothing, and `SCFrameRecv` fed with what was written does not succeed. -/
theorem frame_round_trip_empty_fails :
    ¬ ∃ buf, (SCFrameRecv
        ⟨written ((SCFrameSend ⟨[], [], fun _ => false⟩ [] 0).1.log.drop 0), [],
          fun _ => false⟩ 32).2 = (some buf, 0) ∧ buf.take 0 = [] := by
  simp [SCFrameSend, SCFrameSend.loop, written, SCFrameRecv, SCFrameRecv.seek, Start, Stop,
    Read, Mpsse.record, Mpsse.status, MPSSE_OK, SC_OK]

/-- C2: on a bus whose calls never fail, `SCFrameSend` of an `n`-byte payload
returns `SC_OK` after exactly ceil(n/32) Start-Write-Stop sequences; each write
is one frame `[0x7E, LEN, payload, 0x7D]` of LEN + 3 bytes with 1 ≤ LEN ≤ 32,
every frame but the last has LEN = 32, the payloads concatenated give the
input, and a payload of 1..32 bytes goes out as exactly one write. -/
theorem SCFrameSend_frame_layout (m : Mpsse) (data : List Nat) (hnf : NoFail m)
    (h16 : data.length < 65536) :
    ∃ chunks : List (List Nat),
      chunks.flatten = data ∧
      chunks.length = (data.length + 31) / 32 ∧
      (∀ c ∈ chunks, 1 ≤ c.length ∧ c.length ≤ 32 ∧
        (SC_SOF :: c.length :: (c ++ [SC_EOF])).length = c.length + 3) ∧
      (∀ c ∈ chunks.dropLast, c.length = 32) ∧
      SCFrameSend m data data.length
        = (⟨m.rx, m.log ++ chunks.flatMap
            (fun c => [BusOp.start, BusOp.write (SC_SOF :: c.length :: (c ++ [SC_EOF])),
              BusOp.stop]), m.fail⟩, SC_OK) ∧
      (1 ≤ data.length → data.length ≤ 32 → chunks = [data]) := by
  obtain ⟨chunks, hj, hn, hb, hd, hsend⟩ := send_noFail m data hnf h16
  refine ⟨chunks, hj, hn, ?_, hd, hsend, ?_⟩
  · intro c hc
    refine ⟨(hb c hc).1, (hb c hc).2, ?_⟩
    simp
  · intro h1 h32
    have hone : chunks.length = 1 := by rw [hn]; omega
    obtain ⟨c, rfl⟩ := List.length_eq_one.mp hone
    simp only [List.flatten_cons, List.flatten_nil, List.append_nil] at hj
    rw [hj]

/-- C2, witness: a three-byte payload on a bus that never fails. -/
theorem SCFrameSend_frame_layout_witness :
    NoFail ⟨[], [], fun _ => false⟩ ∧ [7, 8, 9].length < 65536 ∧
    ∃ chunks : List (List Nat),
      chunks.flatten = [7, 8, 9] ∧
      chunks.length = ([7, 8, 9].length + 31) / 32 ∧
      (∀ c ∈ chunks, 1 ≤ c.length ∧ c.length ≤ 32 ∧
        (SC_SOF :: c.length :: (c ++ [SC_EOF])).length = c.length + 3) ∧
      (∀ c ∈ chunks.dropLast, c.length = 32) ∧
      SCFrameSend ⟨[], [], fun _ => false⟩ [7, 8, 9] [7, 8, 9].length
        = (⟨[], [] ++ chunks.flatMap
            (fun c => [BusOp.start, BusOp.write (SC_SOF :: c.length :: (c ++ [SC_EOF])),
              BusOp.stop]), fun _ => false⟩, SC_OK) ∧
      (1 ≤ [7, 8, 9].length → [7, 8, 9].length ≤ 32 → chunks = [[7, 8, 9]]) :=
  ⟨fun _ _ => rfl, by decide,
    SCFrameSend_frame_layout ⟨[], [], fun _ => false⟩ [7, 8, 9] (fun _ _ => rfl) (by decide)⟩

theorem recv_none_maxlen (m : Mpsse) (maxlen : Nat)
    (h : (SCFrameRecv m maxlen).2.1 = none) : (SCFrameRecv m maxlen).2 = (none, maxlen) := by
  have key : (SCFrameRecv m maxlen).2 = (none, maxlen) ∨ (SCFrameRecv m maxlen).2.1 ≠ none := by
    unfold SCFrameRecv
    simp only
    repeat (first | exact Or.inl rfl | (refine Or.inr ?_; simp; done) | split)
  rcases key with hk | hk
  · exact hk
  · exact absurd h hk

/-- Whatever calls fail: when the length byte exceeds `maxlen` the receive
fails, `*maxlen` is unchanged and nothing behind the length byte is read. -/
theorem recv_capacity_general (P rest : List Nat) (lenb maxlen : Nat) (log : List BusOp)
    (fail : Nat → Bool) (hP : ∀ b ∈ P, b ≠ SC_SOF) (hcap : maxlen < lenb % 256) :
    (SCFrameRecv ⟨P ++ SC_SOF :: lenb :: rest, log, fail⟩ maxlen).2 = (none, maxlen) ∧
    rest <:+ (SCFrameRecv ⟨P ++ SC_SOF :: lenb :: rest, log, fail⟩ maxlen).1.rx := by
  have hsuf0 : rest <:+ P ++ SC_SOF :: lenb :: rest :=
    ⟨P ++ [SC_SOF, lenb], by simp⟩
  have hsuf1 : rest <:+ lenb :: rest := List.suffix_cons _ _
  unfold SCFrameRecv
  simp only [Start, Mpsse.record]
  split
  · exact ⟨rfl, hsuf0⟩
  rcases seek_upto_marker (lenb :: rest) P (log ++ [BusOp.start]) fail hP with
    ⟨ht, hrx, _⟩ | ⟨hf, hsuf⟩
  · rw [if_neg (by rw [ht]; simp)]
    split
    · next m3 heq =>
      have hm3 := read_none _ 1 (by rw [heq])
      rw [heq] at hm3
      simp only at hm3
      refine ⟨rfl, ?_⟩
      show rest <:+ m3.rx
      rw [hm3, hrx]
      exact hsuf1
    · next m3 d heq =>
      obtain ⟨_, hd, hm3⟩ := read_some _ 1 d (by rw [heq])
      rw [heq] at hm3
      simp only at hm3
      rw [hrx] at hd hm3
      simp only [List.take_succ_cons, List.take_zero, List.drop_succ_cons, List.drop_zero]
        at hd hm3
      subst hd
      simp only [List.headD_cons]
      rw [if_pos hcap]
      refine ⟨rfl, ?_⟩
      show rest <:+ m3.rx
      rw [hm3]
  · rw [if_pos hf]
    refine ⟨rfl, ?_⟩
    show rest <:+ (SCFrameRecv.seek ⟨P ++ SC_SOF :: lenb :: rest, log ++ [BusOp.start], fail⟩).1.rx
    exact List.IsSuffix.trans (List.IsSuffix.trans hsuf1 (List.suffix_cons _ _)) hsuf

/-- C3: when the byte following the first start marker exceeds the caller's
`*maxlen`, `SCFrameRecv` returns NULL and leaves `*maxlen` unchanged whatever
bus calls fail; no byte after the length byte is read, and on a bus that never
fails exactly the bytes up to the length byte are consumed. -/
theorem SCFrameRecv_capacity_violation (m : Mpsse) (maxlen : Nat) (P rest : List Nat)
    (lenb : Nat) (hrx : m.rx = P ++ SC_SOF :: lenb :: rest) (hP : ∀ b ∈ P, b ≠ SC_SOF)
    (hoct : lenb < 256) (hcap : maxlen < lenb) :
    (SCFrameRecv m maxlen).2 = (none, maxlen) ∧
    rest <:+ (SCFrameRecv m maxlen).1.rx ∧
    (NoFail m → (SCFrameRecv m maxlen).1.rx = rest) := by
  obtain ⟨rx, log, fail⟩ := m
  simp only at hrx
  subst hrx
  have hmod : lenb % 256 = lenb := Nat.mod_eq_of_lt hoct
  have hg := recv_capacity_general P rest lenb maxlen log fail hP (by omega)
  refine ⟨hg.1, hg.2, ?_⟩
  intro hnf
  obtain ⟨ops, hops⟩ := recv_noFail_decode _ log fail maxlen hnf
  rw [hops]
  simp only [decodeFrame, afterSOF_marker _ P hP, hmod]
  rw [if_pos (by omega)]

/-- C3, witness: length byte 5 against `*maxlen = 2`, after one junk byte. -/
theorem SCFrameRecv_capacity_violation_witness :
    (⟨[9, 0x7E, 5, 1, 2], [], fun _ => false⟩ : Mpsse).rx = [9] ++ SC_SOF :: 5 :: [1, 2] ∧
    (∀ b ∈ [9], b ≠ SC_SOF) ∧ 5 < 256 ∧ 2 < 5 ∧
    (SCFrameRecv ⟨[9, 0x7E, 5, 1, 2], [], fun _ => false⟩ 2).2 = (none, 2) ∧
    [1, 2] <:+ (SCFrameRecv ⟨[9, 0x7E, 5, 1, 2], [], fun _ => false⟩ 2).1.rx ∧
    (NoFail ⟨[9, 0x7E, 5, 1, 2], [], fun _ => false⟩ →
      (SCFrameRecv ⟨[9, 0x7E, 5, 1, 2], [], fun _ => false⟩ 2).1.rx = [1, 2]) :=
  ⟨rfl, by decide, by decide, by decide,
    SCFrameRecv_capacity_violation ⟨[9, 0x7E, 5, 1, 2], [], fun _ => false⟩ 2 [9] [1, 2] 5
      rfl (by decide) (by decide) (by decide)⟩

theorem afterSOF_skip (S : List Nat) : ∀ (P : List Nat), (∀ b ∈ P, b ≠ SC_SOF) →
    afterSOF (P ++ S) = afterSOF S := by
  intro P
  induction P with
  | nil => intro _; rfl
  | cons b P ih =>
    intro hP
    have hb : b ≠ SC_SOF := hP b (List.mem_cons_self _ _)
    simp only [List.cons_append, afterSOF, hb, if_false]
    exact ih (fun x hx => hP x (List.mem_cons_of_mem _ hx))

/-- C4: when, after the start marker and a length byte `length`, the byte at
position `length` of the following bytes is not 0x7D, `SCFrameRecv` returns
NULL and leaves `*maxlen` unchanged, whatever bus calls fail. -/
theorem SCFrameRecv_bad_end_marker (m : Mpsse) (maxlen : Nat) (P body rest : List Nat)
    (lenb e : Nat) (hrx : m.rx = P ++ SC_SOF :: lenb :: (body ++ e :: rest))
    (hP : ∀ b ∈ P, b ≠ SC_SOF) (hoct : lenb < 256) (hbody : body.length = lenb)
    (hcap : lenb ≤ maxlen) (he : e ≠ SC_EOF) :
    (SCFrameRecv m maxlen).2 = (none, maxlen) := by
  cases hres : (SCFrameRecv m maxlen).2.1 with
  | none => exact recv_none_maxlen m maxlen hres
  | some buf =>
    exfalso
    have hfull : SCFrameRecv m maxlen
        = ((SCFrameRecv m maxlen).1, some buf, (SCFrameRecv m maxlen).2.2) := by
      rw [← hres]
    obtain ⟨P', lenb', rest', hrx', hP', _, hn, _, hlen, hget⟩ :=
      recv_success_inv m maxlen _ buf _ hfull
    have ha : afterSOF m.rx = some (lenb :: (body ++ e :: rest)) := by
      rw [hrx]; exact afterSOF_marker _ P hP
    have ha' : afterSOF m.rx = some (lenb' :: (buf ++ rest')) := by
      rw [hrx']; exact afterSOF_marker _ P' hP'
    rw [ha] at ha'
    simp only [Option.some.injEq, List.cons.injEq] at ha'
    obtain ⟨hl, htail⟩ := ha'
    subst hl
    rw [Nat.mod_eq_of_lt hoct] at hn
    rw [hn] at hlen hget
    have h1 : (body ++ e :: rest).getD lenb 0 = e := by
      rw [List.getD_append_right _ _ _ _ (by omega), hbody]
      simp
    have h2 : (buf ++ rest').getD lenb 0 = SC_EOF := by
      rw [List.getD_append _ _ _ _ (by omega)]
      exact hget
    rw [htail, h2] at h1
    exact he h1.symm

/-- C4, witness: a two-byte frame that ends in 0x7C. -/
theorem SCFrameRecv_bad_end_marker_witness :
    (⟨[0x7E, 2, 9, 8, 0x7C, 4], [], fun _ => false⟩ : Mpsse).rx
      = [] ++ SC_SOF :: 2 :: ([9, 8] ++ 0x7C :: [4]) ∧
    (∀ b ∈ ([] : List Nat), b ≠ SC_SOF) ∧ 2 < 256 ∧ [9, 8].length = 2 ∧ 2 ≤ 32 ∧
    0x7C ≠ SC_EOF ∧
    (SCFrameRecv ⟨[0x7E, 2, 9, 8, 0x7C, 4], [], fun _ => false⟩ 32).2 = (none, 32) :=
  ⟨rfl, by decide, by decide, rfl, by decide, by decide,
    SCFrameRecv_bad_end_marker ⟨[0x7E, 2, 9, 8, 0x7C, 4], [], fun _ => false⟩ 32 [] [9, 8] [4]
      2 0x7C rfl (by decide) (by decide) rfl (by decide) (by decide)⟩

/-- C5: whenever `SCFrameRecv` returns non-NULL on a stream of octets, it has
consumed exactly the bytes up to and including the first start marker, one
length byte and `length + 1` further bytes; the new `*maxlen` is the length
byte and is at most the `*maxlen` passed in; the returned buffer holds the
`length` payload bytes followed, at index `length`, by 0x7D. -/
theorem SCFrameRecv_success (m : Mpsse) (maxlen : Nat) (m' : Mpsse) (buf : List Nat)
    (n : Nat) (h : SCFrameRecv m maxlen = (m', some buf, n))
    (hoct : ∀ b ∈ m.rx, b < 256) :
    ∃ P rest, m.rx = P ++ SC_SOF :: n :: (buf ++ rest) ∧ (∀ b ∈ P, b ≠ SC_SOF) ∧
      m'.rx = rest ∧ n ≤ maxlen ∧ buf.length = n + 1 ∧ buf.getD n 0 = SC_EOF ∧
      buf = buf.take n ++ [SC_EOF] := by
  obtain ⟨P, lenb, rest, hrx, hP, hm', hn, hle, hlen, hget⟩ :=
    recv_success_inv m maxlen m' buf n h
  have hl : lenb < 256 := hoct lenb (by rw [hrx]; simp)
  rw [Nat.mod_eq_of_lt hl] at hn
  subst hn
  refine ⟨P, rest, hrx, hP, hm', hle, hlen, hget, ?_⟩
  have hsplit : buf = buf.take n ++ buf.drop n := (List.take_append_drop n buf).symm
  have hdl : (buf.drop n).length = 1 := by rw [List.length_drop]; omega
  obtain ⟨x, hx⟩ := List.length_eq_one.mp hdl
  have hxe : x = SC_EOF := by
    rw [← hget, List.getD_eq_getElem?_getD, ← List.head?_drop, hx]
    rfl
  rw [hx, hxe] at hsplit
  exact hsplit

/-- C5, witness: a two-byte frame after one junk byte, followed by one more
byte that stays unread. -/
theorem SCFrameRecv_success_witness :
    SCFrameRecv ⟨[5, 0x7E, 2, 9, 8, 0x7D, 4], [], fun _ => false⟩ 32
      = (⟨[4], [BusOp.start, BusOp.read 1, BusOp.read 1, BusOp.read 1, BusOp.read 3,
          BusOp.stop], fun _ => false⟩, some [9, 8, 0x7D], 2) ∧
    (∀ b ∈ [5, 0x7E, 2, 9, 8, 0x7D, 4], b < 256) ∧
    ∃ P rest, [5, 0x7E, 2, 9, 8, 0x7D, 4] = P ++ SC_SOF :: 2 :: ([9, 8, 0x7D] ++ rest) ∧
      (∀ b ∈ P, b ≠ SC_SOF) ∧ [4] = rest ∧ 2 ≤ 32 ∧ [9, 8, 0x7D].length = 2 + 1 ∧
      [9, 8, 0x7D].getD 2 0 = SC_EOF ∧ [9, 8, 0x7D] = [9, 8, 0x7D].take 2 ++ [SC_EOF] :=
  have hrun : SCFrameRecv ⟨[5, 0x7E, 2, 9, 8, 0x7D, 4], [], fun _ => false⟩ 32
      = (⟨[4], [BusOp.start, BusOp.read 1, BusOp.read 1, BusOp.read 1, BusOp.read 3,
          BusOp.stop], fun _ => false⟩, some [9, 8, 0x7D], 2) := by
    simp [SCFrameRecv, SCFrameRecv.seek, Start, Stop, Read, Mpsse.record, Mpsse.status,
      MPSSE_OK, SC_SOF, SC_EOF]
  ⟨hrun, by decide,
    SCFrameRecv_success ⟨[5, 0x7E, 2, 9, 8, 0x7D, 4], [], fun _ => false⟩ 32 _ _ _ hrun
      (by decide)⟩

/-- C6: for every byte sequence `P` without 0x7E and every stream `S`, on buses
that never fail, `SCFrameRecv` on `P` followed by `S` gives the same returned
buffer and reported length, and leaves the same unread stream, as on `S`
alone. -/
theorem SCFrameRecv_resync (P S : List Nat) (log1 log2 : List BusOp)
    (fail1 fail2 : Nat → Bool) (maxlen : Nat) (hP : ∀ b ∈ P, b ≠ SC_SOF)
    (h1 : NoFail ⟨P ++ S, log1, fail1⟩) (h2 : NoFail ⟨S, log2, fail2⟩) :
    (SCFrameRecv ⟨P ++ S, log1, fail1⟩ maxlen).2 = (SCFrameRecv ⟨S, log2, fail2⟩ maxlen).2 ∧
    (SCFrameRecv ⟨P ++ S, log1, fail1⟩ maxlen).1.rx
      = (SCFrameRecv ⟨S, log2, fail2⟩ maxlen).1.rx := by
  obtain ⟨ops1, hops1⟩ := recv_noFail_decode (P ++ S) log1 fail1 maxlen h1
  obtain ⟨ops2, hops2⟩ := recv_noFail_decode S log2 fail2 maxlen h2
  have hd : decodeFrame (P ++ S) maxlen = decodeFrame S maxlen := by
    simp only [decodeFrame, afterSOF_skip S P hP]
  rw [hops1, hops2, hd]
  exact ⟨rfl, rfl⟩

/-- C6, witness: three junk bytes in front of a one-byte frame. -/
theorem SCFrameRecv_resync_witness :
    (∀ b ∈ [0, 0xFF, 0x7D], b ≠ SC_SOF) ∧
    NoFail ⟨[0, 0xFF, 0x7D] ++ [0x7E, 1, 0, 0x7D], [], fun _ => false⟩ ∧
    NoFail ⟨[0x7E, 1, 0, 0x7D], [], fun _ => false⟩ ∧
    (SCFrameRecv ⟨[0, 0xFF, 0x7D] ++ [0x7E, 1, 0, 0x7D], [], fun _ => false⟩ 32).2
      = (SCFrameRecv ⟨[0x7E, 1, 0, 0x7D], [], fun _ => false⟩ 32).2 ∧
    (SCFrameRecv ⟨[0, 0xFF, 0x7D] ++ [0x7E, 1, 0, 0x7D], [], fun _ => false⟩ 32).1.rx
      = (SCFrameRecv ⟨[0x7E, 1, 0, 0x7D], [], fun _ => false⟩ 32).1.rx :=
  ⟨by decide, fun _ _ => rfl, fun _ _ => rfl,
    SCFrameRecv_resync [0, 0xFF, 0x7D] [0x7E, 1, 0, 0x7D] [] [] (fun _ => false)
      (fun _ => false) 32 (by decide) (fun _ _ => rfl) (fun _ _ => rfl)⟩

/-! ## Claims on the serial command exchange -/

/-- Whatever calls fail, `SCFrameSend` of 1 to 32 bytes makes one pass through
its loop: the outcome is fixed by the status of Start, Write and Stop. -/
theorem send_small_cases (m : Mpsse) (data : List Nat) (n : Nat) (h1 : 1 ≤ n)
    (h32 : n ≤ 32) (hlen : n ≤ data.length) :
    SCFrameSend m data n =
      if m.fail m.log.length = true then
        (⟨m.rx, m.log ++ [BusOp.start, BusOp.stop], m.fail⟩, SC_ERROR)
      else if m.fail (m.log.length + 1) = true then
        (⟨m.rx, m.log ++ [BusOp.start,
          BusOp.write (SC_SOF :: n :: (data.take n ++ [SC_EOF])), BusOp.stop], m.fail⟩, SC_ERROR)
      else if m.fail (m.log.length + 2) = true then
        (⟨m.rx, m.log ++ [BusOp.start,
          BusOp.write (SC_SOF :: n :: (data.take n ++ [SC_EOF])), BusOp.stop, BusOp.stop],
          m.fail⟩, SC_ERROR)
      else
        (⟨m.rx, m.log ++ [BusOp.start,
          BusOp.write (SC_SOF :: n :: (data.take n ++ [SC_EOF])), BusOp.stop], m.fail⟩, SC_OK) := by
  have hmod : n % 65536 = n := by omega
  have hmin : min n 32 = n := by omega
  have hbf := buildFrame_take data 0 n (by omega)
  have hl : (data.take n).length = n := by rw [List.length_take]; omega
  simp only [List.drop_zero, hl] at hbf
  rw [SCFrameSend, hmod, SCFrameSend.loop]
  simp only [show 0 < n from h1, if_true, SC_MAX_DATALEN, hmin, hbf, Start, Stop, Write,
    Mpsse.record, Mpsse.status, MPSSE_OK, MPSSE_FAIL, List.length_append, List.length_cons,
    List.length_nil, Nat.sub_self, Nat.zero_mod]
  by_cases f0 : m.fail m.log.length = true
  · simp [f0, SC_ERROR, MPSSE_FAIL]
  · by_cases f1 : m.fail (m.log.length + 1) = true
    · simp [f0, f1, SC_ERROR, MPSSE_FAIL]
    · by_cases f2 : m.fail (m.log.length + 2) = true
      · simp [f0, f1, f2, SC_ERROR, MPSSE_FAIL]
      · rw [SCFrameSend.loop]
        simp [f0, f1, f2, SC_OK, MPSSE_OK]

/-- C7: for 1 ≤ cmdLen ≤ 32 the serial `CmdSend` makes one pass of
`SCFrameSend`, which issues no read and at most one write, the frame carrying
the first `cmdLen` command bytes (exactly that one write when the send
succeeds); if the send fails it returns `CMD_ERROR` with the bus as the send
left it and `*rep` untouched; otherwise it performs one `SCFrameRecv` with
capacity `CMD_MAXLEN` and returns the received length (≥ 0) with the reply, or
`CMD_ERROR` with `*rep` NULL when the receive fails. -/
theorem CmdSend_single_exchange (CMD_MAXLEN : Nat) (spi : Mpsse) (cmd : List Nat)
    (cmdLen : Nat) (rep : Option (List Nat)) (h1 : 1 ≤ cmdLen) (h32 : cmdLen ≤ 32)
    (hlen : cmdLen ≤ cmd.length) :
    (∃ ops, (SCFrameSend spi cmd cmdLen).1 = ⟨spi.rx, spi.log ++ ops, spi.fail⟩ ∧
      (((SCFrameSend spi cmd cmdLen).2 = SC_OK ∧
          ops = [BusOp.start,
            BusOp.write (SC_SOF :: cmdLen :: (cmd.take cmdLen ++ [SC_EOF])), BusOp.stop]) ∨
        ((SCFrameSend spi cmd cmdLen).2 = SC_ERROR ∧
          (ops = [BusOp.start, BusOp.stop] ∨
           ops = [BusOp.start,
            BusOp.write (SC_SOF :: cmdLen :: (cmd.take cmdLen ++ [SC_EOF])), BusOp.stop] ∨
           ops = [BusOp.start,
            BusOp.write (SC_SOF :: cmdLen :: (cmd.take cmdLen ++ [SC_EOF])), BusOp.stop,
            BusOp.stop])))) ∧
    ((SCFrameSend spi cmd cmdLen).2 ≠ SC_OK →
      Cmd.CmdSend CMD_MAXLEN spi cmd cmdLen rep
        = ((SCFrameSend spi cmd cmdLen).1, rep, CMD_ERROR)) ∧
    ((SCFrameSend spi cmd cmdLen).2 = SC_OK →
      (Cmd.CmdSend CMD_MAXLEN spi cmd cmdLen rep).1
        = (SCFrameRecv (SCFrameSend spi cmd cmdLen).1 (CMD_MAXLEN % 256)).1 ∧
      ((SCFrameRecv (SCFrameSend spi cmd cmdLen).1 (CMD_MAXLEN % 256)).2.1 = none →
        (Cmd.CmdSend CMD_MAXLEN spi cmd cmdLen rep).2 = (none, CMD_ERROR)) ∧
      (∀ buf, (SCFrameRecv (SCFrameSend spi cmd cmdLen).1 (CMD_MAXLEN % 256)).2.1 = some buf →
        (Cmd.CmdSend CMD_MAXLEN spi cmd cmdLen rep).2
          = (some buf,
              ((SCFrameRecv (SCFrameSend spi cmd cmdLen).1 (CMD_MAXLEN % 256)).2.2 : Int)) ∧
        (0 : Int) ≤ (Cmd.CmdSend CMD_MAXLEN spi cmd cmdLen rep).2.2)) := by
  have hmod : cmdLen % 256 = cmdLen := by omega
  have hcases := send_small_cases spi cmd cmdLen h1 h32 hlen
  refine ⟨?_, ?_, ?_⟩
  · rw [hcases]
    by_cases f0 : spi.fail spi.log.length = true
    · exact ⟨_, by rw [if_pos f0], Or.inr ⟨by rw [if_pos f0], Or.inl rfl⟩⟩
    · by_cases f1 : spi.fail (spi.log.length + 1) = true
      · exact ⟨_, by rw [if_neg f0, if_pos f1],
          Or.inr ⟨by rw [if_neg f0, if_pos f1], Or.inr (Or.inl rfl)⟩⟩
      · by_cases f2 : spi.fail (spi.log.length + 2) = true
        · exact ⟨_, by rw [if_neg f0, if_neg f1, if_pos f2],
            Or.inr ⟨by rw [if_neg f0, if_neg f1, if_pos f2], Or.inr (Or.inr rfl)⟩⟩
        · exact ⟨_, by rw [if_neg f0, if_neg f1, if_neg f2],
            Or.inl ⟨by rw [if_neg f0, if_neg f1, if_neg f2], rfl⟩⟩
  · intro hne
    simp only [Cmd.CmdSend, hmod]
    rw [if_pos hne]
  · intro hok
    have hnn : ¬ (SCFrameSend spi cmd cmdLen).2 ≠ SC_OK := by rw [hok]; simp
    refine ⟨?_, ?_, ?_⟩
    · simp only [Cmd.CmdSend, hmod]
      rw [if_neg hnn]
      cases (SCFrameRecv (SCFrameSend spi cmd cmdLen).1 (CMD_MAXLEN % 256)).2.1 <;> rfl
    · intro hnone
      simp only [Cmd.CmdSend, hmod]
      rw [if_neg hnn]
      simp only [hnone]
    · intro buf hsome
      simp only [Cmd.CmdSend, hmod]
      rw [if_neg hnn]
      simp only [hsome]
      exact ⟨trivial, Int.ofNat_nonneg _⟩

/-- C7, witness: the one-byte command `[1]` answered by a one-byte reply. -/
theorem CmdSend_single_exchange_witness :
    1 ≤ 1 ∧ 1 ≤ 32 ∧ 1 ≤ [1].length ∧
    Cmd.CmdSend 32 ⟨[0x7E, 1, 0, 0x7D], [], fun _ => false⟩ [1] 1 none
      = (⟨[], [BusOp.start, BusOp.write [0x7E, 1, 1, 0x7D], BusOp.stop, BusOp.start,
            BusOp.read 1, BusOp.read 1, BusOp.read 2, BusOp.stop], fun _ => false⟩,
          some [0, 0x7D], 1) ∧
    ((SCFrameSend ⟨[0x7E, 1, 0, 0x7D], [], fun _ => false⟩ [1] 1).2 ≠ SC_OK →
      Cmd.CmdSend 32 ⟨[0x7E, 1, 0, 0x7D], [], fun _ => false⟩ [1] 1 none
        = ((SCFrameSend ⟨[0x7E, 1, 0, 0x7D], [], fun _ => false⟩ [1] 1).1, none, CMD_ERROR)) :=
  ⟨by decide, by decide, by decide,
    by simp [Cmd.CmdSend, SCFrameSend, SCFrameSend.loop, SCFrameRecv, SCFrameRecv.seek, Start,
      Stop, Write, Read, Mpsse.record, Mpsse.status, buildFrame, SC_MAX_DATALEN, MPSSE_OK,
      SC_OK, SC_SOF, SC_EOF],
    (CmdSend_single_exchange 32 ⟨[0x7E, 1, 0, 0x7D], [], fun _ => false⟩ [1] 1 none
      (by decide) (by decide) (by decide)).2.1⟩

/-! ## Claims on the bulk command exchange -/

theorem bulk_out (h : Usb) (buf : List Nat) (length : Int) (tout : Nat) :
    libusb_bulk_transfer h CMD_ENDPOINT_OUT buf length tout
      = { dev := ⟨h.log ++ [UsbOp.bulkOut CMD_ENDPOINT_OUT (buf.take length.toNat) tout],
            h.reply⟩,
          ret := (h.reply h.log.length).ret,
          transferred := (h.reply h.log.length).transferred,
          buf := buf } := by
  have h0 : ¬ (CMD_ENDPOINT_OUT / 128 % 2 = 1) := by decide
  unfold libusb_bulk_transfer
  simp only [h0, if_false]

theorem bulk_in (h : Usb) (buf : List Nat) (length : Int) (tout : Nat) :
    libusb_bulk_transfer h CMD_ENDPOINT_IN buf length tout
      = { dev := ⟨h.log ++ [UsbOp.bulkIn CMD_ENDPOINT_IN length tout], h.reply⟩,
          ret := (h.reply h.log.length).ret,
          transferred := ((((h.reply h.log.length).data.take length.toNat).length : Nat) : Int),
          buf := (h.reply h.log.length).data.take length.toNat
            ++ buf.drop ((h.reply h.log.length).data.take length.toNat).length } := by
  have h1 : CMD_ENDPOINT_IN / 128 % 2 = 1 := by decide
  unfold libusb_bulk_transfer
  simp only [h1, if_true]

/-- The bulk `CmdSend` spelled out on the replies libusb gives to its two
transfers. -/
theorem usb_CmdSend_eq (hCmd : Usb) (cmd : List Nat) (cmdLen : Nat) (rep : List Nat)
    (tout : Nat) :
    CmdUsb.CmdSend hCmd cmd cmdLen rep tout =
      if (hCmd.reply hCmd.log.length).ret ≠ LIBUSB_SUCCESS ∨
          (hCmd.reply hCmd.log.length).transferred ≠ 64 then
        (⟨hCmd.log ++ [UsbOp.bulkOut CMD_ENDPOINT_OUT (cmd.take 64) tout], hCmd.reply⟩,
          rep, CMD_ERROR)
      else if (hCmd.reply (hCmd.log.length + 1)).ret ≠ LIBUSB_SUCCESS then
        (⟨hCmd.log ++ [UsbOp.bulkOut CMD_ENDPOINT_OUT (cmd.take 64) tout,
            UsbOp.bulkIn CMD_ENDPOINT_IN 64 tout], hCmd.reply⟩,
          (hCmd.reply (hCmd.log.length + 1)).data.take 64
            ++ rep.drop ((hCmd.reply (hCmd.log.length + 1)).data.take 64).length,
          CMD_ERROR)
      else
        (⟨hCmd.log ++ [UsbOp.bulkOut CMD_ENDPOINT_OUT (cmd.take 64) tout,
            UsbOp.bulkIn CMD_ENDPOINT_IN 64 tout], hCmd.reply⟩,
          (hCmd.reply (hCmd.log.length + 1)).data.take 64
            ++ rep.drop ((hCmd.reply (hCmd.log.length + 1)).data.take 64).length,
          (((hCmd.reply (hCmd.log.length + 1)).data.take 64).length : Int)) := by
  have hc : ((COMMAND_FRAME_BYTES : Nat) : Int) = 64 := rfl
  have ht : (64 : Int).toNat = 64 := rfl
  unfold CmdUsb.CmdSend
  simp only [bulk_out, bulk_in, hc, ht, List.length_append, List.length_cons, List.length_nil,
    Nat.zero_add, List.append_assoc, List.cons_append, List.nil_append]

/-- The first transfer of the bulk `CmdSend` hands the whole command buffer to
the OUT endpoint. -/
theorem usb_CmdSend_log (hCmd : Usb) (cmd : List Nat) (cmdLen : Nat) (rep : List Nat)
    (tout : Nat) (h64 : cmd.length = 64) :
    ∃ rest, (CmdUsb.CmdSend hCmd cmd cmdLen rep tout).1.log
      = hCmd.log ++ UsbOp.bulkOut CMD_ENDPOINT_OUT cmd tout :: rest := by
  have htake : cmd.take 64 = cmd := List.take_of_length_le (by omega)
  rw [usb_CmdSend_eq, htake]
  split
  · exact ⟨[], rfl⟩
  · split
    · exact ⟨[UsbOp.bulkIn CMD_ENDPOINT_IN 64 tout], rfl⟩
    · exact ⟨[UsbOp.bulkIn CMD_ENDPOINT_IN 64 tout], rfl⟩

/-- C8 (amended): for every 64-byte command buffer and every cmdLen ≤ 64 the
bulk `CmdSend` transmits exactly the 64 bytes of the buffer: the first cmdLen
bytes are the command bytes and the bytes at offsets cmdLen..63 are whatever
the buffer holds; `cmdLen` does not enter the exchange and nothing is zeroed. -/
theorem CmdSend_bulk_frame (hCmd : Usb) (cmd : List Nat) (cmdLen : Nat) (rep : List Nat)
    (tout : Nat) (h64 : cmd.length = 64) (hlen : cmdLen ≤ 64) :
    (∃ rest, (CmdUsb.CmdSend hCmd cmd cmdLen rep tout).1.log
      = hCmd.log ++ UsbOp.bulkOut CMD_ENDPOINT_OUT (cmd.take cmdLen ++ cmd.drop cmdLen) tout
          :: rest) ∧
    (cmd.take cmdLen ++ cmd.drop cmdLen).length = 64 ∧
    (∀ n, CmdUsb.CmdSend hCmd cmd cmdLen rep tout = CmdUsb.CmdSend hCmd cmd n rep tout) := by
  refine ⟨?_, ?_, ?_⟩
  · rw [List.take_append_drop]
    exact usb_CmdSend_log hCmd cmd cmdLen rep tout h64
  · rw [List.take_append_drop]
    exact h64
  · intro n
    rfl

/-- C8, witness: the one-byte command 1 in a buffer otherwise filled with
0xAA. -/
theorem CmdSend_bulk_frame_witness :
    (1 :: List.replicate 63 0xAA).length = 64 ∧ 1 ≤ 64 ∧
    (∃ rest, (CmdUsb.CmdSend ⟨[], fun _ => ⟨0, 64, []⟩⟩ (1 :: List.replicate 63 0xAA) 1
        (List.replicate 64 0) 0).1.log
      = [] ++ UsbOp.bulkOut CMD_ENDPOINT_OUT
          ((1 :: List.replicate 63 0xAA).take 1 ++ (1 :: List.replicate 63 0xAA).drop 1) 0
          :: rest) :=
  ⟨by decide, by decide,
    (CmdSend_bulk_frame ⟨[], fun _ => ⟨0, 64, []⟩⟩ (1 :: List.replicate 63 0xAA) 1
      (List.replicate 64 0) 0 (by decide) (by decide)).1⟩

/-- C8, counterexample: the command buffer is sent as it is; with a buffer
holding 0xAA at offset 1 and cmdLen = 1 the transmitted byte at offset 1 is
0xAA, not zero. -/
theorem CmdSend_bulk_not_zero_padded :
    ¬ ∀ bytes, (CmdUsb.CmdSend ⟨[], fun _ => ⟨0, 64, []⟩⟩ (1 :: List.replicate 63 0xAA) 1
          (List.replicate 64 0) 0).1.log.head?
        = some (UsbOp.bulkOut CMD_ENDPOINT_OUT bytes 0) →
      ∀ i, 1 ≤ i → i < 64 → bytes.getD i 0 = 0 := by
  intro h
  have h1 := h (1 :: List.replicate 63 0xAA) (by decide) 1 (by decide) (by decide)
  revert h1
  decide

/-- C9 (amended): the bulk `CmdSend` returns `CMD_ERROR` whenever the outbound
transfer reports a transport error or a transferred length other than 64, or
the inbound transfer reports a transport error; when both transfers report
success the received length is returned as it is, also when it is short. -/
theorem CmdSend_bulk_errors (hCmd : Usb) (cmd : List Nat) (cmdLen : Nat) (rep : List Nat)
    (tout : Nat) :
    (((hCmd.reply hCmd.log.length).ret ≠ LIBUSB_SUCCESS ∨
        (hCmd.reply hCmd.log.length).transferred ≠ 64) →
      CmdUsb.CmdSend hCmd cmd cmdLen rep tout
        = (⟨hCmd.log ++ [UsbOp.bulkOut CMD_ENDPOINT_OUT (cmd.take 64) tout], hCmd.reply⟩,
            rep, CMD_ERROR)) ∧
    ((hCmd.reply hCmd.log.length).ret = LIBUSB_SUCCESS →
      (hCmd.reply hCmd.log.length).transferred = 64 →
      (hCmd.reply (hCmd.log.length + 1)).ret ≠ LIBUSB_SUCCESS →
      (CmdUsb.CmdSend hCmd cmd cmdLen rep tout).2.2 = CMD_ERROR) ∧
    ((hCmd.reply hCmd.log.length).ret = LIBUSB_SUCCESS →
      (hCmd.reply hCmd.log.length).transferred = 64 →
      (hCmd.reply (hCmd.log.length + 1)).ret = LIBUSB_SUCCESS →
      (CmdUsb.CmdSend hCmd cmd cmdLen rep tout).2.2
        = (((hCmd.reply (hCmd.log.length + 1)).data.take 64).length : Int)) := by
  rw [usb_CmdSend_eq]
  refine ⟨?_, ?_, ?_⟩
  · intro h
    rw [if_pos h]
  · intro h1 h2 h3
    rw [if_neg (by rw [h1, h2]; simp), if_pos h3]
  · intro h1 h2 h3
    rw [if_neg (by rw [h1, h2]; simp), if_neg (by rw [h3]; simp)]

/-- C9, witness: an outbound transfer that moves 10 of the 64 bytes. -/
theorem CmdSend_bulk_errors_witness :
    (((⟨[], fun _ => ⟨0, 10, []⟩⟩ : Usb).reply 0).ret ≠ LIBUSB_SUCCESS ∨
      ((⟨[], fun _ => ⟨0, 10, []⟩⟩ : Usb).reply 0).transferred ≠ 64) ∧
    CmdUsb.CmdSend ⟨[], fun _ => ⟨0, 10, []⟩⟩ (List.replicate 64 0) 1 (List.replicate 64 7) 0
      = (⟨[] ++ [UsbOp.bulkOut CMD_ENDPOINT_OUT ((List.replicate 64 0).take 64) 0],
            fun _ => ⟨0, 10, []⟩⟩, List.replicate 64 7, CMD_ERROR) :=
  ⟨Or.inr (by decide),
    (CmdSend_bulk_errors ⟨[], fun _ => ⟨0, 10, []⟩⟩ (List.replicate 64 0) 1
      (List.replicate 64 7) 0).1 (Or.inr (by decide))⟩

/-- C9, counterexample: the outbound transfer completes, the inbound transfer
reports success with 3 bytes instead of 64, and `CmdSend` returns 3, not
`CMD_ERROR`. -/
theorem CmdSend_bulk_short_reply :
    ¬ (((⟨[], fun k => if k = 0 then ⟨0, 64, []⟩ else ⟨0, 0, [0, 1, 4]⟩⟩ : Usb).reply 1).data.length
          ≠ 64 →
        (CmdUsb.CmdSend ⟨[], fun k => if k = 0 then ⟨0, 64, []⟩ else ⟨0, 0, [0, 1, 4]⟩⟩
          (List.replicate 64 0) 1 (List.replicate 64 7) 0).2.2 = CMD_ERROR) := by
  decide

/-! ## Claims on the long command -/

/-- Receiving a well-formed frame on a bus that never fails, with the calls
made. -/
theorem recv_noFail_frame (P body rest : List Nat) (maxlen : Nat) (log : List BusOp)
    (fail : Nat → Bool)
    (hnf : NoFail ⟨P ++ SC_SOF :: body.length :: (body ++ SC_EOF :: rest), log, fail⟩)
    (hP : ∀ b ∈ P, b ≠ SC_SOF) (h256 : body.length < 256) (hcap : body.length ≤ maxlen) :
    SCFrameRecv ⟨P ++ SC_SOF :: body.length :: (body ++ SC_EOF :: rest), log, fail⟩ maxlen
      = (⟨rest, log ++ [BusOp.start] ++ List.replicate (P.length + 1) (BusOp.read 1)
            ++ [BusOp.read 1, BusOp.read (body.length + 1), BusOp.stop], fail⟩,
          some (body ++ [SC_EOF]), body.length) := by
  have hmod : body.length % 256 = body.length := Nat.mod_eq_of_lt h256
  have hk2 := hnf.extend (body ++ SC_EOF :: rest)
    ([BusOp.start] ++ List.replicate (P.length + 1) (BusOp.read 1) ++ [BusOp.read 1])
  simp only [← List.append_assoc] at hk2
  have hr2 := read_noFail _ (body.length + 1) hk2
    (by simp only [List.length_append, List.length_cons]; omega)
  have h4 : (body ++ SC_EOF :: rest).take (body.length + 1) = body ++ [SC_EOF] := by
    rw [List.take_append_eq_append_take]
    simp
  have h5 : (body ++ SC_EOF :: rest).drop (body.length + 1) = rest := by
    rw [List.drop_append_eq_append_drop]
    simp
  simp only [h4, h5] at hr2
  have hk3 := hnf.extend rest
    ([BusOp.start] ++ List.replicate (P.length + 1) (BusOp.read 1) ++ [BusOp.read 1]
      ++ [BusOp.read (body.length + 1)])
  simp only [← List.append_assoc] at hk3
  have hg : (body ++ [SC_EOF]).getD body.length 0 = SC_EOF := by
    rw [List.getD_append_right _ _ _ _ (le_refl _)]
    simp
  rw [recv_noFail_head P _ body.length maxlen log fail hnf hP, hmod,
    if_neg (by omega), hr2]
  simp only [stop_noFail _ hk3, ne_eq, not_true_eq_false, if_false, hg]
  simp [List.append_assoc]

/-- On a bus that never fails the payload loop of the serial `CmdSendLongCmd`
returns `CMD_OK` after writing the payload as a sequence of frames. -/
theorem long_loop_noFail (CMD_MAXLEN : Nat) (hpos : 0 < CMD_MAXLEN) (hC : CMD_MAXLEN ≤ 255)
    (data : List Nat) (dataLen : Int) (hdata : dataLen ≤ (data.length : Int)) :
    ∀ (n : Nat) (spi : Mpsse) (sent : Int), (dataLen - sent).toNat = n → NoFail spi →
      0 ≤ sent →
      ∃ chunks : List (List Nat),
        chunks.flatten = (data.drop sent.toNat).take (dataLen - sent).toNat ∧
        (∀ c ∈ chunks, 1 ≤ c.length ∧ c.length ≤ 32) ∧
        Cmd.CmdSendLongCmd.loop CMD_MAXLEN hpos spi data dataLen sent
          = (⟨spi.rx, spi.log ++ chunks.flatMap frameOps, spi.fail⟩, CMD_OK) := by
  intro n
  induction n using Nat.strong_induction_on with
  | _ n ih =>
    intro spi sent hn hnf hs
    rw [Cmd.CmdSendLongCmd.loop]
    by_cases hlt : sent < dataLen
    · simp only [hlt, if_true]
      obtain ⟨l, hl⟩ : ∃ l : Nat, min (dataLen - sent) (CMD_MAXLEN : Int) = (l : Int) :=
        ⟨(min (dataLen - sent) (CMD_MAXLEN : Int)).toNat, by omega⟩
      obtain ⟨s, hsn⟩ : ∃ s : Nat, sent = (s : Int) := ⟨sent.toNat, by omega⟩
      subst hsn
      have hl1 : 1 ≤ l := by omega
      have hl2 : l ≤ 255 := by omega
      have hl3 : s + l ≤ data.length := by omega
      rw [hl]
      simp only [Int.toNat_ofNat]
      obtain ⟨chunks1, hj1, _, hb1, _, hloop1⟩ :=
        send_loop_noFail (data.drop s) l spi 0 hnf
          (by simp only [List.length_drop]; omega) (by omega)
      have hsend : SCFrameSend spi (data.drop s) l
          = (⟨spi.rx, spi.log ++ chunks1.flatMap frameOps, spi.fail⟩, SC_OK) := by
        rw [SCFrameSend, Nat.mod_eq_of_lt (by omega), hloop1]
      rw [hsend]
      simp only [ne_eq, not_true_eq_false, if_false]
      obtain ⟨chunks2, hj2, hb2, hloop2⟩ :=
        ih (dataLen - ((s : Int) + (l : Int))).toNat (by omega)
          ⟨spi.rx, spi.log ++ chunks1.flatMap frameOps, spi.fail⟩ ((s : Int) + (l : Int)) rfl
          (hnf.extend spi.rx _) (by omega)
      refine ⟨chunks1 ++ chunks2, ?_, ?_, ?_⟩
      · rw [List.flatten_append, hj1, hj2]
        have e1 : ((s : Int) + (l : Int)).toNat = s + l := by omega
        have e2 : (dataLen - (s : Int)).toNat
            = l + (dataLen - ((s : Int) + (l : Int))).toNat := by omega
        rw [e1, e2, List.take_add, List.drop_drop]
        simp
      · intro c hc
        rcases List.mem_append.mp hc with hc | hc
        · exact hb1 c hc
        · exact hb2 c hc
      · rw [hloop2]
        simp [List.flatMap_append, List.append_assoc]
    · have h0 : (dataLen - sent).toNat = 0 := by omega
      refine ⟨[], ?_, ?_, ?_⟩
      · rw [h0]; simp
      · simp
      · simp [hlt]

/-- On a bus that never fails, once the command frame is sent and a well-formed
reply frame is received, the serial `CmdSendLongCmd` writes the payload and
returns `CMD_OK`; the bytes of the reply play no part. -/
theorem long_cmd_noFail (CMD_MAXLEN : Nat) (hpos : 0 < CMD_MAXLEN) (hC : CMD_MAXLEN ≤ 255)
    (spi : Mpsse) (cmd : List Nat) (cmdLen : Nat) (data : List Nat) (dataLen : Int)
    (rep : Option (List Nat)) (reply rest : List Nat) (hnf : NoFail spi)
    (h1 : 1 ≤ cmdLen) (h32 : cmdLen ≤ 32) (hlen : cmdLen ≤ cmd.length)
    (hrx : spi.rx = SC_SOF :: reply.length :: (reply ++ SC_EOF :: rest))
    (hrl : reply.length ≤ CMD_MAXLEN) (hdata : dataLen ≤ (data.length : Int)) :
    ∃ chunks : List (List Nat),
      chunks.flatten = data.take dataLen.toNat ∧
      (∀ c ∈ chunks, 1 ≤ c.length ∧ c.length ≤ 32) ∧
      Cmd.CmdSendLongCmd CMD_MAXLEN hpos spi cmd cmdLen data dataLen rep
        = (⟨rest, spi.log
              ++ [BusOp.start, BusOp.write (SC_SOF :: cmdLen :: (cmd.take cmdLen ++ [SC_EOF])),
                  BusOp.stop]
              ++ [BusOp.start, BusOp.read 1, BusOp.read 1, BusOp.read (reply.length + 1),
                  BusOp.stop]
              ++ chunks.flatMap frameOps, spi.fail⟩,
            some (reply ++ [SC_EOF]), CMD_OK) := by
  obtain ⟨rx, log, fail⟩ := spi
  simp only at hrx
  subst hrx
  have hmod : cmdLen % 256 = cmdLen := by omega
  have hcm : CMD_MAXLEN % 256 = CMD_MAXLEN := by omega
  have f0 : ¬ fail log.length = true := by
    have := hnf log.length (le_refl _)
    simp only at this
    rw [this]; simp
  have f1 : ¬ fail (log.length + 1) = true := by
    have := hnf (log.length + 1) (Nat.le_succ _)
    simp only at this
    rw [this]; simp
  have f2 : ¬ fail (log.length + 2) = true := by
    have := hnf (log.length + 2) (by simp)
    simp only at this
    rw [this]; simp
  have hsend := send_small_cases ⟨SC_SOF :: reply.length :: (reply ++ SC_EOF :: rest), log, fail⟩
    cmd cmdLen h1 h32 hlen
  simp only [if_neg f0, if_neg f1, if_neg f2] at hsend
  have hnf1 := hnf.extend (SC_SOF :: reply.length :: (reply ++ SC_EOF :: rest))
    [BusOp.start, BusOp.write (SC_SOF :: cmdLen :: (cmd.take cmdLen ++ [SC_EOF])), BusOp.stop]
  have hrecv := recv_noFail_frame [] reply rest CMD_MAXLEN _ fail hnf1 (by simp) (by omega) hrl
  simp only [List.nil_append, List.length_nil, Nat.zero_add, List.replicate_one] at hrecv
  have hnf2 := hnf.extend rest
    ([BusOp.start, BusOp.write (SC_SOF :: cmdLen :: (cmd.take cmdLen ++ [SC_EOF])), BusOp.stop]
      ++ [BusOp.start] ++ [BusOp.read 1]
      ++ [BusOp.read 1, BusOp.read (reply.length + 1), BusOp.stop])
  simp only [← List.append_assoc] at hnf2
  obtain ⟨chunks, hj, hb, hloop⟩ :=
    long_loop_noFail CMD_MAXLEN hpos hC data dataLen hdata (dataLen - 0).toNat _ 0 rfl hnf2
      (le_refl _)
  refine ⟨chunks, ?_, hb, ?_⟩
  · rw [hj]; simp
  · unfold Cmd.CmdSendLongCmd
    simp only [hmod, hcm, hsend, hrecv, hloop, ne_eq, not_true_eq_false, if_false]
    simp [List.append_assoc]

theorem flatten_length_le (l : List (List Nat)) (h : ∀ c ∈ l, c.length ≤ 32) :
    l.flatten.length ≤ 32 * l.length := by
  induction l with
  | nil => simp
  | cons c l ih =>
    have hc := h c (List.mem_cons_self _ _)
    have hl := ih (fun x hx => h x (List.mem_cons_of_mem _ hx))
    simp only [List.flatten_cons, List.length_append, List.length_cons]
    omega

/-- Chunks of at most 32 bytes that hold `32 * count` bytes together are all
full. -/
theorem all_full (l : List (List Nat)) (h : ∀ c ∈ l, c.length ≤ 32)
    (hsum : l.flatten.length = 32 * l.length) : ∀ c ∈ l, c.length = 32 := by
  induction l with
  | nil => intro c hc; simp at hc
  | cons c l ih =>
    have hc := h c (List.mem_cons_self _ _)
    have hl := flatten_length_le l (fun x hx => h x (List.mem_cons_of_mem _ hx))
    simp only [List.flatten_cons, List.length_append, List.length_cons] at hsum
    intro x hx
    rcases List.mem_cons.mp hx with rfl | hx
    · omega
    · exact ih (fun y hy => h y (List.mem_cons_of_mem _ hy)) (by omega) x hx

/-- With `CMD_MAXLEN` a multiple of 32 the payload loop puts exactly
ceil(remaining/32) frames on a bus that never fails, all full but the last. -/
theorem long_loop_noFail_count (CMD_MAXLEN : Nat) (hpos : 0 < CMD_MAXLEN)
    (hC : CMD_MAXLEN ≤ 255) (hdiv : CMD_MAXLEN % 32 = 0) (data : List Nat) (dataLen : Int)
    (hdata : dataLen ≤ (data.length : Int)) :
    ∀ (n : Nat) (spi : Mpsse) (sent : Int), (dataLen - sent).toNat = n → NoFail spi →
      0 ≤ sent →
      ∃ chunks : List (List Nat),
        chunks.flatten = (data.drop sent.toNat).take (dataLen - sent).toNat ∧
        chunks.length = ((dataLen - sent).toNat + 31) / 32 ∧
        (∀ c ∈ chunks, 1 ≤ c.length ∧ c.length ≤ 32) ∧
        (∀ c ∈ chunks.dropLast, c.length = 32) ∧
        Cmd.CmdSendLongCmd.loop CMD_MAXLEN hpos spi data dataLen sent
          = (⟨spi.rx, spi.log ++ chunks.flatMap frameOps, spi.fail⟩, CMD_OK) := by
  intro n
  induction n using Nat.strong_induction_on with
  | _ n ih =>
    intro spi sent hn hnf hs
    rw [Cmd.CmdSendLongCmd.loop]
    by_cases hlt : sent < dataLen
    · simp only [hlt, if_true]
      obtain ⟨l, hl⟩ : ∃ l : Nat, min (dataLen - sent) (CMD_MAXLEN : Int) = (l : Int) :=
        ⟨(min (dataLen - sent) (CMD_MAXLEN : Int)).toNat, by omega⟩
      obtain ⟨s, hsn⟩ : ∃ s : Nat, sent = (s : Int) := ⟨sent.toNat, by omega⟩
      subst hsn
      have hl1 : 1 ≤ l := by omega
      have hl2 : l ≤ 255 := by omega
      have hl3 : s + l ≤ data.length := by omega
      rw [hl]
      simp only [Int.toNat_ofNat]
      obtain ⟨chunks1, hj1, hn1, hb1, hd1, hloop1⟩ :=
        send_loop_noFail (data.drop s) l spi 0 hnf
          (by simp only [List.length_drop]; omega) (by omega)
      have hsend : SCFrameSend spi (data.drop s) l
          = (⟨spi.rx, spi.log ++ chunks1.flatMap frameOps, spi.fail⟩, SC_OK) := by
        rw [SCFrameSend, Nat.mod_eq_of_lt (by omega), hloop1]
      rw [hsend]
      simp only [ne_eq, not_true_eq_false, if_false]
      obtain ⟨chunks2, hj2, hn2, hb2, hd2, hloop2⟩ :=
        ih (dataLen - ((s : Int) + (l : Int))).toNat (by omega)
          ⟨spi.rx, spi.log ++ chunks1.flatMap frameOps, spi.fail⟩ ((s : Int) + (l : Int)) rfl
          (hnf.extend spi.rx _) (by omega)
      have e1 : ((s : Int) + (l : Int)).toNat = s + l := by omega
      have e2 : (dataLen - (s : Int)).toNat
          = l + (dataLen - ((s : Int) + (l : Int))).toNat := by omega
      have hlen1 : chunks1.flatten.length = l := by
        rw [hj1]
        simp only [List.drop_zero, List.length_take, List.length_drop]
        omega
      refine ⟨chunks1 ++ chunks2, ?_, ?_, ?_, ?_, ?_⟩
      · rw [List.flatten_append, hj1, hj2, e1, e2, List.take_add, List.drop_drop]
        simp
      · rw [List.length_append, hn1, hn2]
        by_cases hrest : (dataLen - ((s : Int) + (l : Int))).toNat = 0
        · omega
        · have hlC : l = CMD_MAXLEN := by omega
          omega
      · intro c hc
        rcases List.mem_append.mp hc with hc | hc
        · exact hb1 c hc
        · exact hb2 c hc
      · by_cases hne : chunks2 = []
        · subst hne
          simpa using hd1
        · rw [List.dropLast_append_of_ne_nil _ hne]
          have hpos2 : 0 < chunks2.length := List.length_pos.mpr hne
          have hlC : l = CMD_MAXLEN := by rw [hn2] at hpos2; omega
          have hfull := all_full chunks1 (fun c hc => (hb1 c hc).2)
            (by rw [hlen1, hn1]; omega)
          intro c hc
          rcases List.mem_append.mp hc with hc | hc
          · exact hfull c hc
          · exact hd2 c hc
      · rw [hloop2]
        simp [List.flatMap_append, List.append_assoc]
    · have h0 : (dataLen - sent).toNat = 0 := by omega
      refine ⟨[], ?_, ?_, ?_, ?_, ?_⟩
      · rw [h0]; simp
      · rw [h0]; rfl
      · simp
      · simp
      · simp [hlt]

/-- The header exchange of the serial long commands on a bus that never fails:
the command frame goes out, the reply frame comes in. -/
theorem header_noFail (CMD_MAXLEN : Nat) (hC : CMD_MAXLEN ≤ 255) (spi : Mpsse)
    (cmd : List Nat) (cmdLen : Nat) (reply rest : List Nat) (hnf : NoFail spi)
    (h1 : 1 ≤ cmdLen) (h32 : cmdLen ≤ 32) (hlen : cmdLen ≤ cmd.length)
    (hrx : spi.rx = frameBytes reply ++ rest) (hrl : reply.length ≤ CMD_MAXLEN) :
    SCFrameSend spi cmd (cmdLen % 256)
      = (⟨spi.rx, spi.log ++ [BusOp.start,
            BusOp.write (SC_SOF :: cmdLen :: (cmd.take cmdLen ++ [SC_EOF])), BusOp.stop],
          spi.fail⟩, SC_OK) ∧
    SCFrameRecv ⟨spi.rx, spi.log ++ [BusOp.start,
            BusOp.write (SC_SOF :: cmdLen :: (cmd.take cmdLen ++ [SC_EOF])), BusOp.stop],
          spi.fail⟩ (CMD_MAXLEN % 256)
      = (⟨rest, spi.log ++ [BusOp.start,
            BusOp.write (SC_SOF :: cmdLen :: (cmd.take cmdLen ++ [SC_EOF])), BusOp.stop]
            ++ recvOps reply, spi.fail⟩, some (reply ++ [SC_EOF]), reply.length) ∧
    NoFail ⟨rest, spi.log ++ [BusOp.start,
            BusOp.write (SC_SOF :: cmdLen :: (cmd.take cmdLen ++ [SC_EOF])), BusOp.stop]
            ++ recvOps reply, spi.fail⟩ := by
  obtain ⟨rx, log, fail⟩ := spi
  have hrx' : rx = SC_SOF :: reply.length :: (reply ++ SC_EOF :: rest) := by
    rw [show rx = frameBytes reply ++ rest from hrx]
    simp [frameBytes]
  clear hrx
  subst hrx'
  have hmod : cmdLen % 256 = cmdLen := by omega
  have hcm : CMD_MAXLEN % 256 = CMD_MAXLEN := by omega
  have f0 : ¬ fail log.length = true := by
    have := hnf log.length (le_refl _)
    simp only at this
    rw [this]; simp
  have f1 : ¬ fail (log.length + 1) = true := by
    have := hnf (log.length + 1) (Nat.le_succ _)
    simp only at this
    rw [this]; simp
  have f2 : ¬ fail (log.length + 2) = true := by
    have := hnf (log.length + 2) (by simp)
    simp only at this
    rw [this]; simp
  have hsend := send_small_cases
    ⟨SC_SOF :: reply.length :: (reply ++ SC_EOF :: rest), log, fail⟩ cmd cmdLen h1 h32 hlen
  simp only [if_neg f0, if_neg f1, if_neg f2] at hsend
  have hnf1 := hnf.extend (SC_SOF :: reply.length :: (reply ++ SC_EOF :: rest))
    [BusOp.start, BusOp.write (SC_SOF :: cmdLen :: (cmd.take cmdLen ++ [SC_EOF])), BusOp.stop]
  have hrecv := recv_noFail_frame [] reply rest CMD_MAXLEN _ fail hnf1 (by simp) (by omega) hrl
  simp only [List.nil_append, List.length_nil, Nat.zero_add, List.replicate_one] at hrecv
  have hnf2 := hnf.extend rest
    ([BusOp.start, BusOp.write (SC_SOF :: cmdLen :: (cmd.take cmdLen ++ [SC_EOF])), BusOp.stop]
      ++ recvOps reply)
  simp only [← List.append_assoc] at hnf2
  refine ⟨?_, ?_, hnf2⟩
  · rw [hmod, hsend]
  · rw [hcm, hrecv]
    simp [recvOps, List.append_assoc]

/-- C11: on a bus that never fails, with a well-formed header reply frame and
`CMD_MAXLEN` a multiple of 32 (as are 32 and 64), the payload phase of the
serial `CmdSendLongCmd` writes exactly ceil(L/32) frames, in order, each with 1
to 32 payload bytes and all but the last with 32; the payload lengths sum to L
and the payloads concatenated are the outbound payload. -/
theorem CmdSendLongCmd_serial_chunking (CMD_MAXLEN : Nat) (hpos : 0 < CMD_MAXLEN)
    (hC : CMD_MAXLEN ≤ 255) (hdiv : CMD_MAXLEN % 32 = 0) (spi : Mpsse) (cmd : List Nat)
    (cmdLen : Nat) (data : List Nat) (L : Nat) (rep : Option (List Nat))
    (reply rest : List Nat) (hnf : NoFail spi) (h1 : 1 ≤ cmdLen) (h32 : cmdLen ≤ 32)
    (hlen : cmdLen ≤ cmd.length) (hrx : spi.rx = frameBytes reply ++ rest)
    (hrl : reply.length ≤ CMD_MAXLEN) (hL : 32 < L) (hdata : L ≤ data.length) :
    ∃ chunks : List (List Nat),
      chunks.length = (L + 31) / 32 ∧
      (chunks.map List.length).sum = L ∧
      chunks.flatten = data.take L ∧
      (∀ c ∈ chunks, 1 ≤ c.length ∧ c.length ≤ 32) ∧
      (∀ c ∈ chunks.dropLast, c.length = 32) ∧
      Cmd.CmdSendLongCmd CMD_MAXLEN hpos spi cmd cmdLen data (L : Int) rep
        = (⟨rest, spi.log
              ++ [BusOp.start, BusOp.write (SC_SOF :: cmdLen :: (cmd.take cmdLen ++ [SC_EOF])),
                  BusOp.stop]
              ++ recvOps reply
              ++ chunks.flatMap
                  (fun c => [BusOp.start, BusOp.write (frameBytes c), BusOp.stop]),
              spi.fail⟩,
            some (reply ++ [SC_EOF]), CMD_OK) := by
  obtain ⟨hsend, hrecv, hnf2⟩ :=
    header_noFail CMD_MAXLEN hC spi cmd cmdLen reply rest hnf h1 h32 hlen hrx hrl
  obtain ⟨chunks, hj, hn, hb, hd, hloop⟩ :=
    long_loop_noFail_count CMD_MAXLEN hpos hC hdiv data (L : Int) (by omega)
      ((L : Int) - 0).toNat _ 0 rfl hnf2 (le_refl _)
  have e0 : ((L : Int) - 0).toNat = L := by omega
  simp only [e0, Int.toNat_zero, List.drop_zero] at hj hn
  refine ⟨chunks, hn, ?_, hj, hb, hd, ?_⟩
  · rw [← List.length_flatten, hj, List.length_take]
    omega
  · unfold Cmd.CmdSendLongCmd
    simp only [hsend, hrecv, hloop, ne_eq, not_true_eq_false, if_false]
    rfl

/-- C11, witness: 33 payload bytes go out as a frame of 32 and a frame of
1. -/
theorem CmdSendLongCmd_serial_chunking_witness :
    32 ≤ 255 ∧ 32 % 32 = 0 ∧ NoFail ⟨frameBytes [0] ++ [], [], fun _ => false⟩ ∧
    1 ≤ 1 ∧ 1 ≤ 32 ∧ 1 ≤ [3].length ∧
    (⟨frameBytes [0] ++ [], [], fun _ => false⟩ : Mpsse).rx = frameBytes [0] ++ [] ∧
    [0].length ≤ 32 ∧ 32 < 33 ∧ 33 ≤ (List.replicate 33 5).length ∧
    ∃ chunks : List (List Nat),
      chunks.length = (33 + 31) / 32 ∧
      (chunks.map List.length).sum = 33 ∧
      chunks.flatten = (List.replicate 33 5).take 33 ∧
      (∀ c ∈ chunks, 1 ≤ c.length ∧ c.length ≤ 32) ∧
      (∀ c ∈ chunks.dropLast, c.length = 32) ∧
      Cmd.CmdSendLongCmd 32 (by decide) ⟨frameBytes [0] ++ [], [], fun _ => false⟩ [3] 1
          (List.replicate 33 5) ((33 : Nat) : Int) none
        = (⟨[], [] ++ [BusOp.start, BusOp.write (SC_SOF :: 1 :: ([3].take 1 ++ [SC_EOF])),
                  BusOp.stop]
              ++ recvOps [0]
              ++ chunks.flatMap
                  (fun c => [BusOp.start, BusOp.write (frameBytes c), BusOp.stop]),
              fun _ => false⟩,
            some ([0] ++ [SC_EOF]), CMD_OK) :=
  ⟨by decide, by decide, fun _ _ => rfl, by decide, by decide, by decide, rfl, by decide,
    by decide, by decide,
    CmdSendLongCmd_serial_chunking 32 (by decide) (by decide) (by decide)
      ⟨frameBytes [0] ++ [], [], fun _ => false⟩ [3] 1 (List.replicate 33 5) 33 none [0] []
      (fun _ _ => rfl) (by decide) (by decide) (by decide) rfl (by decide) (by decide)
      (by decide)⟩

/-- One pass of the send loop, whatever calls fail. -/
theorem send_loop_step (m : Mpsse) (data : List Nat) (sent rem : Nat) (hr : 0 < rem)
    (hlen : sent + min rem 32 ≤ data.length) :
    SCFrameSend.loop m data sent rem =
      if m.fail m.log.length = true then
        (⟨m.rx, m.log ++ [BusOp.start, BusOp.stop], m.fail⟩, SC_ERROR)
      else if m.fail (m.log.length + 1) = true then
        (⟨m.rx, m.log ++ [BusOp.start,
          BusOp.write (frameBytes ((data.drop sent).take (min rem 32))), BusOp.stop], m.fail⟩,
          SC_ERROR)
      else if m.fail (m.log.length + 2) = true then
        (⟨m.rx, m.log ++ [BusOp.start,
          BusOp.write (frameBytes ((data.drop sent).take (min rem 32))), BusOp.stop,
          BusOp.stop], m.fail⟩, SC_ERROR)
      else
        SCFrameSend.loop ⟨m.rx, m.log ++ frameOps ((data.drop sent).take (min rem 32)), m.fail⟩
          data ((sent + min rem 32) % 65536) ((rem - min rem 32) % 65536) := by
  have hbf := buildFrame_take data sent (min rem 32) hlen
  rw [SCFrameSend.loop]
  simp only [hr, if_true, SC_MAX_DATALEN, hbf, Start, Stop, Write, frameBytes, frameOps,
    Mpsse.record, Mpsse.status, MPSSE_OK, MPSSE_FAIL, List.length_append, List.length_cons,
    List.length_nil]
  by_cases f0 : m.fail m.log.length = true
  · simp [f0, SC_ERROR, MPSSE_FAIL]
  · by_cases f1 : m.fail (m.log.length + 1) = true
    · simp [f0, f1, SC_ERROR, MPSSE_FAIL]
    · by_cases f2 : m.fail (m.log.length + 2) = true
      · simp [f0, f1, f2, SC_ERROR, MPSSE_FAIL]
      · simp [f0, f1, f2]

/-- Whatever calls fail: when the send loop returns `SC_OK` it has put the
remaining bytes on the bus as a sequence of frames, and nothing else. -/
theorem send_loop_ok_inv (data : List Nat) : ∀ (rem : Nat) (m : Mpsse) (sent : Nat),
    sent + rem ≤ data.length → sent + rem < 65536 →
    (SCFrameSend.loop m data sent rem).2 = SC_OK →
    ∃ chunks : List (List Nat),
      chunks.flatten = (data.drop sent).take rem ∧
      SCFrameSend.loop m data sent rem
        = (⟨m.rx, m.log ++ chunks.flatMap frameOps, m.fail⟩, SC_OK) := by
  intro rem
  induction rem using Nat.strong_induction_on with
  | _ rem ih =>
    intro m sent hlen h16 hok
    by_cases hr : 0 < rem
    · have hstep := send_loop_step m data sent rem hr (by omega)
      have hne : SC_ERROR ≠ SC_OK := by decide
      rw [hstep] at hok ⊢
      by_cases f0 : m.fail m.log.length = true
      · rw [if_pos f0] at hok; exact absurd hok hne
      · by_cases f1 : m.fail (m.log.length + 1) = true
        · rw [if_neg f0, if_pos f1] at hok; exact absurd hok hne
        · by_cases f2 : m.fail (m.log.length + 2) = true
          · rw [if_neg f0, if_neg f1, if_pos f2] at hok; exact absurd hok hne
          · rw [if_neg f0, if_neg f1, if_neg f2] at hok ⊢
            have hs : (sent + min rem 32) % 65536 = sent + min rem 32 := by omega
            have hrm : (rem - min rem 32) % 65536 = rem - min rem 32 := by omega
            rw [hs, hrm] at hok ⊢
            obtain ⟨chunks, hj, hloop⟩ :=
              ih (rem - min rem 32) (by omega) _ (sent + min rem 32) (by omega) (by omega) hok
            refine ⟨(data.drop sent).take (min rem 32) :: chunks, ?_, ?_⟩
            · rw [List.flatten_cons, hj]
              have : rem = min rem 32 + (rem - min rem 32) := by omega
              conv_rhs => rw [this, List.take_add]
              rw [List.drop_drop]
            · rw [hloop]
              simp [List.flatMap_cons, List.append_assoc]
    · have h0 : rem = 0 := by omega
      subst h0
      refine ⟨[], by simp, ?_⟩
      rw [SCFrameSend.loop]
      simp [SC_OK]

/-- The payload loop when the chunk at the cursor cannot be sent. -/
theorem long_loop_fail (CMD_MAXLEN : Nat) (hpos : 0 < CMD_MAXLEN) (spi : Mpsse)
    (data : List Nat) (dataLen sent : Int) (hlt : sent < dataLen)
    (hf : (SCFrameSend spi (data.drop sent.toNat)
      (min (dataLen - sent) (CMD_MAXLEN : Int)).toNat).2 ≠ SC_OK) :
    Cmd.CmdSendLongCmd.loop CMD_MAXLEN hpos spi data dataLen sent
      = ((SCFrameSend spi (data.drop sent.toNat)
          (min (dataLen - sent) (CMD_MAXLEN : Int)).toNat).1, CMD_ERROR) ∧
    Cmd.CmdSendLongCmd.cursor CMD_MAXLEN hpos spi data dataLen sent = sent := by
  have hf' : SC_OK ≠ (SCFrameSend spi (data.drop sent.toNat)
      (min (dataLen - sent) (CMD_MAXLEN : Int)).toNat).2 := fun h => hf h.symm
  refine ⟨?_, ?_⟩
  · rw [Cmd.CmdSendLongCmd.loop]
    simp only [hlt, if_true, hf', ne_eq, not_false_eq_true]
  · rw [Cmd.CmdSendLongCmd.cursor]
    simp only [hlt, if_true, hf', ne_eq, not_false_eq_true]

/-- The payload loop when the chunk at the cursor is sent. -/
theorem long_loop_ok (CMD_MAXLEN : Nat) (hpos : 0 < CMD_MAXLEN) (spi : Mpsse)
    (data : List Nat) (dataLen sent : Int) (hlt : sent < dataLen)
    (hs : (SCFrameSend spi (data.drop sent.toNat)
      (min (dataLen - sent) (CMD_MAXLEN : Int)).toNat).2 = SC_OK) :
    Cmd.CmdSendLongCmd.loop CMD_MAXLEN hpos spi data dataLen sent
      = Cmd.CmdSendLongCmd.loop CMD_MAXLEN hpos
          (SCFrameSend spi (data.drop sent.toNat)
            (min (dataLen - sent) (CMD_MAXLEN : Int)).toNat).1 data dataLen
          (sent + min (dataLen - sent) (CMD_MAXLEN : Int)) ∧
    Cmd.CmdSendLongCmd.cursor CMD_MAXLEN hpos spi data dataLen sent
      = Cmd.CmdSendLongCmd.cursor CMD_MAXLEN hpos
          (SCFrameSend spi (data.drop sent.toNat)
            (min (dataLen - sent) (CMD_MAXLEN : Int)).toNat).1 data dataLen
          (sent + min (dataLen - sent) (CMD_MAXLEN : Int)) := by
  have hs' : ¬ SC_OK ≠ (SCFrameSend spi (data.drop sent.toNat)
      (min (dataLen - sent) (CMD_MAXLEN : Int)).toNat).2 := by rw [hs]; simp
  refine ⟨?_, ?_⟩
  · conv_lhs => rw [Cmd.CmdSendLongCmd.loop]
    simp only [hlt, if_true, hs', if_false]
  · conv_lhs => rw [Cmd.CmdSendLongCmd.cursor]
    simp only [hlt, if_true, hs', if_false]

/-- The payload loop when nothing is left to send. -/
theorem long_loop_done (CMD_MAXLEN : Nat) (hpos : 0 < CMD_MAXLEN) (spi : Mpsse)
    (data : List Nat) (dataLen sent : Int) (hge : ¬ sent < dataLen) :
    Cmd.CmdSendLongCmd.loop CMD_MAXLEN hpos spi data dataLen sent = (spi, CMD_OK) ∧
    Cmd.CmdSendLongCmd.cursor CMD_MAXLEN hpos spi data dataLen sent = sent := by
  refine ⟨?_, ?_⟩
  · rw [Cmd.CmdSendLongCmd.loop]
    simp only [hge, if_false]
  · rw [Cmd.CmdSendLongCmd.cursor]
    simp only [hge, if_false]

/-- Whatever calls fail: a payload loop that returns `CMD_OK` leaves with its
cursor on `dataLen`. -/
theorem long_loop_cursor (CMD_MAXLEN : Nat) (hpos : 0 < CMD_MAXLEN) (data : List Nat)
    (dataLen : Int) :
    ∀ (n : Nat) (spi : Mpsse) (sent : Int), (dataLen - sent).toNat = n → sent ≤ dataLen →
      (Cmd.CmdSendLongCmd.loop CMD_MAXLEN hpos spi data dataLen sent).2 = CMD_OK →
      Cmd.CmdSendLongCmd.cursor CMD_MAXLEN hpos spi data dataLen sent = dataLen := by
  intro n
  induction n using Nat.strong_induction_on with
  | _ n ih =>
    intro spi sent hn hle hok
    by_cases hlt : sent < dataLen
    · by_cases hs : (SCFrameSend spi (data.drop sent.toNat)
          (min (dataLen - sent) (CMD_MAXLEN : Int)).toNat).2 = SC_OK
      · obtain ⟨hl, hc⟩ := long_loop_ok CMD_MAXLEN hpos spi data dataLen sent hlt hs
        rw [hl] at hok
        rw [hc]
        exact ih _ (by omega) _ _ rfl (by omega) hok
      · obtain ⟨hl, _⟩ := long_loop_fail CMD_MAXLEN hpos spi data dataLen sent hlt hs
        rw [hl] at hok
        have hne : CMD_ERROR ≠ CMD_OK := by decide
        exact absurd hok hne
    · obtain ⟨_, hc⟩ := long_loop_done CMD_MAXLEN hpos spi data dataLen sent hlt
      rw [hc]
      omega

/-- C12 (amended): for every `dataLen ≥ 0` and every behaviour of the bus, if
the serial `CmdSendLongCmd` returns `CMD_OK` then the cursor, the sum of the
chunk sizes handed to the transport, equals `dataLen`. -/
theorem CmdSendLongCmd_ok_cursor (CMD_MAXLEN : Nat) (hpos : 0 < CMD_MAXLEN) (spi : Mpsse)
    (cmd : List Nat) (cmdLen : Nat) (data : List Nat) (dataLen : Int)
    (rep : Option (List Nat)) (h0 : 0 ≤ dataLen)
    (hok : (Cmd.CmdSendLongCmd CMD_MAXLEN hpos spi cmd cmdLen data dataLen rep).2.2 = CMD_OK) :
    Cmd.CmdSendLongCmd.cursor CMD_MAXLEN hpos
      (SCFrameRecv (SCFrameSend spi cmd (cmdLen % 256)).1 (CMD_MAXLEN % 256)).1
      data dataLen 0 = dataLen := by
  have hne : CMD_ERROR ≠ CMD_OK := by decide
  unfold Cmd.CmdSendLongCmd at hok
  simp only at hok
  split at hok
  · exact absurd hok hne
  · split at hok
    · exact absurd hok hne
    · exact long_loop_cursor CMD_MAXLEN hpos data dataLen _ _ 0 rfl h0 hok

/-- C12, witness: one payload byte, sent on a bus that never fails. -/
theorem CmdSendLongCmd_ok_cursor_witness :
    (0 : Int) ≤ 1 ∧
    (Cmd.CmdSendLongCmd 32 (by decide) ⟨[0x7E, 1, 0, 0x7D], [], fun _ => false⟩ [9] 1 [0xAA]
      1 none).2.2 = CMD_OK ∧
    Cmd.CmdSendLongCmd.cursor 32 (by decide)
      (SCFrameRecv (SCFrameSend ⟨[0x7E, 1, 0, 0x7D], [], fun _ => false⟩ [9] (1 % 256)).1
        (32 % 256)).1 [0xAA] 1 0 = 1 :=
  have hrun : (Cmd.CmdSendLongCmd 32 (by decide) ⟨[0x7E, 1, 0, 0x7D], [], fun _ => false⟩ [9] 1
      [0xAA] 1 none).2.2 = CMD_OK := by
    simp [Cmd.CmdSendLongCmd, Cmd.CmdSendLongCmd.loop, SCFrameSend, SCFrameSend.loop,
      SCFrameRecv, SCFrameRecv.seek, Start, Stop, Write, Read, Mpsse.record, Mpsse.status,
      buildFrame, SC_MAX_DATALEN, MPSSE_OK, SC_OK, SC_SOF, SC_EOF, CMD_OK]
  ⟨by decide, hrun,
    CmdSendLongCmd_ok_cursor 32 (by decide) ⟨[0x7E, 1, 0, 0x7D], [], fun _ => false⟩ [9] 1
      [0xAA] 1 none (by decide) hrun⟩

/-- C12, counterexample: with `dataLen = -1` the payload loop is not entered;
`CmdSendLongCmd` returns `CMD_OK` and the cursor is 0, not `dataLen`. -/
theorem CmdSendLongCmd_negative_length :
    ¬ ((Cmd.CmdSendLongCmd 32 (by decide) ⟨[0x7E, 1, 0, 0x7D], [], fun _ => false⟩ [9] 1 []
          (-1) none).2.2 = CMD_OK →
      Cmd.CmdSendLongCmd.cursor 32 (by decide)
        (SCFrameRecv (SCFrameSend ⟨[0x7E, 1, 0, 0x7D], [], fun _ => false⟩ [9] (1 % 256)).1
          (32 % 256)).1 [] (-1) 0 = -1) := by
  have hrun : (Cmd.CmdSendLongCmd 32 (by decide) ⟨[0x7E, 1, 0, 0x7D], [], fun _ => false⟩ [9] 1
      [] (-1) none).2.2 = CMD_OK := by
    simp [Cmd.CmdSendLongCmd, Cmd.CmdSendLongCmd.loop, SCFrameSend, SCFrameSend.loop,
      SCFrameRecv, SCFrameRecv.seek, Start, Stop, Write, Read, Mpsse.record, Mpsse.status,
      buildFrame, SC_MAX_DATALEN, MPSSE_OK, SC_OK, SC_SOF, SC_EOF, CMD_OK]
  have hcur : Cmd.CmdSendLongCmd.cursor 32 (by decide)
      (SCFrameRecv (SCFrameSend ⟨[0x7E, 1, 0, 0x7D], [], fun _ => false⟩ [9] (1 % 256)).1
        (32 % 256)).1 [] (-1) 0 = 0 := by
    rw [Cmd.CmdSendLongCmd.cursor]
    simp
  intro h
  have h2 := h hrun
  rw [hcur] at h2
  exact absurd h2 (by decide)

/-- The payload loop started at cursor 0 reaches iteration `k` when the chunks
before it exist and are sent. -/
theorem long_loop_iter (CMD_MAXLEN : Nat) (hpos : 0 < CMD_MAXLEN) (spi : Mpsse)
    (data : List Nat) (dataLen : Int) : ∀ (k : Nat),
    (∀ i, i < k → (Cmd.CmdSendLongCmd.iter CMD_MAXLEN spi data dataLen i).2 < dataLen ∧
      (Cmd.CmdSendLongCmd.chunk CMD_MAXLEN spi data dataLen i).2 = SC_OK) →
    Cmd.CmdSendLongCmd.loop CMD_MAXLEN hpos spi data dataLen 0
      = Cmd.CmdSendLongCmd.loop CMD_MAXLEN hpos
          (Cmd.CmdSendLongCmd.iter CMD_MAXLEN spi data dataLen k).1 data dataLen
          (Cmd.CmdSendLongCmd.iter CMD_MAXLEN spi data dataLen k).2 ∧
    Cmd.CmdSendLongCmd.cursor CMD_MAXLEN hpos spi data dataLen 0
      = Cmd.CmdSendLongCmd.cursor CMD_MAXLEN hpos
          (Cmd.CmdSendLongCmd.iter CMD_MAXLEN spi data dataLen k).1 data dataLen
          (Cmd.CmdSendLongCmd.iter CMD_MAXLEN spi data dataLen k).2 := by
  intro k
  induction k with
  | zero => intro _; exact ⟨rfl, rfl⟩
  | succ k ih =>
    intro h
    obtain ⟨hl, hc⟩ := ih (fun i hi => h i (Nat.lt_succ_of_lt hi))
    obtain ⟨hlt, hs⟩ := h k (Nat.lt_succ_self k)
    obtain ⟨hl2, hc2⟩ := long_loop_ok CMD_MAXLEN hpos _ data dataLen _ hlt hs
    exact ⟨hl.trans hl2, hc.trans hc2⟩

/-- The cursor at the start of iteration `k` is `k * CMD_MAXLEN` when chunk
`k` and the chunks before it exist. -/
theorem iter_cursor (CMD_MAXLEN : Nat) (spi : Mpsse) (data : List Nat) (dataLen : Int) :
    ∀ (k : Nat),
    (∀ i, i ≤ k → (Cmd.CmdSendLongCmd.iter CMD_MAXLEN spi data dataLen i).2 < dataLen) →
    (Cmd.CmdSendLongCmd.iter CMD_MAXLEN spi data dataLen k).2
      = ((k * CMD_MAXLEN : Nat) : Int) := by
  intro k
  induction k with
  | zero => intro _; simp [Cmd.CmdSendLongCmd.iter]
  | succ k ih =>
    intro h
    have hk := ih (fun i hi => h i (Nat.le_succ_of_le hi))
    have hlt := h k (Nat.le_succ k)
    have hlt1 := h (k + 1) (le_refl _)
    simp only [Cmd.CmdSendLongCmd.iter] at hlt1 ⊢
    have hmin : min (dataLen - (Cmd.CmdSendLongCmd.iter CMD_MAXLEN spi data dataLen k).2)
        (CMD_MAXLEN : Int) = (CMD_MAXLEN : Int) := by omega
    rw [hmin, hk, Nat.succ_mul]
    push_cast
    rfl

/-- Whatever calls fail: when the chunks before iteration `k` exist and are
sent, the bus has seen exactly the frames that carry the payload up to the
cursor, each once and in order. -/
theorem iter_frames (CMD_MAXLEN : Nat) (hC : CMD_MAXLEN ≤ 255) (spi : Mpsse)
    (data : List Nat) (dataLen : Int) (hdata : dataLen ≤ (data.length : Int)) :
    ∀ (k : Nat),
    (∀ i, i < k → (Cmd.CmdSendLongCmd.iter CMD_MAXLEN spi data dataLen i).2 < dataLen ∧
      (Cmd.CmdSendLongCmd.chunk CMD_MAXLEN spi data dataLen i).2 = SC_OK) →
    0 ≤ (Cmd.CmdSendLongCmd.iter CMD_MAXLEN spi data dataLen k).2 ∧
    ((Cmd.CmdSendLongCmd.iter CMD_MAXLEN spi data dataLen k).2 ≤ dataLen ∨ k = 0) ∧
    ∃ frames : List (List Nat),
      frames.flatten
        = data.take (Cmd.CmdSendLongCmd.iter CMD_MAXLEN spi data dataLen k).2.toNat ∧
      (Cmd.CmdSendLongCmd.iter CMD_MAXLEN spi data dataLen k).1
        = ⟨spi.rx, spi.log ++ frames.flatMap frameOps, spi.fail⟩ := by
  intro k
  induction k with
  | zero =>
    intro _
    refine ⟨le_refl _, Or.inr rfl, [], ?_, ?_⟩
    · simp [Cmd.CmdSendLongCmd.iter]
    · simp [Cmd.CmdSendLongCmd.iter]
  | succ k ih =>
    intro h
    obtain ⟨h0, _, frames, hj, hst⟩ := ih (fun i hi => h i (Nat.lt_succ_of_lt hi))
    obtain ⟨hlt, hs⟩ := h k (Nat.lt_succ_self k)
    obtain ⟨s, hsn⟩ : ∃ s : Nat, (Cmd.CmdSendLongCmd.iter CMD_MAXLEN spi data dataLen k).2
        = (s : Int) := ⟨_, (Int.toNat_of_nonneg h0).symm⟩
    obtain ⟨l, hl⟩ : ∃ l : Nat,
        min (dataLen - (Cmd.CmdSendLongCmd.iter CMD_MAXLEN spi data dataLen k).2)
          (CMD_MAXLEN : Int) = (l : Int) :=
      ⟨(min (dataLen - (Cmd.CmdSendLongCmd.iter CMD_MAXLEN spi data dataLen k).2)
          (CMD_MAXLEN : Int)).toNat, by omega⟩
    have hl2 : l ≤ 255 := by omega
    have hl3 : s + l ≤ data.length := by omega
    unfold Cmd.CmdSendLongCmd.chunk at hs
    rw [hl, hsn, hst] at hs
    simp only [Int.toNat_ofNat] at hs
    rw [hsn] at hj
    simp only [Int.toNat_ofNat] at hj
    have hs' : (SCFrameSend.loop ⟨spi.rx, spi.log ++ frames.flatMap frameOps, spi.fail⟩
        (data.drop s) 0 l).2 = SC_OK := by
      rw [SCFrameSend, Nat.mod_eq_of_lt (by omega)] at hs
      exact hs
    obtain ⟨chunks, hcj, hloop⟩ := send_loop_ok_inv (data.drop s) l _ 0
      (by simp only [List.length_drop]; omega) (by omega) hs'
    simp only [Cmd.CmdSendLongCmd.iter]
    rw [hl, hsn, hst]
    simp only [Int.toNat_ofNat]
    refine ⟨by omega, Or.inl (by omega), frames ++ chunks, ?_, ?_⟩
    · have e : ((s : Int) + (l : Int)).toNat = s + l := by omega
      rw [List.flatten_append, hj, hcj, e, List.take_add]
      simp
    · rw [SCFrameSend, Nat.mod_eq_of_lt (by omega), hloop]
      simp [List.flatMap_append, List.append_assoc]

/-- Whatever calls fail, when chunks 0..k-1 of the payload exist and are sent
and sending chunk `k` fails, the payload loop returns `CMD_ERROR` with the bus
as that failed `SCFrameSend` left it. -/
theorem long_loop_abort (CMD_MAXLEN : Nat) (hpos : 0 < CMD_MAXLEN)
    (hC : CMD_MAXLEN ≤ 255) (spi : Mpsse) (data : List Nat) (dataLen : Int) (k : Nat)
    (hdata : dataLen ≤ (data.length : Int))
    (hok : ∀ i, i < k → (Cmd.CmdSendLongCmd.iter CMD_MAXLEN spi data dataLen i).2 < dataLen ∧
      (Cmd.CmdSendLongCmd.chunk CMD_MAXLEN spi data dataLen i).2 = SC_OK)
    (hk : (Cmd.CmdSendLongCmd.iter CMD_MAXLEN spi data dataLen k).2 < dataLen)
    (hfail : (Cmd.CmdSendLongCmd.chunk CMD_MAXLEN spi data dataLen k).2 ≠ SC_OK) :
    Cmd.CmdSendLongCmd.loop CMD_MAXLEN hpos spi data dataLen 0
      = ((Cmd.CmdSendLongCmd.chunk CMD_MAXLEN spi data dataLen k).1, CMD_ERROR) ∧
    Cmd.CmdSendLongCmd.cursor CMD_MAXLEN hpos spi data dataLen 0
      = ((k * CMD_MAXLEN : Nat) : Int) ∧
    ∃ frames : List (List Nat),
      frames.flatten = data.take (k * CMD_MAXLEN) ∧
      (Cmd.CmdSendLongCmd.iter CMD_MAXLEN spi data dataLen k).1
        = ⟨spi.rx, spi.log ++ frames.flatMap
            (fun c => [BusOp.start, BusOp.write (frameBytes c), BusOp.stop]), spi.fail⟩ := by
  obtain ⟨hl, hc⟩ := long_loop_iter CMD_MAXLEN hpos spi data dataLen k hok
  obtain ⟨hl2, hc2⟩ := long_loop_fail CMD_MAXLEN hpos _ data dataLen _ hk hfail
  have hcur := iter_cursor CMD_MAXLEN spi data dataLen k (by
    intro i hi
    rcases Nat.lt_or_eq_of_le hi with hlt | heq
    · exact (hok i hlt).1
    · rw [heq]; exact hk)
  obtain ⟨_, _, frames, hj, hst⟩ := iter_frames CMD_MAXLEN hC spi data dataLen hdata k hok
  refine ⟨hl.trans hl2, ?_, frames, ?_, hst⟩
  · rw [hc, hc2, hcur]
  · rw [hj, hcur, Int.toNat_ofNat]

/-- C13: whatever calls fail, once the header exchange of the serial
`CmdSendLongCmd` is through, when chunks 0..k-1 of the payload exist and are
sent and sending chunk `k` fails, the call returns `CMD_ERROR` with the bus as
that failed `SCFrameSend` left it, so that no call for a later chunk is made;
the cursor stays at `k * CMD_MAXLEN`, and before chunk `k` the bus has seen,
after the header exchange, exactly the frames of the first `k * CMD_MAXLEN`
payload bytes, each once and in order. -/
theorem CmdSendLongCmd_abort_on_failed_chunk (CMD_MAXLEN : Nat) (hpos : 0 < CMD_MAXLEN)
    (hC : CMD_MAXLEN ≤ 255) (spi hdr : Mpsse) (cmd : List Nat) (cmdLen : Nat)
    (data : List Nat) (dataLen : Int) (rep : Option (List Nat)) (b : List Nat) (k : Nat)
    (hdata : dataLen ≤ (data.length : Int))
    (hsend : (SCFrameSend spi cmd (cmdLen % 256)).2 = SC_OK)
    (hrecv : SCFrameRecv (SCFrameSend spi cmd (cmdLen % 256)).1 (CMD_MAXLEN % 256)
      = (hdr, some b, (SCFrameRecv (SCFrameSend spi cmd (cmdLen % 256)).1
          (CMD_MAXLEN % 256)).2.2))
    (hok : ∀ i, i < k → (Cmd.CmdSendLongCmd.iter CMD_MAXLEN hdr data dataLen i).2 < dataLen ∧
      (Cmd.CmdSendLongCmd.chunk CMD_MAXLEN hdr data dataLen i).2 = SC_OK)
    (hk : (Cmd.CmdSendLongCmd.iter CMD_MAXLEN hdr data dataLen k).2 < dataLen)
    (hfail : (Cmd.CmdSendLongCmd.chunk CMD_MAXLEN hdr data dataLen k).2 ≠ SC_OK) :
    Cmd.CmdSendLongCmd CMD_MAXLEN hpos spi cmd cmdLen data dataLen rep
      = ((Cmd.CmdSendLongCmd.chunk CMD_MAXLEN hdr data dataLen k).1, some b, CMD_ERROR) ∧
    Cmd.CmdSendLongCmd.cursor CMD_MAXLEN hpos hdr data dataLen 0
      = ((k * CMD_MAXLEN : Nat) : Int) ∧
    ∃ frames : List (List Nat),
      frames.flatten = data.take (k * CMD_MAXLEN) ∧
      (Cmd.CmdSendLongCmd.iter CMD_MAXLEN hdr data dataLen k).1
        = ⟨hdr.rx, hdr.log ++ frames.flatMap
            (fun c => [BusOp.start, BusOp.write (frameBytes c), BusOp.stop]), hdr.fail⟩ := by
  obtain ⟨hloop, hcur, hframes⟩ :=
    long_loop_abort CMD_MAXLEN hpos hC hdr data dataLen k hdata hok hk hfail
  refine ⟨?_, hcur, hframes⟩
  have hs' : ¬ SC_OK ≠ (SCFrameSend spi cmd (cmdLen % 256)).2 := by rw [hsend]; simp
  unfold Cmd.CmdSendLongCmd
  simp only [if_neg hs']
  rw [hrecv]
  simp only [hloop]

/-- C13, witness: 33 payload bytes; the first chunk of 32 is sent and the
`Write` of the second chunk, bus call number 12, fails. -/
theorem CmdSendLongCmd_abort_on_failed_chunk_witness :
    32 ≤ 255 ∧ (33 : Int) ≤ ((List.replicate 33 5).length : Int) ∧
    (SCFrameSend ⟨[0x7E, 1, 0, 0x7D], [], fun k => decide (k = 12)⟩ [3] (1 % 256)).2 = SC_OK ∧
    SCFrameRecv (SCFrameSend ⟨[0x7E, 1, 0, 0x7D], [], fun k => decide (k = 12)⟩ [3] (1 % 256)).1 (32 % 256)
      = (⟨[], [BusOp.start, BusOp.write [0x7E, 1, 3, 0x7D], BusOp.stop, BusOp.start,
        BusOp.read 1, BusOp.read 1, BusOp.read 2, BusOp.stop], fun k => decide (k = 12)⟩, some [0, 0x7D],
          (SCFrameRecv (SCFrameSend ⟨[0x7E, 1, 0, 0x7D], [], fun k => decide (k = 12)⟩ [3] (1 % 256)).1 (32 % 256)).2.2) ∧
    (∀ i, i < 1 →
      (Cmd.CmdSendLongCmd.iter 32 ⟨[], [BusOp.start, BusOp.write [0x7E, 1, 3, 0x7D], BusOp.stop, BusOp.start,
        BusOp.read 1, BusOp.read 1, BusOp.read 2, BusOp.stop], fun k => decide (k = 12)⟩ (List.replicate 33 5) 33 i).2 < 33 ∧
      (Cmd.CmdSendLongCmd.chunk 32 ⟨[], [BusOp.start, BusOp.write [0x7E, 1, 3, 0x7D], BusOp.stop, BusOp.start,
        BusOp.read 1, BusOp.read 1, BusOp.read 2, BusOp.stop], fun k => decide (k = 12)⟩ (List.replicate 33 5) 33 i).2 = SC_OK) ∧
    (Cmd.CmdSendLongCmd.iter 32 ⟨[], [BusOp.start, BusOp.write [0x7E, 1, 3, 0x7D], BusOp.stop, BusOp.start,
        BusOp.read 1, BusOp.read 1, BusOp.read 2, BusOp.stop], fun k => decide (k = 12)⟩ (List.replicate 33 5) 33 1).2 < 33 ∧
    (Cmd.CmdSendLongCmd.chunk 32 ⟨[], [BusOp.start, BusOp.write [0x7E, 1, 3, 0x7D], BusOp.stop, BusOp.start,
        BusOp.read 1, BusOp.read 1, BusOp.read 2, BusOp.stop], fun k => decide (k = 12)⟩ (List.replicate 33 5) 33 1).2 ≠ SC_OK ∧
    Cmd.CmdSendLongCmd 32 (by decide) ⟨[0x7E, 1, 0, 0x7D], [], fun k => decide (k = 12)⟩ [3] 1 (List.replicate 33 5) 33 none
      = ((Cmd.CmdSendLongCmd.chunk 32 ⟨[], [BusOp.start, BusOp.write [0x7E, 1, 3, 0x7D], BusOp.stop, BusOp.start,
        BusOp.read 1, BusOp.read 1, BusOp.read 2, BusOp.stop], fun k => decide (k = 12)⟩ (List.replicate 33 5) 33 1).1, some [0, 0x7D],
          CMD_ERROR) ∧
    Cmd.CmdSendLongCmd.cursor 32 (by decide) ⟨[], [BusOp.start, BusOp.write [0x7E, 1, 3, 0x7D], BusOp.stop, BusOp.start,
        BusOp.read 1, BusOp.read 1, BusOp.read 2, BusOp.stop], fun k => decide (k = 12)⟩ (List.replicate 33 5) 33 0
      = ((1 * 32 : Nat) : Int) := by
  have hsend : (SCFrameSend ⟨[0x7E, 1, 0, 0x7D], [], fun k => decide (k = 12)⟩ [3] (1 % 256)).2 = SC_OK := by
    simp [SCFrameSend, SCFrameSend.loop, Start, Stop, Write, Mpsse.record, Mpsse.status,
      buildFrame, SC_MAX_DATALEN, MPSSE_OK, SC_OK, SC_SOF, SC_EOF]
  have hrecv : SCFrameRecv (SCFrameSend ⟨[0x7E, 1, 0, 0x7D], [], fun k => decide (k = 12)⟩ [3] (1 % 256)).1 (32 % 256)
      = (⟨[], [BusOp.start, BusOp.write [0x7E, 1, 3, 0x7D], BusOp.stop, BusOp.start,
        BusOp.read 1, BusOp.read 1, BusOp.read 2, BusOp.stop], fun k => decide (k = 12)⟩, some [0, 0x7D],
          (SCFrameRecv (SCFrameSend ⟨[0x7E, 1, 0, 0x7D], [], fun k => decide (k = 12)⟩ [3] (1 % 256)).1 (32 % 256)).2.2) := by
    simp [SCFrameSend, SCFrameSend.loop, SCFrameRecv, SCFrameRecv.seek, Start, Stop, Write,
      Read, Mpsse.record, Mpsse.status, buildFrame, SC_MAX_DATALEN, MPSSE_OK, SC_OK, SC_SOF,
      SC_EOF]
  have hok : ∀ i, i < 1 →
      (Cmd.CmdSendLongCmd.iter 32 ⟨[], [BusOp.start, BusOp.write [0x7E, 1, 3, 0x7D], BusOp.stop, BusOp.start,
        BusOp.read 1, BusOp.read 1, BusOp.read 2, BusOp.stop], fun k => decide (k = 12)⟩ (List.replicate 33 5) 33 i).2 < 33 ∧
      (Cmd.CmdSendLongCmd.chunk 32 ⟨[], [BusOp.start, BusOp.write [0x7E, 1, 3, 0x7D], BusOp.stop, BusOp.start,
        BusOp.read 1, BusOp.read 1, BusOp.read 2, BusOp.stop], fun k => decide (k = 12)⟩ (List.replicate 33 5) 33 i).2 = SC_OK := by
    intro i hi
    have hi0 : i = 0 := by omega
    subst hi0
    simp [Cmd.CmdSendLongCmd.chunk, Cmd.CmdSendLongCmd.iter, SCFrameSend, SCFrameSend.loop,
      Start, Stop, Write, Mpsse.record, Mpsse.status, buildFrame, SC_MAX_DATALEN, MPSSE_OK,
      SC_OK, SC_SOF, SC_EOF]
  have hk : (Cmd.CmdSendLongCmd.iter 32 ⟨[], [BusOp.start, BusOp.write [0x7E, 1, 3, 0x7D], BusOp.stop, BusOp.start,
        BusOp.read 1, BusOp.read 1, BusOp.read 2, BusOp.stop], fun k => decide (k = 12)⟩ (List.replicate 33 5) 33 1).2 < 33 := by
    simp [Cmd.CmdSendLongCmd.iter]
  have hfail : (Cmd.CmdSendLongCmd.chunk 32 ⟨[], [BusOp.start, BusOp.write [0x7E, 1, 3, 0x7D], BusOp.stop, BusOp.start,
        BusOp.read 1, BusOp.read 1, BusOp.read 2, BusOp.stop], fun k => decide (k = 12)⟩ (List.replicate 33 5) 33 1).2 ≠ SC_OK := by
    simp [Cmd.CmdSendLongCmd.chunk, Cmd.CmdSendLongCmd.iter, SCFrameSend, SCFrameSend.loop,
      Start, Stop, Write, Mpsse.record, Mpsse.status, buildFrame, SC_MAX_DATALEN, MPSSE_OK,
      MPSSE_FAIL, SC_OK, SC_ERROR, SC_SOF, SC_EOF]
  have hthm := CmdSendLongCmd_abort_on_failed_chunk 32 (by decide) (by decide) ⟨[0x7E, 1, 0, 0x7D], [], fun k => decide (k = 12)⟩ ⟨[], [BusOp.start, BusOp.write [0x7E, 1, 3, 0x7D], BusOp.stop, BusOp.start,
        BusOp.read 1, BusOp.read 1, BusOp.read 2, BusOp.stop], fun k => decide (k = 12)⟩ [3] 1
    (List.replicate 33 5) 33 none [0, 0x7D] 1 (by simp) hsend hrecv hok hk hfail
  exact ⟨by decide, by simp, hsend, hrecv, hok, hk, hfail, hthm.1, hthm.2.1⟩

/-! ## Claims on the long reply of the serial transport -/

theorem memcpy_length (dst src : List Nat) (off n : Nat) (h1 : off + n ≤ dst.length)
    (h2 : n ≤ src.length) : (memcpy dst off src n).length = dst.length := by
  simp only [memcpy, List.length_append, List.length_take, List.length_drop]
  omega

theorem memcpy_take (dst src : List Nat) (off n : Nat) (h1 : off ≤ dst.length)
    (h2 : n ≤ src.length) :
    (memcpy dst off src n).take (off + n) = dst.take off ++ src.take n := by
  have hl : (dst.take off ++ src.take n).length = off + n := by
    simp only [List.length_append, List.length_take]; omega
  rw [memcpy, List.take_append_of_le_length (by omega), List.take_of_length_le (by omega)]

theorem memcpy_drop (dst src : List Nat) (off n m : Nat) (h1 : off ≤ dst.length)
    (h2 : n ≤ src.length) (h3 : off + n ≤ m) :
    (memcpy dst off src n).drop m = dst.drop m := by
  have hl : (dst.take off ++ src.take n).length = off + n := by
    simp only [List.length_append, List.length_take]; omega
  rw [memcpy, List.drop_append_eq_append_drop, hl, List.drop_of_length_le (by omega),
    List.nil_append, List.drop_drop]
  congr 1
  omega

/-- The receive loop when the frame asked for comes in. -/
theorem rep_loop_ok (CMD_MAXLEN : Nat) (hpos : 0 < CMD_MAXLEN) (h255 : CMD_MAXLEN ≤ 255)
    (spi : Mpsse) (data : List Nat) (recvLen recv : Int) (tmp : List Nat)
    (hlt : recv < recvLen)
    (hs : (SCFrameRecv spi ((min (recvLen - recv) (CMD_MAXLEN : Int)).toNat % 256)).2.1
      = some tmp)
    (he : (min (recvLen - recv) (CMD_MAXLEN : Int)).toNat % 256
      = (SCFrameRecv spi ((min (recvLen - recv) (CMD_MAXLEN : Int)).toNat % 256)).2.2) :
    Cmd.CmdSendLongRep.loop CMD_MAXLEN hpos h255 spi data recvLen recv
      = Cmd.CmdSendLongRep.loop CMD_MAXLEN hpos h255
          (SCFrameRecv spi ((min (recvLen - recv) (CMD_MAXLEN : Int)).toNat % 256)).1
          (memcpy data recv.toNat tmp
            (SCFrameRecv spi ((min (recvLen - recv) (CMD_MAXLEN : Int)).toNat % 256)).2.2)
          recvLen
          (recv + ((SCFrameRecv spi
            ((min (recvLen - recv) (CMD_MAXLEN : Int)).toNat % 256)).2.2 : Int)) := by
  have he' : ¬ (min (recvLen - recv) (CMD_MAXLEN : Int)).toNat % 256
      ≠ (SCFrameRecv spi ((min (recvLen - recv) (CMD_MAXLEN : Int)).toNat % 256)).2.2 := by
    intro h; exact h he
  conv_lhs => rw [Cmd.CmdSendLongRep.loop]
  simp only [hlt, dite_true]
  split
  · next heq => rw [hs] at heq; exact absurd heq (by simp)
  · next tmp' heq =>
    rw [hs] at heq
    simp only [Option.some.injEq] at heq
    subst heq
    simp only [he', dite_false]

/-- The receive loop when nothing is left to receive. -/
theorem rep_loop_done (CMD_MAXLEN : Nat) (hpos : 0 < CMD_MAXLEN) (h255 : CMD_MAXLEN ≤ 255)
    (spi : Mpsse) (data : List Nat) (recvLen recv : Int) (hge : ¬ recv < recvLen) :
    Cmd.CmdSendLongRep.loop CMD_MAXLEN hpos h255 spi data recvLen recv
      = (spi, data, recv, recv) := by
  rw [Cmd.CmdSendLongRep.loop]
  simp only [hge, dite_false]

/-- On a bus that never fails, fed with frames of the sizes asked for, the
receive loop copies the payloads one behind the other and returns
`recvLen`. -/
theorem rep_loop_noFail (CMD_MAXLEN : Nat) (hpos : 0 < CMD_MAXLEN) (h255 : CMD_MAXLEN ≤ 255)
    (recvLen : Int) (rest : List Nat) : ∀ (fs : List (List Nat)) (spi : Mpsse)
    (data : List Nat) (recv : Int), NoFail spi → 0 ≤ recv → recv ≤ recvLen →
    recvLen ≤ (data.length : Int) →
    Cmd.framesMatch CMD_MAXLEN (recvLen - recv) fs = true →
    spi.rx = fs.flatMap frameBytes ++ rest →
    Cmd.CmdSendLongRep.loop CMD_MAXLEN hpos h255 spi data recvLen recv
      = (⟨rest, spi.log ++ fs.flatMap recvOps, spi.fail⟩,
          data.take recv.toNat ++ fs.flatten ++ data.drop recvLen.toNat, recvLen, recvLen) := by
  intro fs
  induction fs with
  | nil =>
    intro spi data recv _ h0 hle hdata hm hrx
    simp only [Cmd.framesMatch, decide_eq_true_eq] at hm
    have heq : recv = recvLen := by omega
    subst heq
    rw [rep_loop_done _ _ _ _ _ _ _ (by omega)]
    obtain ⟨rx, log, fail⟩ := spi
    have hrx' : rx = rest := by
      rw [show rx = ([] : List (List Nat)).flatMap frameBytes ++ rest from hrx]
      simp
    subst hrx'
    simp
  | cons c fs ih =>
    intro spi data recv hnf h0 hle hdata hm hrx
    simp only [Cmd.framesMatch, Bool.and_eq_true, decide_eq_true_eq] at hm
    obtain ⟨⟨hpos', hc⟩, hm'⟩ := hm
    obtain ⟨s, hsn⟩ : ∃ s : Nat, recv = (s : Int) := ⟨recv.toNat, by omega⟩
    subst hsn
    have hlt : (s : Int) < recvLen := by omega
    have hexp : (min (recvLen - (s : Int)) (CMD_MAXLEN : Int)).toNat % 256 = c.length := by
      omega
    obtain ⟨rx, log, fail⟩ := spi
    have hrx' : rx = [] ++ SC_SOF :: c.length
        :: (c ++ SC_EOF :: (fs.flatMap frameBytes ++ rest)) := by
      rw [show rx = (c :: fs).flatMap frameBytes ++ rest from hrx]
      simp [frameBytes, List.flatMap_cons]
    subst hrx'
    have hrecv := recv_noFail_frame [] c (fs.flatMap frameBytes ++ rest) c.length log fail hnf
      (by simp) (by omega) (le_refl _)
    simp only [List.length_nil, Nat.zero_add, List.replicate_one] at hrecv
    have hnf2 := hnf.extend (fs.flatMap frameBytes ++ rest) (recvOps c)
    rw [rep_loop_ok CMD_MAXLEN hpos h255 _ data recvLen (s : Int) (c ++ [SC_EOF]) hlt
      (by rw [hexp, hrecv]) (by rw [hexp, hrecv])]
    simp only [hexp, hrecv, Int.toNat_ofNat]
    have hlog : log ++ [BusOp.start] ++ [BusOp.read 1]
        ++ [BusOp.read 1, BusOp.read (c.length + 1), BusOp.stop] = log ++ recvOps c := by
      simp [recvOps, List.append_assoc]
    rw [hlog]
    have hsl : s + c.length ≤ data.length := by omega
    rw [ih ⟨fs.flatMap frameBytes ++ rest, log ++ recvOps c, fail⟩
      (memcpy data s (c ++ [SC_EOF]) c.length) ((s : Int) + (c.length : Int)) hnf2 (by omega)
      (by omega) (by rw [memcpy_length _ _ _ _ hsl (by simp)]; exact hdata)
      (by
        have e : recvLen - ((s : Int) + (c.length : Int)) = recvLen - (s : Int) - (c.length : Int) := by
          omega
        rw [e]; exact hm') rfl]
    have e1 : ((s : Int) + (c.length : Int)).toNat = s + c.length := by omega
    have hrl : s + c.length ≤ recvLen.toNat := by omega
    rw [e1, memcpy_take _ _ _ _ (by omega) (by simp),
      memcpy_drop _ _ _ _ _ (by omega) (by simp) hrl]
    simp [List.flatMap_cons, List.append_assoc]

theorem framesMatch_flatten (CMD_MAXLEN : Nat) : ∀ (fs : List (List Nat)) (remaining : Int),
    0 ≤ remaining → Cmd.framesMatch CMD_MAXLEN remaining fs = true →
    (fs.flatten.length : Int) = remaining := by
  intro fs
  induction fs with
  | nil =>
    intro remaining h0 hm
    simp only [Cmd.framesMatch, decide_eq_true_eq] at hm
    simp only [List.flatten_nil, List.length_nil, Nat.cast_zero]
    omega
  | cons c fs ih =>
    intro remaining h0 hm
    simp only [Cmd.framesMatch, Bool.and_eq_true, decide_eq_true_eq] at hm
    obtain ⟨⟨_, hc⟩, hm'⟩ := hm
    have := ih (remaining - (c.length : Int)) (by omega) hm'
    simp only [List.flatten_cons, List.length_append, Nat.cast_add]
    omega

/-- With chunks of 32, a transfer of 100 bytes is made of frames of 32, 32, 32
and 4 bytes. -/
theorem framesMatch_100 (fs : List (List Nat)) (h : Cmd.framesMatch 32 100 fs = true) :
    fs.map List.length = [32, 32, 32, 4] := by
  cases fs with
  | nil => simp [Cmd.framesMatch] at h
  | cons c1 t1 =>
    simp only [Cmd.framesMatch, Bool.and_eq_true, decide_eq_true_eq] at h
    obtain ⟨⟨_, h1⟩, h⟩ := h
    have e1 : c1.length = 32 := by omega
    rw [e1] at h
    cases t1 with
    | nil => simp [Cmd.framesMatch] at h
    | cons c2 t2 =>
      simp only [Cmd.framesMatch, Bool.and_eq_true, decide_eq_true_eq] at h
      obtain ⟨⟨_, h2⟩, h⟩ := h
      have e2 : c2.length = 32 := by omega
      rw [e2] at h
      cases t2 with
      | nil => simp [Cmd.framesMatch] at h
      | cons c3 t3 =>
        simp only [Cmd.framesMatch, Bool.and_eq_true, decide_eq_true_eq] at h
        obtain ⟨⟨_, h3⟩, h⟩ := h
        have e3 : c3.length = 32 := by omega
        rw [e3] at h
        cases t3 with
        | nil => simp [Cmd.framesMatch] at h
        | cons c4 t4 =>
          simp only [Cmd.framesMatch, Bool.and_eq_true, decide_eq_true_eq] at h
          obtain ⟨⟨_, h4⟩, h⟩ := h
          have e4 : c4.length = 4 := by omega
          rw [e4] at h
          cases t4 with
          | nil => simp [e1, e2, e3, e4]
          | cons c5 t5 =>
            simp only [Cmd.framesMatch, Bool.and_eq_true, decide_eq_true_eq] at h
            omega

/-- C14: for every `recvLen ≥ 0`, on a bus that never fails, when the device
answers with a well-formed header reply followed by frames that each carry
exactly the chunk size asked for, `min(remaining, CMD_MAXLEN)`, the serial
`CmdSendLongRep` returns `recvLen`, has read exactly those frames, and the
first `recvLen` bytes of the buffer are the frame payloads concatenated in
order; with `CMD_MAXLEN = 32` a 100-byte read takes exactly 4 payload frames
of 32, 32, 32 and 4 bytes. -/
theorem CmdSendLongRep_serial_read (CMD_MAXLEN : Nat) (hpos : 0 < CMD_MAXLEN)
    (h255 : CMD_MAXLEN ≤ 255) (spi : Mpsse) (cmd : List Nat) (cmdLen : Nat)
    (rep : Option (List Nat)) (data : List Nat) (recvLen : Int)
    (reply rest : List Nat) (fs : List (List Nat)) (hnf : NoFail spi)
    (h1 : 1 ≤ cmdLen) (h32 : cmdLen ≤ 32) (hlen : cmdLen ≤ cmd.length)
    (h0 : 0 ≤ recvLen) (hdata : recvLen ≤ (data.length : Int))
    (hrl : reply.length ≤ CMD_MAXLEN)
    (hfs : Cmd.framesMatch CMD_MAXLEN recvLen fs = true)
    (hrx : spi.rx = frameBytes reply ++ (fs.flatMap frameBytes ++ rest)) :
    Cmd.CmdSendLongRep CMD_MAXLEN hpos h255 spi cmd cmdLen rep data recvLen
      = (⟨rest, spi.log
            ++ [BusOp.start, BusOp.write (SC_SOF :: cmdLen :: (cmd.take cmdLen ++ [SC_EOF])),
                BusOp.stop]
            ++ recvOps reply ++ fs.flatMap recvOps, spi.fail⟩,
          some (reply ++ [SC_EOF]), fs.flatten ++ data.drop recvLen.toNat, recvLen) ∧
    (fs.flatten.length : Int) = recvLen ∧
    (fs.flatten ++ data.drop recvLen.toNat).take recvLen.toNat = fs.flatten ∧
    (CMD_MAXLEN = 32 → recvLen = 100 → fs.map List.length = [32, 32, 32, 4]) := by
  obtain ⟨hsend, hrecv, hnf2⟩ :=
    header_noFail CMD_MAXLEN h255 spi cmd cmdLen reply (fs.flatMap frameBytes ++ rest) hnf h1
      h32 hlen hrx hrl
  have hloop := rep_loop_noFail CMD_MAXLEN hpos h255 recvLen rest fs _ data 0 hnf2 (le_refl _)
    h0 hdata (by simpa using hfs) rfl
  have hflat := framesMatch_flatten CMD_MAXLEN fs recvLen h0 hfs
  refine ⟨?_, hflat, ?_, ?_⟩
  · unfold Cmd.CmdSendLongRep
    simp only [hsend, hrecv, hloop, ne_eq, not_true_eq_false, if_false]
    simp
  · rw [List.take_append_of_le_length (by omega), List.take_of_length_le (by omega)]
  · intro hC hL
    subst hC
    subst hL
    exact framesMatch_100 fs hfs

/-- C14, witness: a 100-byte read answered by frames of 32, 32, 32 and 4
bytes. -/
theorem CmdSendLongRep_serial_read_witness :
    NoFail ⟨frameBytes [0] ++ ([List.replicate 32 1, List.replicate 32 2, List.replicate 32 3, List.replicate 4 4].flatMap frameBytes ++ []), [], fun _ => false⟩ ∧
    1 ≤ 1 ∧ 1 ≤ 32 ∧ 1 ≤ [4].length ∧ (0 : Int) ≤ 100 ∧
    (100 : Int) ≤ ((List.replicate 100 0).length : Int) ∧ [0].length ≤ 32 ∧
    Cmd.framesMatch 32 100 [List.replicate 32 1, List.replicate 32 2, List.replicate 32 3, List.replicate 4 4] = true ∧
    Cmd.CmdSendLongRep 32 (by decide) (by decide) ⟨frameBytes [0] ++ ([List.replicate 32 1, List.replicate 32 2, List.replicate 32 3, List.replicate 4 4].flatMap frameBytes ++ []), [], fun _ => false⟩ [4] 1 none (List.replicate 100 0) 100
      = (⟨[], [] ++ [BusOp.start, BusOp.write (SC_SOF :: 1 :: ([4].take 1 ++ [SC_EOF])),
                BusOp.stop]
            ++ recvOps [0] ++ [List.replicate 32 1, List.replicate 32 2, List.replicate 32 3, List.replicate 4 4].flatMap recvOps, fun _ => false⟩,
          some ([0] ++ [SC_EOF]),
          [List.replicate 32 1, List.replicate 32 2, List.replicate 32 3, List.replicate 4 4].flatten ++ (List.replicate 100 0).drop (100 : Int).toNat, 100) ∧
    [List.replicate 32 1, List.replicate 32 2, List.replicate 32 3, List.replicate 4 4].map List.length = [32, 32, 32, 4] := by
  have hfs : Cmd.framesMatch 32 100 [List.replicate 32 1, List.replicate 32 2, List.replicate 32 3, List.replicate 4 4] = true := by
    simp [Cmd.framesMatch]
  have hthm := CmdSendLongRep_serial_read 32 (by decide) (by decide) ⟨frameBytes [0] ++ ([List.replicate 32 1, List.replicate 32 2, List.replicate 32 3, List.replicate 4 4].flatMap frameBytes ++ []), [], fun _ => false⟩ [4] 1 none
    (List.replicate 100 0) 100 [0] [] [List.replicate 32 1, List.replicate 32 2, List.replicate 32 3, List.replicate 4 4] (fun _ _ => rfl) (by decide) (by decide) (by decide)
    (by decide) (by simp) (by decide) hfs rfl
  exact ⟨fun _ _ => rfl, by decide, by decide, by decide, by decide, by simp, by decide, hfs,
    hthm.1, hthm.2.2.2 rfl rfl⟩

/-- The bulk receive loop returns `recvLen` whatever libusb reports for its
transfers. -/
theorem usb_rep_loop_ret (recvLen : Int) (tout : Nat) : ∀ (n : Nat) (hCmd : Usb)
    (data : List Nat) (recvd : Int), (recvLen - recvd).toNat = n → recvd ≤ recvLen →
    (CmdUsb.CmdSendLongRep.loop hCmd data recvLen recvd tout).2.2 = recvLen := by
  intro n
  induction n using Nat.strong_induction_on with
  | _ n ih =>
    intro hCmd data recvd hn hle
    rw [CmdUsb.CmdSendLongRep.loop]
    by_cases hlt : recvd < recvLen
    · simp only [hlt, if_true]
      have hstep : min CMD_MAX_USB_TRANSFER_LEN (recvLen - recvd) ≤ recvLen - recvd :=
        min_le_right _ _
      have hpos : 0 < min CMD_MAX_USB_TRANSFER_LEN (recvLen - recvd) := by
        simp only [CMD_MAX_USB_TRANSFER_LEN]; omega
      exact ih _ (by omega) _ _ _ rfl (by omega)
    · simp only [hlt, if_false]
      omega

/-- C16, the code at the failing input: the header exchange returns 0, the
only payload transfer times out (libusb code -7) without data, and the bulk
`CmdSendLongRep` returns `recvLen = 10`, not an error. -/
theorem CmdSendLongRep_bulk_ignores_failed_chunk :
    ((⟨[], fun k => if k = 0 then ⟨0, 64, []⟩ else if k = 1 then ⟨0, 0, []⟩ else ⟨-7, 0, []⟩⟩ : Usb).reply 2).ret ≠ LIBUSB_SUCCESS ∧
    (CmdUsb.CmdSendLongRep ⟨[], fun k => if k = 0 then ⟨0, 64, []⟩ else if k = 1 then ⟨0, 0, []⟩ else ⟨-7, 0, []⟩⟩ (List.replicate 64 0) 6 (List.replicate 64 0)
      (some (List.replicate 10 0xEE)) 10 0).2.2.2 = 10 := by
  refine ⟨by decide, ?_⟩
  have hc : (CmdUsb.CmdSend ⟨[], fun k => if k = 0 then ⟨0, 64, []⟩ else if k = 1 then ⟨0, 0, []⟩ else ⟨-7, 0, []⟩⟩ (List.replicate 64 0) 6 (List.replicate 64 0) 0).2.2
      = CMD_OK := by decide
  have hn : ¬ (CmdUsb.CmdSend ⟨[], fun k => if k = 0 then ⟨0, 64, []⟩ else if k = 1 then ⟨0, 0, []⟩ else ⟨-7, 0, []⟩⟩ (List.replicate 64 0) 6 (List.replicate 64 0) 0).2.2
      ≠ CMD_OK := by rw [hc]; simp
  unfold CmdUsb.CmdSendLongRep
  simp only [if_neg hn]
  simp only [ne_eq, show ¬ ((10 : Int) = 0) by decide, not_false_eq_true, if_true]
  exact usb_rep_loop_ret 10 0 _ _ _ 0 rfl (by decide)

/-- C17, the code at the failing input: both header transfers complete with 64
bytes and the payload transfer would move all 4 bytes, and the bulk
`CmdSendLongCmd` and `CmdSendLongRep` both return `CMD_ERROR`, the first
without handing the payload to libusb. -/
theorem CmdSendLong_bulk_fails_on_full_reply :
    (CmdUsb.CmdSend ⟨[], fun k => if k = 0 then ⟨0, 64, []⟩ else if k = 1 then ⟨0, 0, List.replicate 64 0⟩ else ⟨0, 4, [1, 2, 3, 4]⟩⟩ (List.replicate 64 0) 6 (List.replicate 64 0) 0).2.2 = 64 ∧
    (CmdUsb.CmdSendLongCmd ⟨[], fun k => if k = 0 then ⟨0, 64, []⟩ else if k = 1 then ⟨0, 0, List.replicate 64 0⟩ else ⟨0, 4, [1, 2, 3, 4]⟩⟩ (List.replicate 64 0) 6 [1, 2, 3, 4] 4 (List.replicate 64 0)
      0).2.2 = CMD_ERROR ∧
    (CmdUsb.CmdSendLongCmd ⟨[], fun k => if k = 0 then ⟨0, 64, []⟩ else if k = 1 then ⟨0, 0, List.replicate 64 0⟩ else ⟨0, 4, [1, 2, 3, 4]⟩⟩ (List.replicate 64 0) 6 [1, 2, 3, 4] 4 (List.replicate 64 0)
      0).1.log.length = 2 ∧
    (CmdUsb.CmdSendLongRep ⟨[], fun k => if k = 0 then ⟨0, 64, []⟩ else if k = 1 then ⟨0, 0, List.replicate 64 0⟩ else ⟨0, 4, [1, 2, 3, 4]⟩⟩ (List.replicate 64 0) 6 (List.replicate 64 0)
      (some [0, 0, 0, 0]) 4 0).2.2.2 = CMD_ERROR := by
  refine ⟨by decide, by decide, by decide, by decide⟩

/-! ## Claims on the erase command -/

theorem written_append (a b : List BusOp) : written (a ++ b) = written a ++ written b := by
  induction a with
  | nil => rfl
  | cons x a ih =>
    cases x <;> simp [written, ih]

theorem start_written (m : Mpsse) : written (Start m).1.log = written m.log := by
  simp [Start, Mpsse.record, written_append, written]

theorem stop_written (m : Mpsse) : written (Stop m).1.log = written m.log := by
  simp [Stop, Mpsse.record, written_append, written]

theorem read_written (m : Mpsse) (size : Nat) :
    written (Read m size).1.log = written m.log := by
  unfold Read
  split <;> simp [Mpsse.record, written_append, written]

/-- The seek loop writes nothing, whatever calls fail. -/
theorem seek_written : ∀ (n : Nat) (m : Mpsse), m.rx.length = n →
    written (SCFrameRecv.seek m).1.log = written m.log := by
  intro n
  induction n using Nat.strong_induction_on with
  | _ n ih =>
    intro m hn
    cases hr : (Read m 1).2 with
    | none =>
      rw [seek_read_none _ hr]
      exact read_written m 1
    | some d =>
      obtain ⟨hlen, _, hm⟩ := read_some _ _ _ hr
      rw [seek_read_some _ d hr]
      split
      · have hlt : (Read m 1).1.rx.length < n := by
          rw [hm, ← hn]
          simp only [List.length_drop]
          omega
        rw [ih _ hlt (Read m 1).1 rfl]
        exact read_written m 1
      · exact read_written m 1

/-- `SCFrameRecv` writes nothing, whatever calls fail. -/
theorem recv_written (m : Mpsse) (maxlen : Nat) :
    written (SCFrameRecv m maxlen).1.log = written m.log := by
  have hseek : written (SCFrameRecv.seek (Start m).1).1.log = written m.log := by
    rw [seek_written _ _ rfl, start_written]
  unfold SCFrameRecv
  simp only
  split
  · rw [stop_written, start_written]
  split
  · rw [stop_written, hseek]
  split
  · next m3 heq =>
    have h3 : m3 = (Read (SCFrameRecv.seek (Start m).1).1 1).1 := by rw [heq]
    rw [stop_written, h3, read_written, hseek]
  next m3 d heq =>
  have h3 : m3 = (Read (SCFrameRecv.seek (Start m).1).1 1).1 := by rw [heq]
  have hw3 : written m3.log = written m.log := by rw [h3, read_written, hseek]
  split
  · rw [stop_written, hw3]
  split
  · next m4 heq2 =>
    have h4 : m4 = (Read m3 (d.headD 0 % 256 + 1)).1 := by rw [heq2]
    rw [stop_written, h4, read_written, hw3]
  next m4 data heq2 =>
  have h4 : m4 = (Read m3 (d.headD 0 % 256 + 1)).1 := by rw [heq2]
  have hw4 : written m4.log = written m.log := by rw [h4, read_written, hw3]
  split
  · rw [stop_written, stop_written, hw4]
  split
  · rw [stop_written, hw4]
  · rw [stop_written, hw4]

theorem set4_take (cmd : List Nat) (x y z w : Nat) (h : 4 ≤ cmd.length) :
    ((((cmd.set 0 x).set 1 y).set 2 z).set 3 w).take 4 = [x, y, z, w] := by
  match cmd, h with
  | _ :: _ :: _ :: _ :: _, _ => simp

/-- C18: for chip 0 (CHR) or 1 (PRG) and every sector address `a < 2^24`,
whatever calls fail, the only bytes `ProgFlashErase` writes to the bus are the
frame of the 4-byte command `[6 + chip, (a >> 16) & 0xFF, (a >> 8) & 0xFF,
a & 0xFF]`, written as soon as `Start` succeeds; for erase-PRG of the whole
chip (`0xFFFFFF`) the command is `[0x07, 0xFF, 0xFF, 0xFF]`. -/
theorem ProgFlashErase_command (CMD_MAXLEN : Nat) (spi : Mpsse) (cmd : List Nat)
    (rep : Option (List Nat)) (chip a : Nat) (hchip : chip ≤ PROG_CHIP_MAX)
    (ha : a < 16777216) (hcmd : 4 ≤ cmd.length) :
    written (ProgFlashErase CMD_MAXLEN spi cmd rep chip a).1.log
      = written spi.log ++
          (if spi.fail spi.log.length = true then []
           else SC_SOF :: 4 :: ([6 + chip, (a >>> 16) % 256, (a >>> 8) % 256, a % 256]
            ++ [SC_EOF])) ∧
    ((a >>> 16) % 256) * 65536 + ((a >>> 8) % 256) * 256 + a % 256 = a ∧
    (chip = PROG_CHIP_PRG → a = PROG_ERASE_FULL →
      [6 + chip, (a >>> 16) % 256, (a >>> 8) % 256, a % 256] = [0x07, 0xFF, 0xFF, 0xFF]) := by
  have hchip' : chip ≤ 1 := hchip
  have hop : (CMD_CHR_ERASE + chip) % 256 = 6 + chip := by
    simp only [CMD_CHR_ERASE]; omega
  have htake : (CMD_SET_ADDR (cmd.set 0 ((CMD_CHR_ERASE + chip) % 256)) 1 a).take 4
      = [6 + chip, (a >>> 16) % 256, (a >>> 8) % 256, a % 256] := by
    rw [hop]
    exact set4_take cmd _ _ _ _ hcmd
  have hlen4 : 4 ≤ (CMD_SET_ADDR (cmd.set 0 ((CMD_CHR_ERASE + chip) % 256)) 1 a).length := by
    simp only [CMD_SET_ADDR, List.length_set]
    exact hcmd
  have hcases := send_small_cases spi
    (CMD_SET_ADDR (cmd.set 0 ((CMD_CHR_ERASE + chip) % 256)) 1 a) 4 (by decide) (by decide)
    hlen4
  rw [htake] at hcases
  refine ⟨?_, ?_, ?_⟩
  rotate_left
  · simp only [Nat.shiftRight_eq_div_pow]
    omega
  · intro hc haf
    subst hc
    subst haf
    decide
  · have hfst : (ProgFlashErase CMD_MAXLEN spi cmd rep chip a).1
        = (Cmd.CmdSend CMD_MAXLEN spi
            (CMD_SET_ADDR (cmd.set 0 ((CMD_CHR_ERASE + chip) % 256)) 1 a) 4 rep).1 := by
      unfold ProgFlashErase
      simp only
      split <;> rfl
    rw [hfst]
    unfold Cmd.CmdSend
    simp only [show 4 % 256 = 4 from rfl, hcases]
    by_cases f0 : spi.fail spi.log.length = true
    · simp [f0, SC_ERROR, SC_OK, MPSSE_FAIL, MPSSE_OK, written_append, written]
    · by_cases f1 : spi.fail (spi.log.length + 1) = true
      · simp [f0, f1, SC_ERROR, SC_OK, MPSSE_FAIL, MPSSE_OK, written_append, written]
      · by_cases f2 : spi.fail (spi.log.length + 2) = true
        · simp [f0, f1, f2, SC_ERROR, SC_OK, MPSSE_FAIL, MPSSE_OK, written_append, written]
        · have hs : SCFrameSend spi
              (CMD_SET_ADDR (cmd.set 0 ((CMD_CHR_ERASE + chip) % 256)) 1 a) 4
              = (⟨spi.rx, spi.log ++ [BusOp.start,
                BusOp.write (SC_SOF :: 4 ::
                  ([6 + chip, (a >>> 16) % 256, (a >>> 8) % 256, a % 256] ++ [SC_EOF])),
                BusOp.stop], spi.fail⟩, SC_OK) := by
            rw [hcases, if_neg f0, if_neg f1, if_neg f2]
          rw [← hcases, hs]
          simp only [ne_eq, not_true_eq_false, if_false]
          have hw : ∀ x : Mpsse × Option (List Nat) × Int,
              x.1 = (SCFrameRecv ⟨spi.rx, spi.log ++ [BusOp.start,
                BusOp.write (SC_SOF :: 4 ::
                  ([6 + chip, (a >>> 16) % 256, (a >>> 8) % 256, a % 256] ++ [SC_EOF])),
                BusOp.stop], spi.fail⟩ (CMD_MAXLEN % 256)).1 →
              written x.1.log = written spi.log ++ SC_SOF :: 4 ::
                ([6 + chip, (a >>> 16) % 256, (a >>> 8) % 256, a % 256] ++ [SC_EOF]) := by
            intro x hx
            rw [hx, recv_written]
            simp [written_append, written]
          rw [if_neg f0]
          apply hw
          split <;> rfl

theorem ProgFlashErase_command_witness :
    written (ProgFlashErase 32 ⟨[], [], fun _ => false⟩ [0, 0, 0, 0, 0, 0] none
        PROG_CHIP_PRG PROG_ERASE_FULL).1.log
      = [SC_SOF, 4, 0x07, 0xFF, 0xFF, 0xFF, SC_EOF] := by
  have h := (ProgFlashErase_command 32 ⟨[], [], fun _ => false⟩ [0, 0, 0, 0, 0, 0] none
    PROG_CHIP_PRG PROG_ERASE_FULL (by decide) (by decide) (by decide)).1
  rw [h]
  decide

/-- C19: `ProgFlashErase` returns 0 (success) on a reply whose status byte is
not `CMD_OK`: the device answers the PRG full erase with the one-byte reply
`[0xFF]`, and the function still returns 0. -/
theorem ProgFlashErase_ignores_status :
    (ProgFlashErase 32 ⟨[0x7E, 1, 0xFF, 0x7D], [], fun _ => false⟩ [0, 0, 0, 0, 0, 0] none
        PROG_CHIP_PRG PROG_ERASE_FULL).2
      = (some [0xFF, 0x7D], 0) ∧
    ([0xFF, 0x7D] : List Nat).headD 0 ≠ CMD_REP_OK := by
  refine ⟨?_, by decide⟩
  have hcmd : CMD_SET_ADDR ([0, 0, 0, 0, 0, 0].set 0 ((CMD_CHR_ERASE + PROG_CHIP_PRG) % 256)) 1
      PROG_ERASE_FULL = [7, 255, 255, 255, 0, 0] := by decide
  unfold ProgFlashErase
  simp only [hcmd]
  simp [Cmd.CmdSend, SCFrameSend, SCFrameSend.loop, SCFrameRecv, SCFrameRecv.seek, Start,
    Stop, Write, Read, Mpsse.record, Mpsse.status, buildFrame, SC_MAX_DATALEN, MPSSE_OK,
    SC_OK, SC_SOF, SC_EOF]

/-! ## Claims on the flash block commands -/

theorem setHdr_take (cmd : List Nat) (addr len : Nat) (h : 6 ≤ cmd.length) :
    (CMD_SET_LEN (CMD_SET_ADDR cmd 1 addr) 4 len).take sizeofCmdRdWrHdr
      = rdWrCmd (cmd.headD 0) addr len := by
  match cmd, h with
  | _ :: _ :: _ :: _ :: _ :: _ :: _, _ =>
    simp [CMD_SET_LEN, CMD_SET_ADDR, rdWrCmd, sizeofCmdRdWrHdr]

theorem setHdr_head (cmd : List Nat) (addr len : Nat) (h : 6 ≤ cmd.length) :
    (CMD_SET_LEN (CMD_SET_ADDR cmd 1 addr) 4 len).headD 0 = cmd.headD 0 := by
  match cmd, h with
  | _ :: _ :: _ :: _ :: _ :: _ :: _, _ =>
    simp [CMD_SET_LEN, CMD_SET_ADDR]

theorem setHdr_length (cmd : List Nat) (addr len : Nat) :
    (CMD_SET_LEN (CMD_SET_ADDR cmd 1 addr) 4 len).length = cmd.length := by
  simp [CMD_SET_LEN, CMD_SET_ADDR]

/-- Block `k + 1` counted from cursor `i` is block `k` counted from the cursor
after one more block. -/
theorem block_arith (len i k addr : Nat)
    (h : k < (len - (i + min 32768 (len - i)) + 32767) / 32768) :
    addr + min 32768 (len - i) + 32768 * k = addr + 32768 * (k + 1) ∧
    min 32768 (len - (i + min 32768 (len - i)) - 32768 * k)
      = min 32768 (len - i - 32768 * (k + 1)) ∧
    i + min 32768 (len - i) + 32768 * k = i + 32768 * (k + 1) := by
  omega

/-- On a bus that never fails, with a device that answers each command with a
well-formed reply whose status byte is 0, the command loop of `AllocAndFlash`
runs to the end of the image: one write command per block of up to 32768
bytes. -/
theorem flash_loop_noFail (CMD_MAXLEN : Nat) (hpos : 0 < CMD_MAXLEN) (hC : CMD_MAXLEN ≤ 255)
    (writeBuf : List Nat) (len : Nat) (hbuf : len ≤ writeBuf.length) (rest : List Nat) :
    ∀ (replies : List (List Nat)) (spi : Mpsse) (cmd : List Nat) (rep : Option (List Nat))
      (i addr : Nat), NoFail spi → 6 ≤ cmd.length → i ≤ len →
      addr + (len - i) ≤ 16777216 →
      replies.length = (len - i + 32767) / 32768 →
      (∀ r ∈ replies, r.headD 1 = 0 ∧ r.length ≤ CMD_MAXLEN) →
      spi.rx = replies.flatMap frameBytes ++ rest →
      ∃ blocks : List Block,
        blocks.map Block.reply = replies ∧
        AllocAndFlash.loop CMD_MAXLEN hpos spi cmd rep writeBuf len i addr
          = (⟨rest, spi.log ++ blocks.flatMap Block.writeOps, spi.fail⟩, Ret.buf writeBuf) ∧
        (∀ (k : Nat) (b : Block), blocks[k]? = some b →
          b.cmd = rdWrCmd (cmd.headD 0) (addr + 32768 * k) (min 32768 (len - i - 32768 * k)) ∧
          b.frames.flatten
            = (writeBuf.drop (i + 32768 * k)).take (min 32768 (len - i - 32768 * k))) := by
  intro replies
  induction replies with
  | nil =>
    intro spi cmd rep i addr _ _ hi _ hn _ hrx
    simp only [List.length_nil] at hn
    have hge : ¬ i < len := by omega
    obtain ⟨rx, log, fail⟩ := spi
    have hrx' : rx = rest := by simpa using hrx
    subst hrx'
    refine ⟨[], rfl, ?_, ?_⟩
    · rw [AllocAndFlash.loop]
      simp [hge]
    · intro k b hb
      simp at hb
  | cons r rs ih =>
    intro spi cmd rep i addr hnf hcmd hi haddr hn hr hrx
    simp only [List.length_cons] at hn
    have hlt : i < len := by omega
    obtain ⟨hr0, hrl⟩ := hr r (List.mem_cons_self _ _)
    obtain ⟨t, ht⟩ : ∃ t, r = 0 :: t := by
      cases r with
      | nil => simp at hr0
      | cons x t => exact ⟨t, by simp at hr0; rw [hr0]⟩
    have hrx2 : spi.rx = SC_SOF :: r.length :: (r ++ SC_EOF :: (rs.flatMap frameBytes ++ rest)) := by
      rw [hrx]
      simp [frameBytes, List.flatMap_cons]
    obtain ⟨chunks, hj, _, hlong⟩ := long_cmd_noFail CMD_MAXLEN hpos hC spi
      (CMD_SET_LEN (CMD_SET_ADDR cmd 1 addr) 4 (min 32768 (len - i))) sizeofCmdRdWrHdr
      (writeBuf.drop i) ((min 32768 (len - i) : Nat) : Int) rep r
      (rs.flatMap frameBytes ++ rest) hnf (by decide) (by decide)
      (by rw [setHdr_length]; exact hcmd) hrx2 hrl
      (by simp only [List.length_drop]; omega)
    rw [setHdr_take _ _ _ hcmd] at hlong
    simp only [Int.toNat_ofNat] at hj
    obtain ⟨blocks, hmap, hloop, hblk⟩ := ih
      ⟨rs.flatMap frameBytes ++ rest, spi.log
        ++ [BusOp.start, BusOp.write (SC_SOF :: sizeofCmdRdWrHdr ::
              (rdWrCmd (cmd.headD 0) addr (min 32768 (len - i)) ++ [SC_EOF])), BusOp.stop]
        ++ [BusOp.start, BusOp.read 1, BusOp.read 1, BusOp.read (r.length + 1), BusOp.stop]
        ++ chunks.flatMap frameOps, spi.fail⟩
      (CMD_SET_LEN (CMD_SET_ADDR cmd 1 addr) 4 (min 32768 (len - i)))
      (some (r ++ [SC_EOF])) (i + min 32768 (len - i)) (addr + min 32768 (len - i))
      (by
        have := hnf.extend (rs.flatMap frameBytes ++ rest)
          ([BusOp.start, BusOp.write (SC_SOF :: sizeofCmdRdWrHdr ::
              (rdWrCmd (cmd.headD 0) addr (min 32768 (len - i)) ++ [SC_EOF])), BusOp.stop]
          ++ [BusOp.start, BusOp.read 1, BusOp.read 1, BusOp.read (r.length + 1), BusOp.stop]
          ++ chunks.flatMap frameOps)
        simpa only [← List.append_assoc] using this)
      (by rw [setHdr_length]; exact hcmd) (by omega) (by omega) (by omega)
      (fun x hx => hr x (List.mem_cons_of_mem _ hx)) rfl
    rw [setHdr_head _ _ _ hcmd] at hblk
    have hn2 : rs.length = (len - (i + min 32768 (len - i)) + 32767) / 32768 := by omega
    refine ⟨⟨rdWrCmd (cmd.headD 0) addr (min 32768 (len - i)), r, chunks⟩ :: blocks, ?_, ?_, ?_⟩
    · simp [hmap]
    · rw [AllocAndFlash.loop]
      simp only [hlt, if_true, hlong]
      have hmod : (addr + min 32768 (len - i)) % 4294967296 = addr + min 32768 (len - i) :=
        Nat.mod_eq_of_lt (by omega)
      have hst : ((some (r ++ [SC_EOF])).getD []).headD 0 = CMD_REP_OK := by
        rw [ht]; rfl
      simp only [hst, ne_eq, not_true_eq_false, or_self, if_false, hmod, hloop]
      simp [Block.writeOps, frameBytes, recvOps, rdWrCmd, sizeofCmdRdWrHdr,
        List.flatMap_cons, List.append_assoc]
      rfl
    · intro k b hb
      cases k with
      | zero =>
        simp only [List.getElem?_cons_zero, Option.some.injEq] at hb
        subst hb
        refine ⟨?_, ?_⟩
        · simp
        · simpa using hj
      | succ k =>
        simp only [List.getElem?_cons_succ] at hb
        have hk : k < blocks.length := by
          rcases List.getElem?_eq_some.mp hb with ⟨h, _⟩
          exact h
        have hbl : blocks.length = rs.length := by rw [← hmap, List.length_map]
        obtain ⟨h1, h2⟩ := hblk k b hb
        obtain ⟨e1, e2, e3⟩ := block_arith len i k addr (by rw [← hn2, ← hbl]; exact hk)
        rw [e1, e2] at h1
        rw [e3, e2] at h2
        exact ⟨h1, h2⟩

/-- On a bus that never fails the serial `CmdSendLongRep`, answered by a
well-formed reply and frames of the sizes asked for, returns `recvLen` with the
payloads at the front of the buffer. -/
theorem long_rep_noFail (CMD_MAXLEN : Nat) (hpos : 0 < CMD_MAXLEN)
    (h255 : CMD_MAXLEN ≤ 255) (spi : Mpsse) (cmd : List Nat) (cmdLen : Nat)
    (rep : Option (List Nat)) (data : List Nat) (recvLen : Int)
    (reply rest : List Nat) (fs : List (List Nat)) (hnf : NoFail spi)
    (h1 : 1 ≤ cmdLen) (h32 : cmdLen ≤ 32) (hlen : cmdLen ≤ cmd.length)
    (h0 : 0 ≤ recvLen) (hdata : recvLen ≤ (data.length : Int))
    (hrl : reply.length ≤ CMD_MAXLEN)
    (hfs : Cmd.framesMatch CMD_MAXLEN recvLen fs = true)
    (hrx : spi.rx = frameBytes reply ++ (fs.flatMap frameBytes ++ rest)) :
    Cmd.CmdSendLongRep CMD_MAXLEN hpos h255 spi cmd cmdLen rep data recvLen
      = (⟨rest, spi.log
            ++ [BusOp.start, BusOp.write (SC_SOF :: cmdLen :: (cmd.take cmdLen ++ [SC_EOF])),
                BusOp.stop]
            ++ recvOps reply ++ fs.flatMap recvOps, spi.fail⟩,
          some (reply ++ [SC_EOF]), fs.flatten ++ data.drop recvLen.toNat, recvLen) := by
  obtain ⟨hsend, hrecv, hnf2⟩ :=
    header_noFail CMD_MAXLEN h255 spi cmd cmdLen reply (fs.flatMap frameBytes ++ rest) hnf h1
      h32 hlen hrx hrl
  have hloop := rep_loop_noFail CMD_MAXLEN hpos h255 recvLen rest fs _ data 0 hnf2 (le_refl _)
    h0 hdata (by simpa using hfs) rfl
  unfold Cmd.CmdSendLongRep
  simp only [hsend, hrecv, hloop, ne_eq, not_true_eq_false, if_false]
  simp

/-- On a bus that never fails, with a device that answers each command with a
well-formed reply whose status byte is 0 and with the payload frames asked
for, the command loop of `AllocAndRead` runs to the end of the range: one read
command per block of up to 32768 bytes. -/
theorem read_loop_noFail (CMD_MAXLEN : Nat) (hpos : 0 < CMD_MAXLEN) (h255 : CMD_MAXLEN ≤ 255)
    (len : Nat) (rest : List Nat) :
    ∀ (answers : List (List Nat × List (List Nat))) (spi : Mpsse) (cmd : List Nat)
      (rep : Option (List Nat)) (readBuf : List Nat) (i addr : Nat), NoFail spi →
      6 ≤ cmd.length → i ≤ len → readBuf.length = len →
      addr + (len - i) ≤ 16777216 →
      answers.length = (len - i + 32767) / 32768 →
      (∀ (k : Nat) (a : List Nat × List (List Nat)), answers[k]? = some a →
        a.1.headD 1 = 0 ∧ a.1.length ≤ CMD_MAXLEN ∧
        Cmd.framesMatch CMD_MAXLEN ((min 32768 (len - i - 32768 * k) : Nat) : Int) a.2
          = true) →
      spi.rx = answers.flatMap answerBytes ++ rest →
      ∃ blocks : List Block,
        blocks.map (fun b => (b.reply, b.frames)) = answers ∧
        AllocAndRead.loop CMD_MAXLEN hpos h255 spi cmd rep readBuf len i addr
          = (⟨rest, spi.log ++ blocks.flatMap Block.readOps, spi.fail⟩,
              Ret.buf (readBuf.take i ++ answers.flatMap (fun a => a.2.flatten))) ∧
        (∀ (k : Nat) (b : Block), blocks[k]? = some b →
          b.cmd = rdWrCmd (cmd.headD 0) (addr + 32768 * k) (min 32768 (len - i - 32768 * k)) ∧
          b.frames.flatten.length = min 32768 (len - i - 32768 * k)) := by
  intro answers
  induction answers with
  | nil =>
    intro spi cmd rep readBuf i addr _ _ hi hbuf _ hn _ hrx
    simp only [List.length_nil] at hn
    have hge : ¬ i < len := by omega
    obtain ⟨rx, log, fail⟩ := spi
    have hrx' : rx = rest := by simpa using hrx
    subst hrx'
    refine ⟨[], rfl, ?_, ?_⟩
    · rw [AllocAndRead.loop]
      have hi2 : readBuf.length ≤ i := by omega
      simp [hge, List.take_of_length_le hi2]
    · intro k b hb
      simp at hb
  | cons a as ih =>
    intro spi cmd rep readBuf i addr hnf hcmd hi hbuf haddr hn hans hrx
    simp only [List.length_cons] at hn
    have hlt : i < len := by omega
    obtain ⟨hr0, hrl, hfm⟩ := hans 0 a (by simp)
    simp only [Nat.mul_zero, Nat.sub_zero] at hfm
    obtain ⟨t, ht⟩ : ∃ t, a.1 = 0 :: t := by
      cases h : a.1 with
      | nil => rw [h] at hr0; simp at hr0
      | cons x t => rw [h] at hr0; exact ⟨t, by simp at hr0; rw [hr0]⟩
    have hrx2 : spi.rx
        = frameBytes a.1 ++ (a.2.flatMap frameBytes ++ (as.flatMap answerBytes ++ rest)) := by
      rw [hrx]
      simp [answerBytes, List.flatMap_cons, List.append_assoc]
    have hlong := long_rep_noFail CMD_MAXLEN hpos h255 spi
      (CMD_SET_LEN (CMD_SET_ADDR cmd 1 addr) 4 (min 32768 (len - i))) sizeofCmdRdWrHdr rep
      (readBuf.drop i) ((min 32768 (len - i) : Nat) : Int) a.1
      (as.flatMap answerBytes ++ rest) a.2 hnf (by decide) (by decide)
      (by rw [setHdr_length]; exact hcmd) (by omega)
      (by simp only [List.length_drop]; omega) hrl hfm hrx2
    rw [setHdr_take _ _ _ hcmd] at hlong
    simp only [Int.toNat_ofNat] at hlong
    have hflat : a.2.flatten.length = min 32768 (len - i) := by
      have := framesMatch_flatten CMD_MAXLEN a.2 _ (by omega) hfm
      omega
    have hn2 : as.length = (len - (i + min 32768 (len - i)) + 32767) / 32768 := by omega
    have htake : (readBuf.take i ++ (a.2.flatten
        ++ (readBuf.drop i).drop (min 32768 (len - i)))).take (i + min 32768 (len - i))
        = readBuf.take i ++ a.2.flatten := by
      rw [← List.append_assoc]
      apply List.take_left'
      simp only [List.length_append, List.length_take, hflat]
      omega
    obtain ⟨blocks, hmap, hloop, hblk⟩ := ih
      ⟨as.flatMap answerBytes ++ rest, spi.log
        ++ [BusOp.start, BusOp.write (SC_SOF :: sizeofCmdRdWrHdr ::
              (rdWrCmd (cmd.headD 0) addr (min 32768 (len - i)) ++ [SC_EOF])), BusOp.stop]
        ++ recvOps a.1 ++ a.2.flatMap recvOps, spi.fail⟩
      (CMD_SET_LEN (CMD_SET_ADDR cmd 1 addr) 4 (min 32768 (len - i)))
      (some (a.1 ++ [SC_EOF]))
      (readBuf.take i ++ (a.2.flatten ++ (readBuf.drop i).drop (min 32768 (len - i))))
      (i + min 32768 (len - i)) (addr + min 32768 (len - i))
      (by
        have := hnf.extend (as.flatMap answerBytes ++ rest)
          ([BusOp.start, BusOp.write (SC_SOF :: sizeofCmdRdWrHdr ::
              (rdWrCmd (cmd.headD 0) addr (min 32768 (len - i)) ++ [SC_EOF])), BusOp.stop]
          ++ recvOps a.1 ++ a.2.flatMap recvOps)
        simpa only [← List.append_assoc] using this)
      (by rw [setHdr_length]; exact hcmd) (by omega)
      (by
        simp only [List.length_append, List.length_take, List.length_drop, hflat]
        omega)
      (by omega) hn2
      (by
        intro k x hx
        have hk : k < as.length := by
          rcases List.getElem?_eq_some.mp hx with ⟨h, _⟩
          exact h
        obtain ⟨_, e2, _⟩ := block_arith len i k addr (by rw [← hn2]; exact hk)
        rw [e2]
        exact hans (k + 1) x (by simpa using hx))
      rfl
    rw [setHdr_head _ _ _ hcmd] at hblk
    rw [htake] at hloop
    refine ⟨⟨rdWrCmd (cmd.headD 0) addr (min 32768 (len - i)), a.1, a.2⟩ :: blocks, ?_, ?_, ?_⟩
    · simp [hmap]
    · rw [AllocAndRead.loop]
      simp only [hlt, if_true, hlong]
      have hmod : (addr + min 32768 (len - i)) % 4294967296 = addr + min 32768 (len - i) :=
        Nat.mod_eq_of_lt (by omega)
      have hst : ((some (a.1 ++ [SC_EOF])).getD []).headD 0 = CMD_REP_OK := by
        rw [ht]; rfl
      simp only [hst, ne_eq, not_true_eq_false, or_self, if_false, hmod, hloop]
      simp [Block.readOps, frameBytes, rdWrCmd, sizeofCmdRdWrHdr,
        List.flatMap_cons, List.append_assoc]
    · intro k b hb
      cases k with
      | zero =>
        simp only [List.getElem?_cons_zero, Option.some.injEq] at hb
        subst hb
        refine ⟨?_, ?_⟩
        · simp
        · simpa using hflat
      | succ k =>
        simp only [List.getElem?_cons_succ] at hb
        have hk : k < blocks.length := by
          rcases List.getElem?_eq_some.mp hb with ⟨h, _⟩
          exact h
        have hbl : blocks.length = as.length := by rw [← hmap, List.length_map]
        obtain ⟨h1, h2⟩ := hblk k b hb
        obtain ⟨e1, e2, _⟩ := block_arith len i k addr (by rw [← hn2, ← hbl]; exact hk)
        rw [e1, e2] at h1
        rw [e2] at h2
        exact ⟨h1, h2⟩

theorem block_arith0 (L k : Nat) :
    min 32768 (L - min 32768 L - 32768 * k) = min 32768 (L - 32768 * (k + 1)) ∧
    (L - min 32768 L + 32767) / 32768 + 1 = (L + 32767) / 32768 ∨ L = 0 := by
  omega

/-- Blocks of `min(32768, L - 32768 k)` bytes, ceil(L/32768) of them, add up to
`L` bytes. -/
theorem block_sum (f : Block → Nat) : ∀ (blocks : List Block) (L : Nat),
    blocks.length = (L + 32767) / 32768 →
    (∀ (k : Nat) (b : Block), blocks[k]? = some b → f b = min 32768 (L - 32768 * k)) →
    (blocks.map f).sum = L := by
  intro blocks
  induction blocks with
  | nil =>
    intro L hn _
    simp only [List.length_nil] at hn
    simp only [List.map_nil, List.sum_nil]
    omega
  | cons b bs ih =>
    intro L hn hf
    simp only [List.length_cons] at hn
    have h0 := hf 0 b (by simp)
    simp only [Nat.mul_zero, Nat.sub_zero] at h0
    have hL : L ≠ 0 := by omega
    have hrec := ih (L - min 32768 L)
      (by
        rcases block_arith0 L 0 with ⟨_, h⟩ | h
        · omega
        · exact absurd h hL)
      (by
        intro k x hx
        rcases block_arith0 L k with ⟨h, _⟩ | h
        · rw [h]
          exact hf (k + 1) x (by simpa using hx)
        · exact absurd h hL)
    simp only [List.map_cons, List.sum_cons, hrec, h0]
    omega

theorem rdWrCmd_decode (op a l : Nat) (ha : a < 16777216) (hl : l < 65536) :
    (rdWrCmd op a l).length = 6 ∧
    (rdWrCmd op a l).getD 0 0 = op ∧
    (rdWrCmd op a l).getD 1 0 * 65536 + (rdWrCmd op a l).getD 2 0 * 256
      + (rdWrCmd op a l).getD 3 0 = a ∧
    (rdWrCmd op a l).getD 4 0 * 256 + (rdWrCmd op a l).getD 5 0 = l := by
  refine ⟨rfl, rfl, ?_, ?_⟩
  · simp only [rdWrCmd, Nat.shiftRight_eq_div_pow, List.getD_cons_zero, List.getD_cons_succ]
    omega
  · simp only [rdWrCmd, Nat.shiftRight_eq_div_pow, List.getD_cons_zero, List.getD_cons_succ]
    omega

theorem block_bounds (A L k : Nat) (hAL : A + L ≤ 16777216)
    (hk : k < (L + 32767) / 32768) :
    A + 32768 * k < 16777216 ∧ min 32768 (L - 32768 * k) < 65536 ∧
    32768 * k + min 32768 (L - 32768 * k) ≤ L := by
  omega

theorem set_head (cmd : List Nat) (x : Nat) (h : 6 ≤ cmd.length) :
    (cmd.set 0 x).headD 0 = x ∧ 6 ≤ (cmd.set 0 x).length := by
  match cmd, h with
  | _ :: _, h => exact ⟨rfl, by simpa using h⟩

/-- C20: for chip 0 (CHR) or 1 (PRG), every start address `A` and length `L`
with `A + L ≤ 2^24`, on a bus that never fails and with a device that answers
every command with a well-formed reply of status 0 (and, for a read, with the
payload frames asked for), `AllocAndFlash` and `AllocAndRead` each issue
exactly ceil(L/32768) commands and nothing else; command `k` is the 6 bytes
`[opcode, 3-byte big-endian A + 32768 k, 2-byte big-endian
min(32768, L - 32768 k)]` with opcode `2 + chip` for a write and `4 + chip` for
a read; the block lengths add up to `L`, and the payload of write command `k`
is the slice of the image that starts at offset `32768 k`. -/
theorem AllocAndFlash_AllocAndRead_blocks (CMD_MAXLEN : Nat) (hpos : 0 < CMD_MAXLEN)
    (h255 : CMD_MAXLEN ≤ 255) (cmd : List Nat) (chip A L : Nat) (hcmd : 6 ≤ cmd.length)
    (hchip : chip ≤ PROG_CHIP_MAX) (hAL : A + L ≤ 16777216) :
    (∀ (spi : Mpsse) (content : List Nat) (f_len : Nat) (replies : List (List Nat))
        (rest : List Nat), NoFail spi →
      (if f_len = 0 then content.length else f_len) = L → L ≤ content.length →
      replies.length = (L + 32767) / 32768 →
      (∀ r ∈ replies, r.headD 1 = 0 ∧ r.length ≤ CMD_MAXLEN) →
      spi.rx = replies.flatMap frameBytes ++ rest →
      ∃ blocks : List Block,
        blocks.length = (L + 32767) / 32768 ∧
        blocks.map Block.reply = replies ∧
        (AllocAndFlash CMD_MAXLEN hpos spi cmd chip (some content) A f_len).1
          = ⟨rest, spi.log ++ blocks.flatMap Block.writeOps, spi.fail⟩ ∧
        (0 < L → (AllocAndFlash CMD_MAXLEN hpos spi cmd chip (some content) A f_len).2
          = Ret.buf (content.take L)) ∧
        (∀ (k : Nat) (b : Block), blocks[k]? = some b →
          b.cmd = rdWrCmd (2 + chip) (A + 32768 * k) (min 32768 (L - 32768 * k)) ∧
          b.cmd.length = 6 ∧
          b.cmd.getD 1 0 * 65536 + b.cmd.getD 2 0 * 256 + b.cmd.getD 3 0 = A + 32768 * k ∧
          b.cmd.getD 4 0 * 256 + b.cmd.getD 5 0 = min 32768 (L - 32768 * k) ∧
          b.frames.flatten
            = ((content.take L).drop (32768 * k)).take (min 32768 (L - 32768 * k)) ∧
          b.frames.flatten.length = min 32768 (L - 32768 * k)) ∧
        (blocks.map (fun b => b.frames.flatten.length)).sum = L) ∧
    (∀ (spi : Mpsse) (readBuf : List Nat) (answers : List (List Nat × List (List Nat)))
        (rest : List Nat), NoFail spi → readBuf.length = L →
      answers.length = (L + 32767) / 32768 →
      (∀ (k : Nat) (a : List Nat × List (List Nat)), answers[k]? = some a →
        a.1.headD 1 = 0 ∧ a.1.length ≤ CMD_MAXLEN ∧
        Cmd.framesMatch CMD_MAXLEN ((min 32768 (L - 32768 * k) : Nat) : Int) a.2 = true) →
      spi.rx = answers.flatMap answerBytes ++ rest →
      ∃ blocks : List Block,
        blocks.length = (L + 32767) / 32768 ∧
        blocks.map (fun b => (b.reply, b.frames)) = answers ∧
        AllocAndRead CMD_MAXLEN hpos h255 spi cmd chip readBuf A L
          = (⟨rest, spi.log ++ blocks.flatMap Block.readOps, spi.fail⟩,
              Ret.buf (answers.flatMap (fun a => a.2.flatten))) ∧
        (∀ (k : Nat) (b : Block), blocks[k]? = some b →
          b.cmd = rdWrCmd (4 + chip) (A + 32768 * k) (min 32768 (L - 32768 * k)) ∧
          b.cmd.length = 6 ∧
          b.cmd.getD 1 0 * 65536 + b.cmd.getD 2 0 * 256 + b.cmd.getD 3 0 = A + 32768 * k ∧
          b.cmd.getD 4 0 * 256 + b.cmd.getD 5 0 = min 32768 (L - 32768 * k) ∧
          b.frames.flatten.length = min 32768 (L - 32768 * k)) ∧
        (blocks.map (fun b => b.frames.flatten.length)).sum = L) := by
  have hchip1 : chip ≤ 1 := hchip
  have hnot : ¬ chip > PROG_CHIP_MAX := Nat.not_lt.mpr hchip
  have hopW : (CMD_CHR_WRITE + chip) % 256 = 2 + chip := by
    simp only [CMD_CHR_WRITE]; omega
  have hopR : (CMD_CHR_READ + chip) % 256 = 4 + chip := by
    simp only [CMD_CHR_READ]; omega
  constructor
  · intro spi content f_len replies rest hnf hlen hcont hn hr hrx
    have hlen2 : (if f_len = 0 then content.length % 4294967296 else f_len) = L := by
      by_cases h0 : f_len = 0
      · simp only [h0, if_true] at hlen ⊢
        rw [hlen]
        exact Nat.mod_eq_of_lt (by omega)
      · simp only [h0, if_false] at hlen ⊢
        exact hlen
    obtain ⟨hh, hl6⟩ := set_head cmd ((CMD_CHR_WRITE + chip) % 256) hcmd
    obtain ⟨blocks, hmap, hloop, hblk⟩ := flash_loop_noFail CMD_MAXLEN hpos h255
      (content.take L) L (by simp only [List.length_take]; omega) rest replies spi
      (cmd.set 0 ((CMD_CHR_WRITE + chip) % 256)) none 0 A hnf hl6 (Nat.zero_le _)
      (by omega) (by simpa using hn) hr hrx
    rw [hh, hopW] at hblk
    have hbl : blocks.length = (L + 32767) / 32768 := by
      rw [← hn, ← hmap, List.length_map]
    have hall : ∀ (k : Nat) (b : Block), blocks[k]? = some b →
        b.cmd = rdWrCmd (2 + chip) (A + 32768 * k) (min 32768 (L - 32768 * k)) ∧
        b.cmd.length = 6 ∧
        b.cmd.getD 1 0 * 65536 + b.cmd.getD 2 0 * 256 + b.cmd.getD 3 0 = A + 32768 * k ∧
        b.cmd.getD 4 0 * 256 + b.cmd.getD 5 0 = min 32768 (L - 32768 * k) ∧
        b.frames.flatten
          = ((content.take L).drop (32768 * k)).take (min 32768 (L - 32768 * k)) ∧
        b.frames.flatten.length = min 32768 (L - 32768 * k) := by
      intro k b hb
      have hk : k < (L + 32767) / 32768 := by
        rcases List.getElem?_eq_some.mp hb with ⟨h, _⟩
        rw [← hbl]
        exact h
      obtain ⟨h1, h2⟩ := hblk k b hb
      simp only [Nat.sub_zero, Nat.zero_add] at h1 h2
      obtain ⟨b1, b2, b3⟩ := block_bounds A L k hAL hk
      obtain ⟨d1, _, d3, d4⟩ := rdWrCmd_decode (2 + chip) (A + 32768 * k)
        (min 32768 (L - 32768 * k)) b1 b2
      refine ⟨h1, ?_, ?_, ?_, h2, ?_⟩
      · rw [h1]; exact d1
      · rw [h1]; exact d3
      · rw [h1]; exact d4
      · rw [h2]
        simp only [List.length_take, List.length_drop]
        omega
    refine ⟨blocks, hbl, hmap, ?_, ?_, hall, ?_⟩
    · unfold AllocAndFlash
      simp only [hnot, if_false, hlen2]
      by_cases hL0 : L = 0
      · have hnil : blocks = [] := by
          apply List.eq_nil_of_length_eq_zero
          rw [hbl, hL0]
        have hrep : replies = [] := by
          apply List.eq_nil_of_length_eq_zero
          rw [hn, hL0]
        obtain ⟨rx, log, fail⟩ := spi
        have hrx' : rx = rest := by
          rw [hrep] at hrx
          simpa using hrx
        subst hrx'
        simp [hL0, hnil]
      · have hc : ¬ (L = 0 ∨ content.length < L) := by omega
        simp only [hc, if_false, hloop]
    · intro hL
      unfold AllocAndFlash
      have hc : ¬ (L = 0 ∨ content.length < L) := by omega
      simp only [hnot, if_false, hlen2, hc, hloop]
    · exact block_sum (fun b => b.frames.flatten.length) blocks L hbl
        (fun k b hb => (hall k b hb).2.2.2.2.2)
  · intro spi readBuf answers rest hnf hbuf hn hans hrx
    obtain ⟨hh, hl6⟩ := set_head cmd ((CMD_CHR_READ + chip) % 256) hcmd
    obtain ⟨blocks, hmap, hloop, hblk⟩ := read_loop_noFail CMD_MAXLEN hpos h255 L rest answers
      spi (cmd.set 0 ((CMD_CHR_READ + chip) % 256)) none readBuf 0 A hnf hl6 (Nat.zero_le _)
      hbuf (by omega) (by simpa using hn) (by simpa using hans) hrx
    rw [hh, hopR] at hblk
    have hbl : blocks.length = (L + 32767) / 32768 := by
      rw [← hn, ← hmap, List.length_map]
    have hall : ∀ (k : Nat) (b : Block), blocks[k]? = some b →
        b.cmd = rdWrCmd (4 + chip) (A + 32768 * k) (min 32768 (L - 32768 * k)) ∧
        b.cmd.length = 6 ∧
        b.cmd.getD 1 0 * 65536 + b.cmd.getD 2 0 * 256 + b.cmd.getD 3 0 = A + 32768 * k ∧
        b.cmd.getD 4 0 * 256 + b.cmd.getD 5 0 = min 32768 (L - 32768 * k) ∧
        b.frames.flatten.length = min 32768 (L - 32768 * k) := by
      intro k b hb
      have hk : k < (L + 32767) / 32768 := by
        rcases List.getElem?_eq_some.mp hb with ⟨h, _⟩
        rw [← hbl]
        exact h
      obtain ⟨h1, h2⟩ := hblk k b hb
      simp only [Nat.sub_zero, Nat.zero_add] at h1 h2
      obtain ⟨b1, b2, _⟩ := block_bounds A L k hAL hk
      obtain ⟨d1, _, d3, d4⟩ := rdWrCmd_decode (4 + chip) (A + 32768 * k)
        (min 32768 (L - 32768 * k)) b1 b2
      refine ⟨h1, ?_, ?_, ?_, h2⟩
      · rw [h1]; exact d1
      · rw [h1]; exact d3
      · rw [h1]; exact d4
    refine ⟨blocks, hbl, hmap, ?_, hall, ?_⟩
    · unfold AllocAndRead
      simp only [hnot, if_false, hloop, List.take_zero, List.nil_append]
    · exact block_sum (fun b => b.frames.flatten.length) blocks L hbl
        (fun k b hb => (hall k b hb).2.2.2.2)

/-- C20, witness: three bytes written to, and three bytes read from, PRG flash
at address `0x8000` take one command each. -/
theorem AllocAndFlash_AllocAndRead_blocks_witness :
    6 ≤ ([0, 0, 0, 0, 0, 0] : List Nat).length ∧ 1 ≤ PROG_CHIP_MAX ∧
    0x8000 + 3 ≤ 16777216 ∧
    (∃ blocks : List Block,
        blocks.length = (3 + 32767) / 32768 ∧
        blocks.map Block.reply = [[0]] ∧
        (AllocAndFlash 32 (by decide) (⟨[[0]].flatMap frameBytes ++ [], [], fun _ => false⟩ : Mpsse) [0, 0, 0, 0, 0, 0] 1 (some [0xAA, 0xBB, 0xCC])
            0x8000 3).1
          = ⟨[], (⟨[[0]].flatMap frameBytes ++ [], [], fun _ => false⟩ : Mpsse).log ++ blocks.flatMap Block.writeOps, (⟨[[0]].flatMap frameBytes ++ [], [], fun _ => false⟩ : Mpsse).fail⟩ ∧
        (0 < 3 → (AllocAndFlash 32 (by decide) (⟨[[0]].flatMap frameBytes ++ [], [], fun _ => false⟩ : Mpsse) [0, 0, 0, 0, 0, 0] 1
            (some [0xAA, 0xBB, 0xCC]) 0x8000 3).2 = Ret.buf ([0xAA, 0xBB, 0xCC].take 3)) ∧
        (∀ (k : Nat) (b : Block), blocks[k]? = some b →
          b.cmd = rdWrCmd (2 + 1) (0x8000 + 32768 * k) (min 32768 (3 - 32768 * k)) ∧
          b.cmd.length = 6 ∧
          b.cmd.getD 1 0 * 65536 + b.cmd.getD 2 0 * 256 + b.cmd.getD 3 0
            = 0x8000 + 32768 * k ∧
          b.cmd.getD 4 0 * 256 + b.cmd.getD 5 0 = min 32768 (3 - 32768 * k) ∧
          b.frames.flatten
            = (([0xAA, 0xBB, 0xCC].take 3).drop (32768 * k)).take (min 32768 (3 - 32768 * k)) ∧
          b.frames.flatten.length = min 32768 (3 - 32768 * k)) ∧
        (blocks.map (fun b => b.frames.flatten.length)).sum = 3) ∧
    (∃ blocks : List Block,
        blocks.length = (3 + 32767) / 32768 ∧
        blocks.map (fun b => (b.reply, b.frames)) = [([0], [[1, 2, 3]])] ∧
        AllocAndRead 32 (by decide) (by decide) (⟨[(([0] : List Nat), [[1, 2, 3]])].flatMap answerBytes ++ [], [], fun _ => false⟩ : Mpsse) [0, 0, 0, 0, 0, 0] 1 [0, 0, 0] 0x8000 3
          = (⟨[], (⟨[(([0] : List Nat), [[1, 2, 3]])].flatMap answerBytes ++ [], [], fun _ => false⟩ : Mpsse).log ++ blocks.flatMap Block.readOps, (⟨[(([0] : List Nat), [[1, 2, 3]])].flatMap answerBytes ++ [], [], fun _ => false⟩ : Mpsse).fail⟩,
              Ret.buf ([(([0] : List Nat), [[1, 2, 3]])].flatMap (fun a => a.2.flatten))) ∧
        (∀ (k : Nat) (b : Block), blocks[k]? = some b →
          b.cmd = rdWrCmd (4 + 1) (0x8000 + 32768 * k) (min 32768 (3 - 32768 * k)) ∧
          b.cmd.length = 6 ∧
          b.cmd.getD 1 0 * 65536 + b.cmd.getD 2 0 * 256 + b.cmd.getD 3 0
            = 0x8000 + 32768 * k ∧
          b.cmd.getD 4 0 * 256 + b.cmd.getD 5 0 = min 32768 (3 - 32768 * k) ∧
          b.frames.flatten.length = min 32768 (3 - 32768 * k)) ∧
        (blocks.map (fun b => b.frames.flatten.length)).sum = 3) := by
  have h := AllocAndFlash_AllocAndRead_blocks 32 (by decide) (by decide) [0, 0, 0, 0, 0, 0] 1
    0x8000 3 (by decide) (by decide) (by decide)
  refine ⟨by decide, by decide, by decide, ?_, ?_⟩
  · exact h.1 (⟨[[0]].flatMap frameBytes ++ [], [], fun _ => false⟩ : Mpsse) [0xAA, 0xBB, 0xCC] 3 [[0]] [] (fun _ _ => rfl) rfl (by decide) rfl
      (by simp) rfl
  · refine h.2 (⟨[(([0] : List Nat), [[1, 2, 3]])].flatMap answerBytes ++ [], [], fun _ => false⟩ : Mpsse) [0, 0, 0] [([0], [[1, 2, 3]])] [] (fun _ _ => rfl) rfl rfl ?_ rfl
    intro k a hk
    cases k with
    | zero =>
      simp only [List.getElem?_cons_zero, Option.some.injEq] at hk
      subst hk
      exact ⟨rfl, by decide, by simp [Cmd.framesMatch]⟩
    | succ k => simp at hk

/-! ## Claims on the command line -/

/-- With a non-empty address token the uninitialised `endPtr` plays no
part. -/
theorem convert_endPtr (strtol : List Nat → Nat → Int × Nat) (e1 e2 : Option Nat)
    (file : List Nat) (addr : Nat) (len : Option Nat) (h : file.getD addr 0 ≠ 0) :
    ParseMemArgument.convert strtol e1 file addr len
      = ParseMemArgument.convert strtol e2 file addr len := by
  unfold ParseMemArgument.convert
  simp only [h, ne_eq, not_false_eq_true, if_true]

/-- C21, the code at the example of its own documentation: for the argument
`rom.bin:6000:1` the function returns 0 with the file name cut to `rom.bin` and
`len = 1`, but `addr` is 6000 (decimal), not `0x6000`; it takes
`rom.bin:0x6000:1` to get `0x6000`. -/
theorem ParseMemArgument_doc_example (endPtr : Option Nat) (a0 l0 : Nat) :
    ParseMemArgument strtol endPtr ⟨some (cstr "rom.bin:6000:1"), a0, l0⟩
      = (0, ⟨some (cstr "rom.bin" ++ [0] ++ cstr "6000" ++ [0] ++ cstr "1"), 6000, 1⟩) ∧
    cstrAt (cstr "rom.bin" ++ [0] ++ cstr "6000" ++ [0] ++ cstr "1") 0 = cstr "rom.bin" ∧
    (6000 : Nat) ≠ 0x6000 ∧
    (ParseMemArgument strtol endPtr ⟨some (cstr "rom.bin:0x6000:1"), a0, l0⟩).2.addr
      = 0x6000 := by
  have hs : ParseMemArgument.split (cstr "rom.bin:6000:1")
      = Except.ok (cstr "rom.bin" ++ [0] ++ cstr "6000" ++ [0] ++ cstr "1", 8, some 13) := by
    rfl
  have hx : ParseMemArgument.split (cstr "rom.bin:0x6000:1")
      = Except.ok (cstr "rom.bin" ++ [0] ++ cstr "0x6000" ++ [0] ++ cstr "1", 8, some 15) := by
    rfl
  refine ⟨?_, by decide, by decide, ?_⟩
  · unfold ParseMemArgument
    simp only [Option.getD_some, hs]
    rw [convert_endPtr strtol endPtr none _ _ _ (by decide)]
    decide
  · unfold ParseMemArgument
    simp only [Option.getD_some, hx]
    rw [convert_endPtr strtol endPtr none _ _ _ (by decide)]
    decide

/-- C22, the code at the failing input: the options `-C chr.bin -P prg.bin
-R ram.bin` leave all three read lengths at 0, whatever `strtol` does, although
the initialisers of `main` hold 256 KiB, 512 KiB and 8 KiB: `ParseMemArgument`
starts by setting `m->len` to 0. -/
theorem main_read_defaults_lost (st : List Nat → Nat → Int × Nat) (endPtr : Option Nat)
    (mpsseIf : Int) :
    ((main.init mpsseIf).fCRd.len, (main.init mpsseIf).fPRd.len, (main.init mpsseIf).fRRd.len)
      = (262144, 524288, 8192) ∧
    (main.options st endPtr (main.init mpsseIf)
        [(67, cstr "chr.bin"), (80, cstr "prg.bin"), (82, cstr "ram.bin")]).toOption.map
      (fun v => (v.fCRd, v.fPRd, v.fRRd))
      = some (⟨some (cstr "chr.bin"), 0, 0⟩, ⟨some (cstr "prg.bin"), 0, 0⟩,
          ⟨some (cstr "ram.bin"), 0, 0⟩) := by
  refine ⟨rfl, ?_⟩
  rfl

theorem getD_mem (l : List Nat) (j : Nat) (h : j < l.length) : l.getD j 0 ∈ l := by
  rw [List.getD_eq_getElem _ _ h]
  exact List.getElem_mem h

/-- The token scan stops at the first terminator or separator at or after `i`,
or after `n` rounds. -/
theorem token_find (file : List Nat) : ∀ (n i k : Nat), i ≤ k → k ≤ i + n →
    (∀ j, i ≤ j → j < k → file.getD j 0 ≠ 0 ∧ file.getD j 0 ≠ 58) →
    (k < i + n → file.getD k 0 = 0 ∨ file.getD k 0 = 58) →
    ParseMemArgument.token file n i = k := by
  intro n
  induction n with
  | zero =>
    intro i k h1 h2 _ _
    simp only [ParseMemArgument.token]
    omega
  | succ n ih =>
    intro i k h1 h2 hclean hstop
    simp only [ParseMemArgument.token]
    by_cases hik : i = k
    · subst hik
      have := hstop (by omega)
      rw [if_neg (by
        intro hc
        rcases this with h | h
        · exact hc.1 h
        · exact hc.2 h)]
    · rw [if_pos (hclean i (le_refl _) (by omega))]
      exact ih (i + 1) k (by omega) (by omega)
        (fun j hj1 hj2 => hclean j (by omega) hj2)
        (fun hk => hstop (by omega))

/-- The scan for the end of the string stops at the first terminator at or
after `i`, or after `n` rounds. -/
theorem rest_find (file : List Nat) : ∀ (n i k : Nat), i ≤ k → k ≤ i + n →
    (∀ j, i ≤ j → j < k → file.getD j 0 ≠ 0) →
    (k < i + n → file.getD k 0 = 0) →
    ParseMemArgument.rest file n i = k := by
  intro n
  induction n with
  | zero =>
    intro i k h1 h2 _ _
    simp only [ParseMemArgument.rest]
    omega
  | succ n ih =>
    intro i k h1 h2 hclean hstop
    simp only [ParseMemArgument.rest]
    by_cases hik : i = k
    · subst hik
      rw [if_neg (by
        intro hc
        exact hc (hstop (by omega)))]
    · rw [if_pos (hclean i (le_refl _) (by omega))]
      exact ih (i + 1) k (by omega) (by omega)
        (fun j hj1 hj2 => hclean j (by omega) hj2)
        (fun hk => hstop (by omega))

/-- An argument without separator, of at most 255 characters, is left as it
is. -/
theorem split_one (file : List Nat) (hclean : ∀ c ∈ file, c ≠ 0 ∧ c ≠ 58)
    (hlen : file.length ≤ 255) :
    ParseMemArgument.split file = Except.error (0, file) := by
  have h1 : ParseMemArgument.token file (MAX_FILELEN + 1) 0 = file.length := by
    apply token_find file _ 0 file.length (Nat.zero_le _) (by simp only [MAX_FILELEN]; omega)
    · intro j _ hj
      exact hclean _ (getD_mem file j hj)
    · intro _
      left
      exact List.getD_eq_default _ _ (le_refl _)
  unfold ParseMemArgument.split
  simp only [h1]
  rw [if_neg (by simp only [MAX_FILELEN]; omega),
    if_pos (List.getD_eq_default _ _ (le_refl _))]

/-- Reading the buffer `pre ++ c :: post`. -/
theorem getD_mid (pre post : List Nat) (c j : Nat) :
    (j < pre.length → (pre ++ c :: post).getD j 0 = pre.getD j 0) ∧
    (j = pre.length → (pre ++ c :: post).getD j 0 = c) ∧
    (pre.length < j → (pre ++ c :: post).getD j 0 = post.getD (j - pre.length - 1) 0) := by
  refine ⟨fun h => List.getD_append _ _ _ _ h, fun h => ?_, fun h => ?_⟩
  · rw [List.getD_append_right _ _ _ _ (by omega), h, Nat.sub_self]
    rfl
  · rw [List.getD_append_right _ _ _ _ (by omega)]
    obtain ⟨d, hd⟩ : ∃ d, j - pre.length = d + 1 := ⟨j - pre.length - 1, by omega⟩
    rw [hd, List.getD_cons_succ]
    congr 1

/-- The tokens of `name:X`, at most 255 characters in all. -/
theorem split_two (name X : List Nat) (hn : ∀ c ∈ name, c ≠ 0 ∧ c ≠ 58)
    (hX : ∀ c ∈ X, c ≠ 0 ∧ c ≠ 58) (hlen : name.length + 1 + X.length ≤ 255) :
    ParseMemArgument.split (name ++ 58 :: X)
      = Except.ok (name ++ 0 :: X, name.length + 1, none) := by
  have h1 : ParseMemArgument.token (name ++ 58 :: X) (MAX_FILELEN + 1) 0 = name.length := by
    apply token_find _ _ 0 name.length (Nat.zero_le _) (by simp only [MAX_FILELEN]; omega)
    · intro j _ hj
      rw [(getD_mid name X 58 j).1 hj]
      exact hn _ (getD_mem name j hj)
    · intro _
      right
      exact (getD_mid name X 58 name.length).2.1 rfl
  have hc : (name ++ 58 :: X).getD name.length 0 = 58 := (getD_mid name X 58 name.length).2.1 rfl
  have hset : (name ++ 58 :: X).set name.length 0 = name ++ 0 :: X := by
    rw [List.set_append_right _ _ (le_refl _), Nat.sub_self]
    rfl
  have h2 : ParseMemArgument.token (name ++ 0 :: X) (MAX_FILELEN + 1 - (name.length + 1))
      (name.length + 1) = name.length + 1 + X.length := by
    apply token_find _ _ _ _ (by omega) (by simp only [MAX_FILELEN]; omega)
    · intro j hj1 hj2
      rw [(getD_mid name X 0 j).2.2 (by omega)]
      exact hX _ (getD_mem X _ (by omega))
    · intro _
      left
      apply List.getD_eq_default
      simp only [List.length_append, List.length_cons]
      omega
  have hend : (name ++ 0 :: X).getD (name.length + 1 + X.length) 0 = 0 := by
    apply List.getD_eq_default
    simp only [List.length_append, List.length_cons]
    omega
  unfold ParseMemArgument.split
  simp only [h1, hc, hset, h2, hend]
  rw [if_neg (by simp only [MAX_FILELEN]; omega), if_neg (by decide),
    if_neg (by simp only [MAX_FILELEN]; omega), if_neg (by decide)]

/-- The tokens of `name:X:Y`, at most 256 characters in all. -/
theorem split_three (name X Y : List Nat) (hn : ∀ c ∈ name, c ≠ 0 ∧ c ≠ 58)
    (hX : ∀ c ∈ X, c ≠ 0 ∧ c ≠ 58) (hY : ∀ c ∈ Y, c ≠ 0)
    (hlen : name.length + 1 + X.length + 1 + Y.length ≤ 256) :
    ParseMemArgument.split (name ++ 58 :: (X ++ 58 :: Y))
      = Except.ok (name ++ 0 :: (X ++ 0 :: Y), name.length + 1,
          some (name.length + 1 + X.length + 1)) := by
  have h1 : ParseMemArgument.token (name ++ 58 :: (X ++ 58 :: Y)) (MAX_FILELEN + 1) 0
      = name.length := by
    apply token_find _ _ 0 name.length (Nat.zero_le _) (by simp only [MAX_FILELEN]; omega)
    · intro j _ hj
      rw [(getD_mid name _ 58 j).1 hj]
      exact hn _ (getD_mem name j hj)
    · intro _
      right
      exact (getD_mid name _ 58 name.length).2.1 rfl
  have hc : (name ++ 58 :: (X ++ 58 :: Y)).getD name.length 0 = 58 :=
    (getD_mid name _ 58 name.length).2.1 rfl
  have hset : (name ++ 58 :: (X ++ 58 :: Y)).set name.length 0
      = name ++ 0 :: (X ++ 58 :: Y) := by
    rw [List.set_append_right _ _ (le_refl _), Nat.sub_self]
    rfl
  have h2 : ParseMemArgument.token (name ++ 0 :: (X ++ 58 :: Y))
      (MAX_FILELEN + 1 - (name.length + 1)) (name.length + 1) = name.length + 1 + X.length := by
    apply token_find _ _ _ _ (by omega) (by simp only [MAX_FILELEN]; omega)
    · intro j hj1 hj2
      rw [(getD_mid name _ 0 j).2.2 (by omega), (getD_mid X Y 58 _).1 (by omega)]
      exact hX _ (getD_mem X _ (by omega))
    · intro _
      right
      rw [(getD_mid name _ 0 _).2.2 (by omega)]
      exact (getD_mid X Y 58 _).2.1 (by omega)
  have hc2 : (name ++ 0 :: (X ++ 58 :: Y)).getD (name.length + 1 + X.length) 0 = 58 := by
    rw [(getD_mid name _ 0 _).2.2 (by omega)]
    exact (getD_mid X Y 58 _).2.1 (by omega)
  have hset2 : (name ++ 0 :: (X ++ 58 :: Y)).set (name.length + 1 + X.length) 0
      = name ++ 0 :: (X ++ 0 :: Y) := by
    rw [List.set_append_right _ _ (by omega)]
    have e : name.length + 1 + X.length - name.length = X.length + 1 := by omega
    rw [e, List.set_cons_succ, List.set_append_right _ _ (le_refl _), Nat.sub_self]
    rfl
  have h3 : ParseMemArgument.rest (name ++ 0 :: (X ++ 0 :: Y))
      (MAX_FILELEN + 1 - (name.length + 1 + X.length + 1)) (name.length + 1 + X.length + 1)
      = name.length + 1 + X.length + 1 + Y.length := by
    apply rest_find _ _ _ _ (by omega) (by simp only [MAX_FILELEN]; omega)
    · intro j hj1 hj2
      rw [(getD_mid name _ 0 j).2.2 (by omega), (getD_mid X Y 0 _).2.2 (by omega)]
      exact hY _ (getD_mem Y _ (by omega))
    · intro _
      apply List.getD_eq_default
      simp only [List.length_append, List.length_cons]
      omega
  have hend : (name ++ 0 :: (X ++ 0 :: Y)).getD
      (name.length + 1 + X.length + 1 + Y.length) 0 = 0 := by
    apply List.getD_eq_default
    simp only [List.length_append, List.length_cons]
    omega
  unfold ParseMemArgument.split
  simp only [h1, hc, hset, h2, hc2, hset2, h3, hend]
  rw [if_neg (by simp only [MAX_FILELEN]; omega), if_neg (by decide),
    if_neg (by simp only [MAX_FILELEN]; omega), if_pos trivial, if_neg (by simp)]

/-- The C string at the start of `pre ++ 0 :: post` is `pre`. -/
theorem cstrAt_head (pre post : List Nat) (h : ∀ c ∈ pre, c ≠ 0) :
    cstrAt (pre ++ 0 :: post) 0 = pre := by
  unfold cstrAt
  rw [List.drop_zero, List.takeWhile_append_of_pos (by simpa using h)]
  simp

/-- The C string right behind `pre` is what follows up to the next 0. -/
theorem cstrAt_skip (pre post : List Nat) (n : Nat) (h : n = pre.length + 1) (c : Nat) :
    cstrAt (pre ++ c :: post) n = cstrAt post 0 := by
  unfold cstrAt
  rw [h, List.drop_zero, List.drop_append 1]
  rfl

/-- The C string made of the whole buffer. -/
theorem cstrAt_all (l : List Nat) (h : ∀ c ∈ l, c ≠ 0) : cstrAt l 0 = l := by
  unfold cstrAt
  rw [List.drop_zero, List.takeWhile_eq_self_iff]
  simpa using h

/-- An argument `name:X` of at most 255 characters with a non-empty `X`: the
file name is cut to `name`, `len` is 0, and `X` goes through `strtol`; when
`strtol` converts nothing the result is 2. -/
theorem parse_two (st : List Nat → Nat → Int × Nat) (endPtr : Option Nat) (a0 l0 : Nat)
    (name X : List Nat) (hn : ∀ c ∈ name, c ≠ 0 ∧ c ≠ 58) (hX : ∀ c ∈ X, c ≠ 0 ∧ c ≠ 58)
    (hXne : X ≠ []) (hlen : name.length + 1 + X.length ≤ 255) :
    ParseMemArgument st endPtr ⟨some (name ++ 58 :: X), a0, l0⟩
      = if toU32 (st X 0).1 = 0 ∧ (st X 0).2 = 0
        then (2, ⟨some (name ++ 0 :: X), 0, 0⟩)
        else (0, ⟨some (name ++ 0 :: X), toU32 (st X 0).1, 0⟩) := by
  obtain ⟨x, xs, rfl⟩ : ∃ x xs, X = x :: xs := by
    cases X with
    | nil => exact absurd rfl hXne
    | cons x xs => exact ⟨x, xs, rfl⟩
  have hx0 : x ≠ 0 := (hX x (List.mem_cons_self _ _)).1
  have hstr : cstrAt (name ++ 0 :: (x :: xs)) (name.length + 1) = x :: xs := by
    rw [cstrAt_skip name _ _ rfl, cstrAt_all _ (fun c hc => (hX c hc).1)]
  have hget : (name ++ 0 :: (x :: xs)).getD (name.length + 1) 0 = x := by
    rw [(getD_mid name _ 0 _).2.2 (by omega)]
    have e : name.length + 1 - name.length - 1 = 0 := by omega
    rw [e]
    rfl
  unfold ParseMemArgument
  simp only [Option.getD_some, split_two name (x :: xs) hn hX hlen]
  unfold ParseMemArgument.convert
  simp only [hget, hstr, ne_eq, hx0, not_false_eq_true, if_true, Option.some.injEq]
  by_cases hconv : toU32 (st (x :: xs) 0).1 = 0 ∧ (st (x :: xs) 0).2 = 0
  · rw [if_pos hconv, if_pos ⟨hconv.1, by rw [hconv.2]⟩, hconv.1]
  · rw [if_neg hconv, if_neg (by
      intro hc
      exact hconv ⟨hc.1, by have := hc.2; omega⟩)]
    simp

/-- An argument `name:X:Y` of at most 256 characters with non-empty `X` and
`Y`: the file name is cut to `name` and both numbers go through `strtol`; the
result is 2 when `X` converts to nothing, else 3 when `Y` converts to nothing,
else 0. -/
theorem parse_three (st : List Nat → Nat → Int × Nat) (endPtr : Option Nat) (a0 l0 : Nat)
    (name X Y : List Nat) (hn : ∀ c ∈ name, c ≠ 0 ∧ c ≠ 58) (hX : ∀ c ∈ X, c ≠ 0 ∧ c ≠ 58)
    (hY : ∀ c ∈ Y, c ≠ 0) (hXne : X ≠ []) (hYne : Y ≠ [])
    (hlen : name.length + 1 + X.length + 1 + Y.length ≤ 256) :
    ParseMemArgument st endPtr ⟨some (name ++ 58 :: (X ++ 58 :: Y)), a0, l0⟩
      = if toU32 (st X 0).1 = 0 ∧ (st X 0).2 = 0
        then (2, ⟨some (name ++ 0 :: (X ++ 0 :: Y)), 0, 0⟩)
        else if toU32 (st Y 0).1 = 0 ∧ (st Y 0).2 = 0
        then (3, ⟨some (name ++ 0 :: (X ++ 0 :: Y)), toU32 (st X 0).1, 0⟩)
        else (0, ⟨some (name ++ 0 :: (X ++ 0 :: Y)), toU32 (st X 0).1, toU32 (st Y 0).1⟩) := by
  obtain ⟨x, xs, rfl⟩ : ∃ x xs, X = x :: xs := by
    cases X with
    | nil => exact absurd rfl hXne
    | cons x xs => exact ⟨x, xs, rfl⟩
  obtain ⟨y, ys, rfl⟩ : ∃ y ys, Y = y :: ys := by
    cases Y with
    | nil => exact absurd rfl hYne
    | cons y ys => exact ⟨y, ys, rfl⟩
  have hx0 : x ≠ 0 := (hX x (List.mem_cons_self _ _)).1
  have hy0 : y ≠ 0 := hY y (List.mem_cons_self _ _)
  have hre : name ++ 0 :: (x :: xs ++ 0 :: y :: ys) = (name ++ 0 :: x :: xs) ++ 0 :: y :: ys := by
    simp
  have hstrX : cstrAt (name ++ 0 :: (x :: xs ++ 0 :: y :: ys)) (name.length + 1) = x :: xs := by
    rw [cstrAt_skip name _ _ rfl, cstrAt_head _ _ (fun c hc => (hX c hc).1)]
  have hstrY : cstrAt (name ++ 0 :: (x :: xs ++ 0 :: y :: ys))
      (name.length + 1 + (x :: xs).length + 1) = y :: ys := by
    rw [hre, cstrAt_skip (name ++ 0 :: x :: xs) _ _ (by
      simp only [List.length_append, List.length_cons]; omega), cstrAt_all _ hY]
  have hgetX : (name ++ 0 :: (x :: xs ++ 0 :: y :: ys)).getD (name.length + 1) 0 = x := by
    rw [(getD_mid name _ 0 _).2.2 (by omega)]
    have e : name.length + 1 - name.length - 1 = 0 := by omega
    rw [e]
    rfl
  have hgetY : (name ++ 0 :: (x :: xs ++ 0 :: y :: ys)).getD
      (name.length + 1 + (x :: xs).length + 1) 0 = y := by
    rw [hre, (getD_mid (name ++ 0 :: x :: xs) _ 0 _).2.2 (by
      simp only [List.length_append, List.length_cons]; omega)]
    have e : name.length + 1 + (x :: xs).length + 1 - (name ++ 0 :: x :: xs).length - 1 = 0 := by
      simp only [List.length_append, List.length_cons]; omega
    rw [e]
    rfl
  unfold ParseMemArgument
  simp only [Option.getD_some, split_three name (x :: xs) (y :: ys) hn hX hY hlen]
  unfold ParseMemArgument.convert
  simp only [hgetX, hgetY, hstrX, hstrY, ne_eq, hx0, hy0, not_false_eq_true, if_true,
    Option.some.injEq]
  by_cases hcx : toU32 (st (x :: xs) 0).1 = 0 ∧ (st (x :: xs) 0).2 = 0
  · rw [if_pos hcx, if_pos ⟨hcx.1, by rw [hcx.2]⟩, hcx.1]
  · rw [if_neg hcx, if_neg (by
      intro hc
      exact hcx ⟨hc.1, by have := hc.2; omega⟩)]
    by_cases hcy : toU32 (st (y :: ys) 0).1 = 0 ∧ (st (y :: ys) 0).2 = 0
    · rw [if_pos hcy, if_pos ⟨hcy.1, by rw [hcy.2]⟩, hcy.1]
    · rw [if_neg hcy, if_neg (by
        intro hc
        exact hcy ⟨hc.1, by have := hc.2; omega⟩)]

/-- An argument without separator, of at most 255 characters: return value 0,
`addr = 0`, `len = 0`, file name unchanged, whatever the fields held. -/
theorem parse_one (st : List Nat → Nat → Int × Nat) (endPtr : Option Nat) (a0 l0 : Nat)
    (file : List Nat) (hclean : ∀ c ∈ file, c ≠ 0 ∧ c ≠ 58) (hlen : file.length ≤ 255) :
    ParseMemArgument st endPtr ⟨some file, a0, l0⟩ = (0, ⟨some file, 0, 0⟩) := by
  unfold ParseMemArgument
  simp only [Option.getD_some, split_one file hclean hlen]

/-- An argument whose first 256 characters hold neither terminator nor
separator: return value 1. -/
theorem parse_long_one (st : List Nat → Nat → Int × Nat) (endPtr : Option Nat) (a0 l0 : Nat)
    (file : List Nat) (hclean : ∀ j, j < 256 → file.getD j 0 ≠ 0 ∧ file.getD j 0 ≠ 58) :
    (ParseMemArgument st endPtr ⟨some file, a0, l0⟩).1 = 1 := by
  have h1 : ParseMemArgument.token file (MAX_FILELEN + 1) 0 = 256 := by
    apply token_find file _ 0 256 (Nat.zero_le _) (by simp only [MAX_FILELEN]; omega)
    · intro j _ hj
      exact hclean j hj
    · intro h
      simp only [MAX_FILELEN] at h
      omega
  have hs : ParseMemArgument.split file = Except.error (1, file) := by
    unfold ParseMemArgument.split
    simp only [h1]
    rw [if_pos (by decide)]
  unfold ParseMemArgument
  simp only [Option.getD_some, hs]

/-- C23, the code at the failing input: an argument of 256 characters, so
without string terminator within the first 256 characters, is accepted with
return value 0 when it holds both separators (a name of 250 characters, then
`:1:123`), although 256 characters without separator are turned down with 1:
the last of the three scans tests `m->file[i] != 0` where the other two test
`i == MAX_FILELEN + 1`. -/
theorem ParseMemArgument_length_256 (endPtr : Option Nat) (a0 l0 : Nat) :
    (List.replicate 250 97 ++ 58 :: (cstr "1" ++ 58 :: cstr "123")).length = 256 ∧
    ParseMemArgument strtol endPtr
        ⟨some (List.replicate 250 97 ++ 58 :: (cstr "1" ++ 58 :: cstr "123")), a0, l0⟩
      = (0, ⟨some (List.replicate 250 97 ++ 0 :: (cstr "1" ++ 0 :: cstr "123")), 1, 123⟩) ∧
    (ParseMemArgument strtol endPtr ⟨some (List.replicate 256 97), a0, l0⟩).1 = 1 := by
  have hrep : ∀ n, ∀ c ∈ List.replicate n 97, c ≠ 0 ∧ c ≠ 58 := by
    intro n c hc
    rw [List.eq_of_mem_replicate hc]
    decide
  refine ⟨?_, ?_, ?_⟩
  · simp only [List.length_append, List.length_replicate, List.length_cons]
    rfl
  · rw [parse_three strtol endPtr a0 l0 (List.replicate 250 97) (cstr "1") (cstr "123")
      (hrep 250) (by decide) (by decide) (by decide) (by decide)
      (by rw [List.length_replicate]; decide),
      if_neg (by decide), if_neg (by decide)]
    rfl
  · apply parse_long_one
    intro j hj
    exact hrep 256 _ (getD_mem _ j (by rw [List.length_replicate]; exact hj))

/-! ## Claims on the FPGA programmer -/

/-- C25, the code for every programmer path, XCF file and operating system:
`LatticeFlash` stores `prgcmd` at position 0 and `xcf` at position 2 of
`latFlash`, so it spawns `prgcmd` itself (not `/bin/sh`) with the arguments
`[prgcmd, "-c", xcf, "-input"]`; position `LATTICE_FLASH_XCF_POS` stays NULL and
ends the vector. -/
theorem LatticeFlash_argument_vector (os : List Nat → List (List Nat) → Int)
    (prgcmd xcf : List Nat) :
    LatticeFlash os latFlash prgcmd xcf
      = ([some prgcmd, some (cstr "-c"), some xcf, some (cstr "-input"), none, none],
          os prgcmd [prgcmd, cstr "-c", xcf, cstr "-input"]) ∧
    (LatticeFlash os latFlash prgcmd xcf).1.getD LATTICE_FLASH_BIN_POS none = some xcf ∧
    (LatticeFlash os latFlash prgcmd xcf).1.getD LATTICE_FLASH_XCF_POS none = none ∧
    argv ((latFlash.set LATTICE_FLASH_BIN_POS (some prgcmd)).set LATTICE_FLASH_XCF_POS
        (some xcf))
      = [cstr "/bin/sh", cstr "-c", prgcmd, cstr "-input", xcf] := by
  refine ⟨rfl, rfl, rfl, rfl⟩

/-! ## Claims on the mapper and the start of the program -/

/-- Whatever calls fail, the only bytes the serial `CmdSend` of a command of 1
to 32 bytes writes are the frame of that command, written once `Start`
succeeds. -/
theorem CmdSend_written (CMD_MAXLEN : Nat) (spi : Mpsse) (cmd : List Nat) (n : Nat)
    (rep : Option (List Nat)) (h1 : 1 ≤ n) (h32 : n ≤ 32) (hlen : n ≤ cmd.length) :
    written (Cmd.CmdSend CMD_MAXLEN spi cmd n rep).1.log
      = written spi.log ++
          (if spi.fail spi.log.length = true then []
           else SC_SOF :: n :: (cmd.take n ++ [SC_EOF])) := by
  have hcases := send_small_cases spi cmd n h1 h32 hlen
  have hmod : n % 256 = n := by omega
  unfold Cmd.CmdSend
  simp only [hmod, hcases]
  by_cases f0 : spi.fail spi.log.length = true
  · simp [f0, SC_ERROR, SC_OK, MPSSE_FAIL, MPSSE_OK, written_append, written]
  · by_cases f1 : spi.fail (spi.log.length + 1) = true
    · simp [f0, f1, SC_ERROR, SC_OK, MPSSE_FAIL, MPSSE_OK, written_append, written]
    · by_cases f2 : spi.fail (spi.log.length + 2) = true
      · simp [f0, f1, f2, SC_ERROR, SC_OK, MPSSE_FAIL, MPSSE_OK, written_append, written]
      · have hs : SCFrameSend spi cmd n
            = (⟨spi.rx, spi.log ++ [BusOp.start,
              BusOp.write (SC_SOF :: n :: (cmd.take n ++ [SC_EOF])),
              BusOp.stop], spi.fail⟩, SC_OK) := by
          rw [hcases, if_neg f0, if_neg f1, if_neg f2]
        rw [← hcases, hs]
        simp only [ne_eq, not_true_eq_false, if_false]
        have hw : ∀ x : Mpsse × Option (List Nat) × Int,
            x.1 = (SCFrameRecv ⟨spi.rx, spi.log ++ [BusOp.start,
              BusOp.write (SC_SOF :: n :: (cmd.take n ++ [SC_EOF])),
              BusOp.stop], spi.fail⟩ (CMD_MAXLEN % 256)).1 →
            written x.1.log = written spi.log ++ SC_SOF :: n :: (cmd.take n ++ [SC_EOF]) := by
          intro x hx
          rw [hx, recv_written]
          simp [written_append, written]
        rw [if_neg f0]
        apply hw
        split <;> rfl

theorem set2_take (cmd : List Nat) (x y : Nat) (h : 2 ≤ cmd.length) :
    ((cmd.set 0 x).set 1 y).take 2 = [x, y] := by
  match cmd, h with
  | _ :: _ :: _, _ => simp

/-- Whatever calls fail, the only bytes `CmdMapperCfg` writes are the frame of
the two bytes `[CMD_MAPPER_SET, mapper]`. -/
theorem CmdMapperCfg_written (CMD_MAXLEN : Nat) (spi : Mpsse) (cmd : List Nat) (mapper : Int)
    (hcmd : 2 ≤ cmd.length) :
    written (CmdMapperCfg CMD_MAXLEN spi cmd mapper).1.log
      = written spi.log ++
          (if spi.fail spi.log.length = true then []
           else frameBytes [CMD_MAPPER_SET, (mapper % 256).toNat]) := by
  have hfst : (CmdMapperCfg CMD_MAXLEN spi cmd mapper).1
      = (Cmd.CmdSend CMD_MAXLEN spi ((cmd.set 0 CMD_MAPPER_SET).set 1 (mapper % 256).toNat)
          2 none).1 := by
    unfold CmdMapperCfg
    simp only
    split <;> rfl
  rw [hfst, CmdSend_written CMD_MAXLEN spi _ 2 none (by decide) (by decide)
    (by simp only [List.length_set]; exact hcmd), set2_take cmd _ _ hcmd]
  rfl

/-- The option loop leaves `mapper` either untouched (`INT_MAX`) or in 0..2. -/
theorem options_mapper (st : List Nat → Nat → Int × Nat) (endPtr : Option Nat) :
    ∀ (opts : List (Nat × List Nat)) (v w : Vars),
      (v.mapper = INT_MAX ∨ (0 ≤ v.mapper ∧ v.mapper ≤ 2)) →
      main.options st endPtr v opts = Except.ok w →
      w.mapper = INT_MAX ∨ (0 ≤ w.mapper ∧ w.mapper ≤ 2) := by
  intro opts
  induction opts with
  | nil =>
    intro v w hv h
    simp only [main.options, Except.ok.injEq] at h
    rw [← h]
    exact hv
  | cons o os ih =>
    intro v w hv h
    simp only [main.options] at h
    cases ho : main.option st endPtr v o.1 o.2 with
    | error e => rw [ho] at h; simp at h
    | ok u =>
      rw [ho] at h
      simp only at h
      refine ih u w ?_ h
      unfold main.option at ho
      split at ho
      all_goals first
        | (simp only [Except.ok.injEq] at ho; rw [← ho]; exact hv)
        | (exfalso; simp at ho; done)
        | (simp only [] at ho
           split at ho <;> first
            | (exfalso; simp at ho; done)
            | (simp only [Except.ok.injEq] at ho; rw [← ho]; exact hv)
            | (simp only [Except.ok.injEq] at ho; rw [← ho]; right; simp only at *; omega))

/-- The option `-M`: accepted when the value, as an `int`, is 1, 2 or 3, and
then `mapper` is that value less one; else `main` returns 1. -/
theorem option_mapper (st : List Nat → Nat → Int × Nat) (endPtr : Option Nat) (v : Vars)
    (optarg : List Nat) :
    main.option st endPtr v 77 optarg
      = if 1 ≤ toInt32 (st optarg 16).1 ∧ toInt32 (st optarg 16).1 ≤ 3
        then Except.ok { v with mapper := toInt32 (st optarg 16).1 - 1 }
        else Except.error 1 := by
  have hdef : main.option st endPtr v 77 optarg
      = (if toInt32 (st optarg 16).1 ≤ 0 ∨ toInt32 (st optarg 16).1 > 3 then Except.error 1
        else Except.ok { v with mapper := toInt32 (st optarg 16).1 - 1 }) := rfl
  rw [hdef]
  by_cases h : 1 ≤ toInt32 (st optarg 16).1 ∧ toInt32 (st optarg 16).1 ≤ 3
  · rw [if_pos h, if_neg (by omega)]
  · rw [if_neg h, if_pos (by omega)]

theorem options_append (st : List Nat → Nat → Int × Nat) (endPtr : Option Nat) :
    ∀ (pre post : List (Nat × List Nat)) (v w : Vars),
      main.options st endPtr v pre = Except.ok w →
      main.options st endPtr v (pre ++ post) = main.options st endPtr w post := by
  intro pre
  induction pre with
  | nil =>
    intro post v w h
    simp only [main.options, Except.ok.injEq] at h
    rw [List.nil_append, h]
  | cons o os ih =>
    intro post v w h
    simp only [main.options, List.cons_append] at h ⊢
    cases ho : main.option st endPtr v o.1 o.2 with
    | error e => rw [ho] at h; simp at h
    | ok u =>
      simp only [ho] at h ⊢
      exact ih post u w h

theorem fpgaStep_mem (v : Vars) (latPath : List Nat) (m : Int) :
    Step.CmdMapperCfg m ∉ main.fpgaStep v latPath := by
  unfold main.fpgaStep
  split <;> simp

theorem cicStep_mem (v : Vars) (m : Int) : Step.CmdMapperCfg m ∉ main.cicStep v := by
  unfold main.cicStep
  split <;> simp

theorem fwStep_mem (v : Vars) (m : Int) : Step.CmdMapperCfg m ∉ main.fwStep v := by
  unfold main.fwStep
  split <;> simp

theorem mapperStep_mem (v : Vars) (m : Int) (h : Step.CmdMapperCfg m ∈ main.mapperStep v) :
    v.mapper = m ∧ m ≠ INT_MAX := by
  unfold main.mapperStep at h
  split at h
  · next hne =>
    simp only [List.mem_singleton, Step.CmdMapperCfg.injEq] at h
    rw [h]
    exact ⟨rfl, hne⟩
  · simp at h

/-- Whenever `main` calls `CmdMapperCfg`, the mapper is the one the options
left, and the call is made through the NULL handle. -/
theorem main_mapper_step (st : List Nat → Nat → Int × Nat) (endPtr : Option Nat)
    (CMD_MAXLEN : Nat) (mpsseIf : Int) (argc : Nat) (opts : List (Nat × List Nat))
    (extra sigErr : Bool) (cmd latPath : List Nat) (latRet cicRet fwRet : Int)
    (m : Int)
    (hm : Step.CmdMapperCfg m ∈ (main st endPtr CMD_MAXLEN mpsseIf argc opts extra sigErr
      cmd latPath latRet cicRet fwRet).2.1) :
    ∃ v, main.options st endPtr (main.init mpsseIf) opts = Except.ok v ∧ v.mapper = m ∧
      m ≠ INT_MAX ∧
      (main st endPtr CMD_MAXLEN mpsseIf argc opts extra sigErr cmd latPath latRet cicRet
        fwRet).1 = (CmdMapperCfg CMD_MAXLEN Cmd.spi cmd m).1 := by
  unfold main at hm ⊢
  by_cases hargc : argc > 1
  swap
  · simp [hargc] at hm
  simp only [hargc, not_true_eq_false, if_false] at hm ⊢
  cases ho : main.options st endPtr (main.init mpsseIf) opts with
  | error e => simp [ho] at hm
  | ok v =>
    simp only [ho] at hm ⊢
    refine ⟨v, rfl, ?_⟩
    by_cases h1 : extra = true
    · rw [if_pos h1] at hm; simp at hm
    rw [if_neg h1] at hm ⊢
    by_cases h2 : v.f.dry = true
    · rw [if_pos h2] at hm; simp at hm
    rw [if_neg h2] at hm ⊢
    by_cases h3 : sigErr = true
    · rw [if_pos h3] at hm; simp at hm
    rw [if_neg h3] at hm ⊢
    by_cases h4 : v.fFpga.file ≠ none ∧ latRet ≠ 0
    · rw [if_pos h4] at hm
      exact absurd hm (fpgaStep_mem v latPath m)
    rw [if_neg h4] at hm ⊢
    by_cases h5 : v.fCic.file ≠ none ∧ cicRet ≠ 0
    · rw [if_pos h5] at hm
      simp only [List.mem_append] at hm
      rcases hm with hm | hm
      · exact absurd hm (fpgaStep_mem v latPath m)
      · exact absurd hm (cicStep_mem v m)
    rw [if_neg h5] at hm ⊢
    have hmem : Step.CmdMapperCfg m ∈ main.mapperStep v := by
      by_cases h6 : v.fFw.file ≠ none ∧ fwRet ≠ 0
      · rw [if_pos h6] at hm
        simp only [List.mem_append] at hm
        rcases hm with (((hm | hm) | hm) | hm)
        · exact absurd hm (fpgaStep_mem v latPath m)
        · exact absurd hm (cicStep_mem v m)
        · exact hm
        · exact absurd hm (fwStep_mem v m)
      · rw [if_neg h6] at hm
        simp only [List.mem_append, List.mem_singleton] at hm
        rcases hm with ((((hm | hm) | hm) | hm) | hm)
        · exact absurd hm (fpgaStep_mem v latPath m)
        · exact absurd hm (cicStep_mem v m)
        · exact hm
        · exact absurd hm (fwStep_mem v m)
        · simp at hm
    obtain ⟨e1, e2⟩ := mapperStep_mem v m hmem
    have hne : v.mapper ≠ INT_MAX := by rw [e1]; exact e2
    refine ⟨e1, e2, ?_⟩
    rw [if_pos hne, e1]
    by_cases h6 : v.fFw.file ≠ none ∧ fwRet ≠ 0
    · rw [if_pos h6]
    · rw [if_neg h6]

/-- Every mapper that `main` hands to `CmdMapperCfg` is in 0..2. -/
theorem main_mapper_range (st : List Nat → Nat → Int × Nat) (endPtr : Option Nat)
    (CMD_MAXLEN : Nat) (mpsseIf : Int) (argc : Nat) (opts : List (Nat × List Nat))
    (extra sigErr : Bool) (cmd latPath : List Nat) (latRet cicRet fwRet : Int)
    (m : Int)
    (hm : Step.CmdMapperCfg m ∈ (main st endPtr CMD_MAXLEN mpsseIf argc opts extra sigErr
      cmd latPath latRet cicRet fwRet).2.1) :
    0 ≤ m ∧ m ≤ 2 := by
  obtain ⟨v, hv, e1, e2, _⟩ := main_mapper_step st endPtr CMD_MAXLEN mpsseIf argc opts
    extra sigErr cmd latPath latRet cicRet fwRet m hm
  have hinv := options_mapper st endPtr opts (main.init mpsseIf) v (Or.inl rfl) hv
  rw [e1] at hinv
  rcases hinv with h | h
  · exact absurd h e2
  · exact h

/-- A value of `-M` that is not 1, 2 or 3 makes `main` return 1 with no call
made. -/
theorem main_mapper_rejected (st : List Nat → Nat → Int × Nat) (endPtr : Option Nat)
    (CMD_MAXLEN : Nat) (mpsseIf : Int) (argc : Nat) (extra sigErr : Bool)
    (cmd latPath : List Nat) (latRet cicRet fwRet : Int) (hargc : 1 < argc)
    (pre post : List (Nat × List Nat)) (w : Vars) (optarg : List Nat)
    (hpre : main.options st endPtr (main.init mpsseIf) pre = Except.ok w)
    (hbad : ¬ (1 ≤ toInt32 (st optarg 16).1 ∧ toInt32 (st optarg 16).1 ≤ 3)) :
    main st endPtr CMD_MAXLEN mpsseIf argc (pre ++ (77, optarg) :: post) extra sigErr cmd
        latPath latRet cicRet fwRet
      = (Cmd.spi, [], some 1) := by
  have hopt : main.options st endPtr (main.init mpsseIf) (pre ++ (77, optarg) :: post)
      = Except.error 1 := by
    rw [options_append st endPtr pre _ _ w hpre]
    simp only [main.options, option_mapper, if_neg hbad]
  unfold main
  rw [if_neg (by omega), hopt]

/-- Through the NULL handle `CmdMapperCfg` writes nothing. -/
theorem CmdMapperCfg_NULL_written (CMD_MAXLEN : Nat) (cmd : List Nat) (mapper : Int)
    (hcmd : 2 ≤ cmd.length) :
    written (CmdMapperCfg CMD_MAXLEN Cmd.spi cmd mapper).1.log = [] := by
  rw [CmdMapperCfg_written CMD_MAXLEN Cmd.spi cmd mapper hcmd]
  rfl

/-- Through the NULL handle `CmdMapperCfg` gets as far as the failing `Start`:
`Stop` is called, `rep` stays NULL and the result is -1. -/
theorem CmdMapperCfg_NULL (CMD_MAXLEN : Nat) (cmd : List Nat) (mapper : Int)
    (hcmd : 2 ≤ cmd.length) :
    CmdMapperCfg CMD_MAXLEN Cmd.spi cmd mapper
      = (⟨[], [BusOp.start, BusOp.stop], fun _ => true⟩, none, -1) := by
  have hs : SCFrameSend Cmd.spi ((cmd.set 0 CMD_MAPPER_SET).set 1 (mapper % 256).toNat) 2
      = (⟨[], [BusOp.start, BusOp.stop], fun _ => true⟩, SC_ERROR) := by
    rw [send_small_cases Cmd.spi _ 2 (by decide) (by decide)
      (by simp only [List.length_set]; exact hcmd)]
    have hf : Cmd.spi.fail Cmd.spi.log.length = true := rfl
    rw [if_pos hf]
    rfl
  have h2 : (2 : Nat) % 256 = 2 := by decide
  have hne : SC_ERROR ≠ SC_OK := by decide
  have herr : CMD_ERROR < 0 := by decide
  unfold CmdMapperCfg Cmd.CmdSend
  simp only [h2, hs, hne, ne_eq, not_false_eq_true, if_true, herr]

/-- The handle `main` works with before `CmdInit` is the NULL handle, untouched
or as `CmdMapperCfg` leaves it. -/
theorem main_handle (st : List Nat → Nat → Int × Nat) (endPtr : Option Nat)
    (CMD_MAXLEN : Nat) (mpsseIf : Int) (argc : Nat) (opts : List (Nat × List Nat))
    (extra sigErr : Bool) (cmd latPath : List Nat) (latRet cicRet fwRet : Int) :
    (main st endPtr CMD_MAXLEN mpsseIf argc opts extra sigErr cmd latPath latRet cicRet
        fwRet).1 = Cmd.spi ∨
    ∃ m, (main st endPtr CMD_MAXLEN mpsseIf argc opts extra sigErr cmd latPath latRet cicRet
        fwRet).1 = (CmdMapperCfg CMD_MAXLEN Cmd.spi cmd m).1 := by
  unfold main
  by_cases hargc : argc > 1
  swap
  · rw [if_pos hargc]; exact Or.inl rfl
  rw [if_neg (not_not.mpr hargc)]
  cases ho : main.options st endPtr (main.init mpsseIf) opts with
  | error e => exact Or.inl rfl
  | ok v =>
    simp only []
    by_cases h1 : extra = true
    · rw [if_pos h1]; exact Or.inl rfl
    rw [if_neg h1]
    by_cases h2 : v.f.dry = true
    · rw [if_pos h2]; exact Or.inl rfl
    rw [if_neg h2]
    by_cases h3 : sigErr = true
    · rw [if_pos h3]; exact Or.inl rfl
    rw [if_neg h3]
    by_cases h4 : v.fFpga.file ≠ none ∧ latRet ≠ 0
    · rw [if_pos h4]; exact Or.inl rfl
    rw [if_neg h4]
    by_cases h5 : v.fCic.file ≠ none ∧ cicRet ≠ 0
    · rw [if_pos h5]; exact Or.inl rfl
    rw [if_neg h5]
    have hfst : ∀ (a b : List Step × Option Int) (c : Prop) [Decidable c] (x : Mpsse),
        (if c then (x, a) else (x, b)).1 = x := by
      intro a b c _ x
      split <;> rfl
    rw [hfst]
    by_cases hne : v.mapper ≠ INT_MAX
    · rw [if_pos hne]; exact Or.inr ⟨v.mapper, rfl⟩
    · rw [if_neg hne]; exact Or.inl rfl

/-- No run of `main` writes a byte before `CmdInit`: the set-mapper frame is
never sent. -/
theorem main_writes_nothing (st : List Nat → Nat → Int × Nat) (endPtr : Option Nat)
    (CMD_MAXLEN : Nat) (mpsseIf : Int) (argc : Nat) (opts : List (Nat × List Nat))
    (extra sigErr : Bool) (cmd latPath : List Nat) (latRet cicRet fwRet : Int)
    (hcmd : 2 ≤ cmd.length) :
    written (main st endPtr CMD_MAXLEN mpsseIf argc opts extra sigErr cmd latPath latRet
      cicRet fwRet).1.log = [] := by
  rcases main_handle st endPtr CMD_MAXLEN mpsseIf argc opts extra sigErr cmd latPath latRet
    cicRet fwRet with h | ⟨m, h⟩
  · rw [h]; rfl
  · rw [h]; exact CmdMapperCfg_NULL_written CMD_MAXLEN cmd m hcmd

/-- C27, the code at the failing input: the option `-M 2` is accepted and
leaves the mapper 1, and `main` calls `CmdMapperCfg` with it; but the call
comes before `CmdInit`, so it works through the NULL handle: it reports an
error, which `main` does not look at, and no byte is written, so the
set-mapper frame of `[11, 1]` is not sent.  Through an open handle on which no
call fails the same call would write that frame. -/
theorem main_mapper_not_sent :
    main.option strtol none (main.init 2) 77 (cstr "2")
      = Except.ok { main.init 2 with mapper := 1 } ∧
    (main strtol none 32 2 3 [(77, cstr "2")] false false [0, 0] [] 0 0 0).2
      = ([Step.CmdMapperCfg 1, Step.CmdInit 2], none) ∧
    written (main strtol none 32 2 3 [(77, cstr "2")] false false [0, 0] [] 0 0 0).1.log = [] ∧
    (CmdMapperCfg 32 Cmd.spi [0, 0] 1).2.2 = -1 ∧
    written (CmdMapperCfg 32 (⟨[], [], fun _ => false⟩ : Mpsse) [0, 0] 1).1.log
      = [SC_SOF, 2, 11, 1, SC_EOF] := by
  refine ⟨rfl, rfl, ?_, ?_, ?_⟩
  · have hfst : (main strtol none 32 2 3 [(77, cstr "2")] false false [0, 0] [] 0 0 0).1
        = (CmdMapperCfg 32 Cmd.spi [0, 0] 1).1 := rfl
    rw [hfst, CmdMapperCfg_written 32 Cmd.spi [0, 0] 1 (by decide)]
    rfl
  · rw [CmdMapperCfg_NULL 32 [0, 0] 1 (by decide)]
  · rw [CmdMapperCfg_written 32 (⟨[], [], fun _ => false⟩ : Mpsse) [0, 0] 1 (by decide)]
    rfl

/-- C24, the code at the failing input: with the single option `-M 1`, `main`
calls `CmdMapperCfg`, which calls `CmdSend`, first, and `CmdInit` only after
it. -/
theorem main_mapper_before_init :
    (main strtol none 32 2 3 [(77, cstr "1")] false false [0, 0] [] 0 0 0).2
      = ([Step.CmdMapperCfg 0, Step.CmdInit 2], none) := by
  rfl

/-! ## Claims on the error paths and the RAM commands -/

/-- When `Start` fails, `SCFrameSend` of 1 to 32 bytes calls `Stop` and
reports the error. -/
theorem send_start_fails (m : Mpsse) (data : List Nat) (n : Nat) (h1 : 1 ≤ n)
    (h32 : n ≤ 32) (hlen : n ≤ data.length) (hf : m.fail m.log.length = true) :
    SCFrameSend m data n
      = (⟨m.rx, m.log ++ [BusOp.start, BusOp.stop], m.fail⟩, SC_ERROR) := by
  rw [send_small_cases m data n h1 h32 hlen, if_pos hf]

/-- When the first `Start` fails, the serial `CmdSendLongCmd` returns
`CMD_ERROR` and leaves `*rep` as it was. -/
theorem long_cmd_start_fails (CMD_MAXLEN : Nat) (hpos : 0 < CMD_MAXLEN) (spi : Mpsse)
    (cmd : List Nat) (cmdLen : Nat) (data : List Nat) (dataLen : Int)
    (rep : Option (List Nat)) (h1 : 1 ≤ cmdLen) (h32 : cmdLen ≤ 32)
    (hlen : cmdLen ≤ cmd.length) (hf : spi.fail spi.log.length = true) :
    Cmd.CmdSendLongCmd CMD_MAXLEN hpos spi cmd cmdLen data dataLen rep
      = (⟨spi.rx, spi.log ++ [BusOp.start, BusOp.stop], spi.fail⟩, rep, CMD_ERROR) := by
  have hmod : cmdLen % 256 = cmdLen := by omega
  unfold Cmd.CmdSendLongCmd
  simp only [hmod, send_start_fails spi cmd cmdLen h1 h32 hlen hf]
  have hne : SC_OK ≠ SC_ERROR := by decide
  simp only [hne, ne_eq, not_false_eq_true, if_true]

/-- When the first `Start` fails, the serial `CmdSendLongRep` returns
`CMD_ERROR` and leaves `*rep` as it was. -/
theorem long_rep_start_fails (CMD_MAXLEN : Nat) (hpos : 0 < CMD_MAXLEN)
    (h255 : CMD_MAXLEN ≤ 255) (spi : Mpsse) (cmd : List Nat) (cmdLen : Nat)
    (rep : Option (List Nat)) (data : List Nat) (recvLen : Int) (h1 : 1 ≤ cmdLen)
    (h32 : cmdLen ≤ 32) (hlen : cmdLen ≤ cmd.length) (hf : spi.fail spi.log.length = true) :
    Cmd.CmdSendLongRep CMD_MAXLEN hpos h255 spi cmd cmdLen rep data recvLen
      = (⟨spi.rx, spi.log ++ [BusOp.start, BusOp.stop], spi.fail⟩, rep, data, CMD_ERROR) := by
  have hmod : cmdLen % 256 = cmdLen := by omega
  unfold Cmd.CmdSendLongRep
  simp only [hmod, send_start_fails spi cmd cmdLen h1 h32 hlen hf]
  have hne : SC_OK ≠ SC_ERROR := by decide
  simp only [hne, ne_eq, not_false_eq_true, if_true]

/-- When the first `Start` fails, the error path of `AllocAndFlash` reads
`rep->command` through the NULL `rep`. -/
theorem flash_start_fails (CMD_MAXLEN : Nat) (hpos : 0 < CMD_MAXLEN) (spi : Mpsse)
    (cmd : List Nat) (chip : Nat) (content : List Nat) (f_addr f_len : Nat)
    (hcmd : 6 ≤ cmd.length) (hchip : chip ≤ PROG_CHIP_MAX) (h0 : 0 < f_len)
    (hlen : f_len ≤ content.length) (hf : spi.fail spi.log.length = true) :
    AllocAndFlash CMD_MAXLEN hpos spi cmd chip (some content) f_addr f_len
      = (⟨spi.rx, spi.log ++ [BusOp.start, BusOp.stop], spi.fail⟩, Ret.nullDeref) := by
  have hnot : ¬ chip > PROG_CHIP_MAX := Nat.not_lt.mpr hchip
  have h1 : ¬ f_len = 0 := by omega
  have h2 : ¬ content.length < f_len := by omega
  have h3 : 0 < f_len := h0
  unfold AllocAndFlash
  simp only [hnot, if_false, h1, h2, or_self]
  rw [AllocAndFlash.loop]
  simp only [h3, if_true]
  rw [long_cmd_start_fails CMD_MAXLEN hpos spi _ sizeofCmdRdWrHdr _ _ none (by decide)
    (by decide) (by rw [setHdr_length, List.length_set]; exact hcmd) hf]
  have hne : CMD_ERROR ≠ CMD_OK := by decide
  simp only [hne, ne_eq, not_false_eq_true, true_or, if_true]

/-- When the first `Start` fails, the error path of `AllocAndRead` reads
`rep->command` through the NULL `rep`. -/
theorem read_start_fails (CMD_MAXLEN : Nat) (hpos : 0 < CMD_MAXLEN) (h255 : CMD_MAXLEN ≤ 255)
    (spi : Mpsse) (cmd : List Nat) (chip : Nat) (readBuf : List Nat) (f_addr f_len : Nat)
    (hcmd : 6 ≤ cmd.length) (hchip : chip ≤ PROG_CHIP_MAX) (h0 : 0 < f_len)
    (hf : spi.fail spi.log.length = true) :
    AllocAndRead CMD_MAXLEN hpos h255 spi cmd chip readBuf f_addr f_len
      = (⟨spi.rx, spi.log ++ [BusOp.start, BusOp.stop], spi.fail⟩, Ret.nullDeref) := by
  have hnot : ¬ chip > PROG_CHIP_MAX := Nat.not_lt.mpr hchip
  unfold AllocAndRead
  simp only [hnot, if_false]
  rw [AllocAndRead.loop]
  simp only [h0, if_true]
  rw [long_rep_start_fails CMD_MAXLEN hpos h255 spi _ sizeofCmdRdWrHdr none _ _ (by decide)
    (by decide) (by rw [setHdr_length, List.length_set]; exact hcmd) hf]
  have hne : CMD_ERROR ≠ ((min 32768 (f_len - 0) : Nat) : Int) := by
    simp only [CMD_ERROR]; omega
  simp only [hne, ne_eq, not_false_eq_true, true_or, if_true]

/-- When the first `Start` fails, the error path of `AllocAndRamRead` reads
`rep->command` through the NULL `rep`. -/
theorem ram_read_start_fails (CMD_MAXLEN : Nat) (hpos : 0 < CMD_MAXLEN)
    (h255 : CMD_MAXLEN ≤ 255) (spi : Mpsse) (cmd : List Nat) (readBuf : List Nat)
    (f_addr f_len : Nat) (hcmd : 6 ≤ cmd.length)
    (hrange : ¬ (PROG_SRAM_BASE > f_addr ∨
      PROG_SRAM_BASE + PROG_SRAM_LEN < (f_addr + f_len) % 4294967296))
    (hf : spi.fail spi.log.length = true) :
    AllocAndRamRead CMD_MAXLEN hpos h255 spi cmd readBuf f_addr f_len
      = (⟨spi.rx, spi.log ++ [BusOp.start, BusOp.stop], spi.fail⟩, Ret.nullDeref) := by
  unfold AllocAndRamRead
  simp only [hrange, if_false]
  rw [long_rep_start_fails CMD_MAXLEN hpos h255 spi _ sizeofCmdRdWrHdr none _ _ (by decide)
    (by decide) (by rw [setHdr_length, List.length_set]; exact hcmd) hf]

/-- C28, the code at the failing input: on a bus whose very first call fails
no reply is received and `rep` is still NULL, and the error paths of
`AllocAndFlash`, `AllocAndRead` and `AllocAndRamRead` all end by reading
`rep->command` through that NULL pointer instead of returning NULL. -/
theorem Alloc_error_path_reads_null_reply :
    (AllocAndFlash 32 (by decide) ⟨[], [], fun _ => true⟩ [0, 0, 0, 0, 0, 0] PROG_CHIP_PRG
        (some [0xAA]) 0 1).2 = Ret.nullDeref ∧
    (AllocAndRead 32 (by decide) (by decide) ⟨[], [], fun _ => true⟩ [0, 0, 0, 0, 0, 0]
        PROG_CHIP_PRG [0] 0 1).2 = Ret.nullDeref ∧
    (AllocAndRamRead 32 (by decide) (by decide) ⟨[], [], fun _ => true⟩ [0, 0, 0, 0, 0, 0]
        [0] PROG_SRAM_BASE 1).2 = Ret.nullDeref ∧
    Ret.nullDeref ≠ Ret.null := by
  refine ⟨?_, ?_, ?_, by decide⟩
  · rw [flash_start_fails 32 (by decide) ⟨[], [], fun _ => true⟩ [0, 0, 0, 0, 0, 0]
      PROG_CHIP_PRG [0xAA] 0 1 (by decide) (by decide) (by decide) (by decide) rfl]
  · rw [read_start_fails 32 (by decide) (by decide) ⟨[], [], fun _ => true⟩ [0, 0, 0, 0, 0, 0]
      PROG_CHIP_PRG [0] 0 1 (by decide) (by decide) (by decide) rfl]
  · rw [ram_read_start_fails 32 (by decide) (by decide) ⟨[], [], fun _ => true⟩
      [0, 0, 0, 0, 0, 0] [0] PROG_SRAM_BASE 1 (by decide) (by decide) rfl]

theorem toInt32_small (L : Nat) (h : L < 2147483648) : toInt32 (L : Int) = (L : Int) := by
  unfold toInt32
  omega

theorem toU32_ok_ne (L : Nat) (h : 0 < L) : toU32 CMD_OK ≠ L := by
  have h0 : toU32 CMD_OK = 0 := by simp [toU32, CMD_OK]
  omega

/-- On a bus that never fails, with a well-formed reply, once the range check
of `AllocAndRamWrite` is passed and the file read, the command and the whole
image go out and `CmdSendLongCmd` returns `CMD_OK`; `AllocAndRamWrite` compares
that value with `f->len` and returns NULL. -/
theorem ram_write_noFail (CMD_MAXLEN : Nat) (hpos : 0 < CMD_MAXLEN) (hC : CMD_MAXLEN ≤ 255)
    (spi : Mpsse) (cmd content : List Nat) (f_addr f_len L : Nat) (reply rest : List Nat)
    (hnf : NoFail spi) (hcmd : 6 ≤ cmd.length)
    (hrange : ¬ (PROG_SRAM_BASE > f_addr ∨
      PROG_SRAM_BASE + PROG_SRAM_LEN < (f_addr + f_len) % 4294967296))
    (hL : (if f_len = 0 then content.length else f_len) = L) (h0 : 0 < L)
    (hLc : L ≤ content.length) (hL31 : L < 2147483648)
    (hrx : spi.rx = frameBytes reply ++ rest) (hrl : reply.length ≤ CMD_MAXLEN) :
    ∃ chunks : List (List Nat),
      chunks.flatten = content.take L ∧
      Cmd.CmdSendLongCmd CMD_MAXLEN hpos spi
          (CMD_SET_LEN (CMD_SET_ADDR (cmd.set 0 CMD_RAM_WRITE) 1 (f_addr - PROG_SRAM_BASE)) 4 L)
          sizeofCmdRdWrHdr (content.take L) (L : Int) none
        = (⟨rest, spi.log
              ++ [BusOp.start, BusOp.write (frameBytes
                    (rdWrCmd CMD_RAM_WRITE (f_addr - PROG_SRAM_BASE) L)), BusOp.stop]
              ++ recvOps reply ++ chunks.flatMap frameOps, spi.fail⟩,
            some (reply ++ [SC_EOF]), CMD_OK) ∧
      AllocAndRamWrite CMD_MAXLEN hpos spi cmd (some content) f_addr f_len
        = (⟨rest, spi.log
              ++ [BusOp.start, BusOp.write (frameBytes
                    (rdWrCmd CMD_RAM_WRITE (f_addr - PROG_SRAM_BASE) L)), BusOp.stop]
              ++ recvOps reply ++ chunks.flatMap frameOps, spi.fail⟩, Ret.null) := by
  have hlen2 : (if f_len = 0 then content.length % 4294967296 else f_len) = L := by
    by_cases hz : f_len = 0
    · simp only [hz, if_true] at hL ⊢
      rw [hL]
      exact Nat.mod_eq_of_lt (by omega)
    · simp only [hz, if_false] at hL ⊢
      exact hL
  obtain ⟨hh, hl6⟩ := set_head cmd CMD_RAM_WRITE hcmd
  have hrx2 : spi.rx = SC_SOF :: reply.length :: (reply ++ SC_EOF :: rest) := by
    rw [hrx]
    simp [frameBytes]
  obtain ⟨chunks, hj, _, hlong⟩ := long_cmd_noFail CMD_MAXLEN hpos hC spi
    (CMD_SET_LEN (CMD_SET_ADDR (cmd.set 0 CMD_RAM_WRITE) 1 (f_addr - PROG_SRAM_BASE)) 4 L)
    sizeofCmdRdWrHdr (content.take L) (L : Int) none reply rest hnf (by decide) (by decide)
    (by rw [setHdr_length]; exact hl6) hrx2 hrl
    (by simp only [List.length_take]; omega)
  rw [setHdr_take _ _ _ hl6, hh] at hlong
  simp only [Int.toNat_ofNat, List.take_take, Nat.min_self] at hj
  have hlog : spi.log
        ++ [BusOp.start, BusOp.write (SC_SOF :: sizeofCmdRdWrHdr ::
              (rdWrCmd CMD_RAM_WRITE (f_addr - PROG_SRAM_BASE) L ++ [SC_EOF])), BusOp.stop]
        ++ [BusOp.start, BusOp.read 1, BusOp.read 1, BusOp.read (reply.length + 1), BusOp.stop]
        ++ chunks.flatMap frameOps
      = spi.log
        ++ [BusOp.start, BusOp.write (frameBytes
              (rdWrCmd CMD_RAM_WRITE (f_addr - PROG_SRAM_BASE) L)), BusOp.stop]
        ++ recvOps reply ++ chunks.flatMap frameOps := rfl
  rw [hlog] at hlong
  refine ⟨chunks, hj, hlong, ?_⟩
  have hi : toInt32 (L : Int) = (L : Int) := toInt32_small L hL31
  have hc : ¬ (L = 0 ∨ content.length < L) := not_or.mpr ⟨Nat.pos_iff_ne_zero.mp h0,
    Nat.not_lt.mpr hLc⟩
  have hu : toU32 CMD_OK ≠ L := toU32_ok_ne L h0
  unfold AllocAndRamWrite
  simp only [hrange, if_false, hlen2, hc, hi, hlong, hu, ne_eq, not_false_eq_true, if_true]

/-- C26, the code at the failing input: one byte written to SRAM address
`0x6000` on a bus that never fails, the device replying with status 0:
`CmdSendLongCmd` returns `CMD_OK` with the reply status `CMD_REP_OK`, and
`AllocAndRamWrite` returns NULL. -/
theorem AllocAndRamWrite_null_on_success :
    (Cmd.CmdSendLongCmd 32 (by decide) ⟨frameBytes [0] ++ [], [], fun _ => false⟩
        [CMD_RAM_WRITE, 0, 0, 0, 0, 1] sizeofCmdRdWrHdr [0xAB] 1 none).2
      = (some [CMD_REP_OK, SC_EOF], CMD_OK) ∧
    (AllocAndRamWrite 32 (by decide) ⟨frameBytes [0] ++ [], [], fun _ => false⟩
        [0, 0, 0, 0, 0, 0] (some [0xAB]) 0x6000 1).2 = Ret.null := by
  obtain ⟨chunks, _, hl, hr⟩ := ram_write_noFail 32 (by decide) (by decide)
    ⟨frameBytes [0] ++ [], [], fun _ => false⟩ [0, 0, 0, 0, 0, 0] [0xAB] 0x6000 1 1 [0] []
    (fun _ _ => rfl) (by decide) (by decide) rfl (by decide) (by decide) (by decide) rfl
    (by decide)
  have hcmd : CMD_SET_LEN (CMD_SET_ADDR (([0, 0, 0, 0, 0, 0] : List Nat).set 0 CMD_RAM_WRITE) 1
      (0x6000 - PROG_SRAM_BASE)) 4 1 = [CMD_RAM_WRITE, 0, 0, 0, 0, 1] := by decide
  rw [hcmd] at hl
  refine ⟨?_, ?_⟩
  · have hl2 := congrArg Prod.snd hl
    simp only [List.take_succ_cons, List.take_zero, Nat.cast_one] at hl2
    rw [hl2]
    rfl
  · rw [hr]

/-- C29, the code at two failing inputs.  Write: address `0x7FFF` with
`len = 0` and a file of 2 bytes passes the range check, which is made before
the file size is taken for `len`; the command `[9, 0x00, 0x1F, 0xFF, 0x00, 0x02]`
goes out, one byte past the end of the SRAM.  Read: address `0xFFFFF000` with
`len = 0x2000` passes the check because `addr + len` wraps around in 32 bits;
the command `[10, 0xFF, 0x90, 0x00, 0x20, 0x00]` goes out. -/
theorem ram_commands_outside_sram (readBuf : List Nat) :
    ((AllocAndRamWrite 32 (by decide) ⟨frameBytes [0] ++ [], [], fun _ => false⟩
        [0, 0, 0, 0, 0, 0] (some [1, 2]) 0x7FFF 0).1.log.take 3
      = [BusOp.start, BusOp.write (frameBytes [9, 0x00, 0x1F, 0xFF, 0x00, 0x02]), BusOp.stop]) ∧
    ¬ ((0x7FFF - 0x6000) + 2 ≤ 8192) ∧
    ((AllocAndRamRead 32 (by decide) (by decide) ⟨[], [], fun _ => false⟩
        [0, 0, 0, 0, 0, 0] readBuf 0xFFFFF000 0x2000).1.log.take 3
      = [BusOp.start, BusOp.write (frameBytes [10, 0xFF, 0x90, 0x00, 0x20, 0x00]),
          BusOp.stop]) ∧
    ¬ ((0xFFFFF000 - 0x6000) + 0x2000 ≤ 8192) := by
  refine ⟨?_, by norm_num, ?_, by norm_num⟩
  · obtain ⟨chunks, _, _, hr⟩ := ram_write_noFail 32 (by decide) (by decide)
      ⟨frameBytes [0] ++ [], [], fun _ => false⟩ [0, 0, 0, 0, 0, 0] [1, 2] 0x7FFF 0 2 [0] []
      (fun _ _ => rfl) (by decide) (by decide) rfl (by decide) (by decide) (by decide) rfl
      (by decide)
    rw [hr]
    rfl
  · have hcmd : CMD_SET_LEN (CMD_SET_ADDR (([0, 0, 0, 0, 0, 0] : List Nat).set 0 CMD_RAM_READ) 1
        (0xFFFFF000 - PROG_SRAM_BASE)) 4 0x2000 = [10, 0xFF, 0x90, 0x00, 0x20, 0x00] := by
      simp [CMD_SET_LEN, CMD_SET_ADDR, CMD_RAM_READ, PROG_SRAM_BASE, Nat.shiftRight_eq_div_pow]
    have hrange : ¬ (PROG_SRAM_BASE > 0xFFFFF000 ∨
        PROG_SRAM_BASE + PROG_SRAM_LEN < (0xFFFFF000 + 0x2000) % 4294967296) := by
      simp only [PROG_SRAM_BASE, PROG_SRAM_LEN]
      omega
    unfold AllocAndRamRead
    simp only [hrange, if_false, hcmd]
    simp [Cmd.CmdSendLongRep, SCFrameSend, SCFrameSend.loop, SCFrameRecv, SCFrameRecv.seek,
      Start, Stop, Write, Read, Mpsse.record, Mpsse.status, buildFrame, SC_MAX_DATALEN,
      MPSSE_OK, SC_OK, SC_SOF, SC_EOF, sizeofCmdRdWrHdr, frameBytes]

end Mk3Prog
